import Mathlib

/-!
# TommyPROM: write engine and address driver

A shallow embedding of `PromDevice::writeData` (PromDevice.cpp) and of
`PromAddressDriver` (PromAddressDriver.cpp), with the properties of the
specification proved over it.

Conventions.
* `uint32_t` values are natural numbers; every operation that can wrap is
  written with an explicit `% 2 ^ 32` (`add32`, `sub32`).
* The block size `mBlockSize` is an `unsigned int`; the theorems that need
  its range assume no more than `bs < 2 ^ 32`.
* The device primitives `burnByte` and `burnBlock` are pure virtual in the
  source.  They are a parameter here: a `Device σ` is a pair of state
  transformers over an arbitrary device state `σ`, each returning the
  success flag of the call.
* Every primitive call made by `writeData` is recorded, in order, in the
  `trace` of the `Outcome`, together with the call site, the arguments and
  the flag the primitive returned.
-/

namespace TommyPROM

/-! ## Machine arithmetic -/

/-- Addition of two `uint32_t` values. -/
def add32 (a b : Nat) : Nat := (a + b) % 2 ^ 32

/-- Subtraction of two `uint32_t` values. -/
def sub32 (a b : Nat) : Nat := (a + 2 ^ 32 - b) % 2 ^ 32

/-! ## Primitive calls and their record -/

/-- The three places of `writeData` that call a primitive: the byte loop
(line 26), the lead-in chunk (line 43) and the block loop (line 56). -/
inductive Site where
  | byteLoop
  | leadIn
  | blockLoop
  deriving DecidableEq, Repr

/-- One primitive call with its arguments.  For `burnBlock` the pointer
argument `data + offset` is recorded by its `offset` into the buffer. -/
inductive Call where
  | burnByte (value address : Nat)
  | burnBlock (offset length address : Nat)
  deriving DecidableEq, Repr

/-- A recorded call: where it was made, what was called, what it returned. -/
structure Event where
  site : Site
  call : Call
  ok : Bool
  deriving DecidableEq, Repr

/-- Address argument of a call. -/
def Call.addr : Call → Nat
  | .burnByte _ a => a
  | .burnBlock _ _ a => a

/-- Length argument of a block call (a byte call programs one byte). -/
def Call.size : Call → Nat
  | .burnByte _ _ => 1
  | .burnBlock _ n _ => n

/-- Buffer offset of the data a call programs. -/
def Call.off : Call → Nat
  | .burnByte _ _ => 0
  | .burnBlock o _ _ => o

/-- Whether the call is a `burnBlock` call. -/
def Call.isBlock : Call → Bool
  | .burnByte _ _ => false
  | .burnBlock _ _ _ => true

/-- The device-specific primitives.  `burnByte value address` and
`burnBlock ptr length address` act on the device state and return the
success flag.  The pointer `data + offset` is the buffer seen from
`offset` on. -/
structure Device (σ : Type) where
  burnByte : Nat → Nat → σ → Bool × σ
  burnBlock : (Nat → Nat) → Nat → Nat → σ → Bool × σ

/-- Result of `writeData`: the returned status, the device state left behind
and the primitive calls made, in order. -/
structure Outcome (σ : Type) where
  status : Bool
  dev : σ
  trace : List Event

variable {σ : Type}

/-! ## `PromDevice::writeData` -/

/-- The byte loop of `writeData` (lines 24-31), entered with loop counter
`ix`.  `ix < len < 2 ^ 32`, so `ix++` does not wrap; `address + ix` does. -/
def byteLoop (d : Device σ) (data : Nat → Nat) (len address ix : Nat) (s : σ) :
    Outcome σ :=
  if ix < len then
    let res := d.burnByte (data ix) (add32 address ix) s
    let ev : Event := ⟨.byteLoop, .burnByte (data ix) (add32 address ix), res.1⟩
    if res.1 = false then
      ⟨false, res.2, [ev]⟩
    else
      let rest := byteLoop d data len address (ix + 1) res.2
      ⟨rest.status, rest.dev, ev :: rest.trace⟩
  else
    ⟨true, s, []⟩
termination_by len - ix

/-- Chunk size of one block-loop iteration (line 55). -/
def loopChunk (bs len : Nat) : Nat := if len > bs then bs else len

/-- The block loop of `writeData` (lines 53-63), entered with the remaining
length `len` and the running `offset`.  It is only reached with a non-zero
block size. -/
def blockLoop (d : Device σ) (data : Nat → Nat) (bs : Nat) (hbs : 0 < bs)
    (address len offset : Nat) (s : σ) : Outcome σ :=
  if _ : len > 0 then
    let chunkSize := loopChunk bs len
    let res := d.burnBlock (fun i => data (offset + i)) chunkSize (add32 address offset) s
    let ev : Event := ⟨.blockLoop, .burnBlock offset chunkSize (add32 address offset), res.1⟩
    if res.1 = false then
      ⟨false, res.2, [ev]⟩
    else
      let rest := blockLoop d data bs hbs address (sub32 len chunkSize)
        (add32 offset chunkSize) res.2
      ⟨rest.status, rest.dev, ev :: rest.trace⟩
  else
    ⟨true, s, []⟩
termination_by len
decreasing_by
  unfold sub32 loopChunk
  split
  · rcases Nat.lt_or_ge len (2 ^ 32) with _ | h1
    · rw [show len + 2 ^ 32 - bs = (len - bs) + 2 ^ 32 by omega, Nat.add_mod_right]
      exact lt_of_le_of_lt (Nat.mod_le _ _) (by omega)
    · exact lt_of_lt_of_le (Nat.mod_lt _ (by norm_num)) h1
  · rw [show len + 2 ^ 32 - len = 2 ^ 32 by omega, Nat.mod_self]
    assumption

/-- Size of the lead-in chunk (lines 41-42). -/
def leadChunk (bs len address : Nat) : Nat :=
  let chunkSize := sub32 bs (address &&& (bs - 1))
  if chunkSize > len then len else chunkSize

/-- The function `PromDevice::writeData(data, len, address)` for a profile
with block size `mBlockSize`, run on a device in state `s`. -/
def writeData (d : Device σ) (mBlockSize : Nat) (data : Nat → Nat)
    (len address : Nat) (s : σ) : Outcome σ :=
  if h : mBlockSize = 0 then
    byteLoop d data len address 0 s
  else
    if address &&& (mBlockSize - 1) ≠ 0 then
      let chunkSize := leadChunk mBlockSize len address
      let res := d.burnBlock data chunkSize address s
      let ev : Event := ⟨.leadIn, .burnBlock 0 chunkSize address, res.1⟩
      if res.1 = false then
        ⟨false, res.2, [ev]⟩
      else
        let rest := blockLoop d data mBlockSize (Nat.pos_of_ne_zero h) address
          (sub32 len chunkSize) (add32 0 chunkSize) res.2
        ⟨rest.status, rest.dev, ev :: rest.trace⟩
    else
      blockLoop d data mBlockSize (Nat.pos_of_ne_zero h) address len 0 s

/-! ## Devices used to run the engine on concrete requests -/

/-- A device whose primitives always succeed. -/
def okDevice : Device Unit where
  burnByte := fun _ _ s => (true, s)
  burnBlock := fun _ _ _ s => (true, s)

/-- A device that counts the calls made on it and fails exactly on call
number `k` (counted from 1). -/
def failOnCall (k : Nat) : Device Nat where
  burnByte := fun _ _ n => (decide (n + 1 ≠ k), n + 1)
  burnBlock := fun _ _ _ n => (decide (n + 1 ≠ k), n + 1)

/-! ## Reading a trace -/

/-- The call the byte loop makes at loop counter `i`, with result `ok`. -/
def byteEvent (data : Nat → Nat) (address : Nat) (ok : Bool) (i : Nat) : Event :=
  ⟨.byteLoop, .burnByte (data i) (add32 address i), ok⟩

/-- Effect of one recorded call on the device. -/
def Device.perform (d : Device σ) (data : Nat → Nat) (c : Call) (s : σ) : Bool × σ :=
  match c with
  | .burnByte v a => d.burnByte v a s
  | .burnBlock o n a => d.burnBlock (fun i => data (o + i)) n a s

/-- The device state reached by performing the recorded calls in order and
nothing else. -/
def replay (d : Device σ) (data : Nat → Nat) : List Event → σ → σ
  | [], s => s
  | e :: es, s => replay d data es (d.perform data e.call s).2

/-- Addresses of the recorded calls, in call order. -/
def addresses (t : List Event) : List Nat := t.map (fun e => e.call.addr)

/-- Chunk lengths of the recorded calls, in call order. -/
def sizes (t : List Event) : List Nat := t.map (fun e => e.call.size)

/-- The call the block loop makes with remaining length `len` and running
offset `off`, with result `ok`. -/
def blockEvent (bs address : Nat) (ok : Bool) (len off : Nat) : Event :=
  ⟨.blockLoop, .burnBlock off (loopChunk bs len) (add32 address off), ok⟩

/-- The lead-in call of a request of `len` bytes at `address`, with result
`ok`. -/
def leadEvent (bs len address : Nat) (ok : Bool) : Event :=
  ⟨.leadIn, .burnBlock 0 (leadChunk bs len address) address, ok⟩

/-- The recorded calls are block calls chained from buffer offset `off`: each
call takes its data at the running offset, is addressed at
`address + offset` (as a `uint32_t`), and the next call starts where it
ends: `off_0 = off`, `off_(j+1) = off_j + size_j`. -/
def Contiguous (address : Nat) : Nat → List Event → Prop
  | _, [] => True
  | off, e :: es =>
      e.call = .burnBlock off e.call.size (add32 address off) ∧
      Contiguous address (off + e.call.size) es

/-- No recorded call follows a failed one. -/
def FailsOnlyLast (t : List Event) : Prop :=
  ∀ i e, t[i]? = some e → e.ok = false → i + 1 = t.length

/-- Buffer offsets handed to the primitive, call after call. -/
def offsetsCovered (t : List Event) : List Nat :=
  t.flatMap (fun e => List.range' e.call.off e.call.size)

/-- Device addresses handed to the primitive, call after call. -/
def addressesCovered (t : List Event) : List Nat :=
  t.flatMap (fun e => List.range' e.call.addr e.call.size)

/-- Chunk sizes the specification gives for a remaining length `r` once the
address is block aligned: `r / bs` full blocks, then the remainder `r % bs`
when it is not zero. -/
def specFullAndTail (bs r : Nat) : List Nat :=
  List.replicate (r / bs) bs ++ (if r % bs ≠ 0 then [r % bs] else [])

/-- Size of the lead-in chunk as the specification words it: the distance to
the next block boundary, capped at `len`. -/
def specLead (bs a len : Nat) : Nat := min (bs - a % bs) len

/-- Chunk sizes the specification gives for a request of `len` bytes at
address `a`: a lead-in `specLead` when `a` is not a multiple of `bs`,
followed by the full blocks and the remainder of what is left. -/
def specChunkSizes (bs a len : Nat) : List Nat :=
  if a % bs ≠ 0 then
    specLead bs a len :: specFullAndTail bs (len - specLead bs a len)
  else
    specFullAndTail bs len

/-! ## `PromAddressDriver`: registers and lines -/

/-- The AVR output ports the drivers write. -/
inductive Port where
  | A
  | B
  | C
  | D
  | E
  | G
  | H
  deriving DecidableEq, Repr

/-- Complement `~m` of a mask, in an 8-bit register. -/
def not8 (m : Nat) : Nat := 0xFF - m

/-- The line driven by bit `bit` goes from low to high when the register
changes from `old` to `new`. -/
def rising (old new bit : Nat) : Bool := !old.testBit bit && new.testBit bit

/-- Plane `lo` of an address: `address & 0xff`. -/
def loByte (address : Nat) : Nat := address &&& 0xff

/-- Plane `hi` of an address: `(address >> 8) & 0xff`. -/
def hiByte (address : Nat) : Nat := (address >>> 8) &&& 0xff

/-- Plane `upper` of an address: `(address >> 16) & 0xff`. -/
def upperByte (address : Nat) : Nat := (address >>> 16) &&& 0xff

/-! ## `PromAddressDriver`, shift-register realization (Uno, Nano) -/

namespace ShiftRegister

/-- Arduino pin number of `A3` on the Uno. -/
def ADDR_CLK_HI : Nat := 17

/-- Arduino pin number of `A4` on the Uno. -/
def ADDR_CLK_LO : Nat := 18

/-- Arduino pin number of `A5` on the Uno. -/
def ADDR_DATA : Nat := 19

def ADDR_CLK_HI_MASK : Nat := 0x08

def ADDR_CLK_LO_MASK : Nat := 0x10

def ADDR_DATA_MASK : Nat := 0x20

def UPPER_ADDR_MASK : Nat := 0x1c

def RCLK_595_MASK : Nat := 0x20

/-- Modelled from the spec: the hardware around the driver, which is not code.
The registers `DDRB .. PORTD` are the AVR registers the source names.
`hiReg` and `loReg` are the contents of the two external 8-bit shift
registers, `hiOut` and `loOut` their output latches (74LS595).  The
registers share the data line `PC5`; `PC3` clocks the high one, `PC4` the
low one, and `PB5` is the register clock of both. -/
structure Bus where
  DDRB : Nat
  PORTB : Nat
  DDRC : Nat
  PORTC : Nat
  DDRD : Nat
  PORTD : Nat
  hiReg : Nat
  loReg : Nat
  hiOut : Nat
  loOut : Nat
  deriving DecidableEq, Repr

/-- Modelled from the spec: an assignment to `PORTC`.  A rising edge of a
shift clock shifts the register it clocks left by one and takes in the level
the data line had before the assignment. -/
def Bus.writePORTC (v : Nat) (b : Bus) : Bus :=
  { b with
    PORTC := v % 256
    hiReg := if rising b.PORTC (v % 256) 3
      then (2 * b.hiReg + (if b.PORTC.testBit 5 then 1 else 0)) % 256 else b.hiReg
    loReg := if rising b.PORTC (v % 256) 4
      then (2 * b.loReg + (if b.PORTC.testBit 5 then 1 else 0)) % 256 else b.loReg }

/-- Modelled from the spec: an assignment to `PORTB`.  A rising edge of the
register clock copies each shift register into its output latch. -/
def Bus.writePORTB (v : Nat) (b : Bus) : Bus :=
  { b with
    PORTB := v % 256
    hiOut := if rising b.PORTB (v % 256) 5 then b.hiReg else b.hiOut
    loOut := if rising b.PORTB (v % 256) 5 then b.loReg else b.loOut }

/-- State of the driver: the hardware, the two static bytes of `setAddress`,
and the assignments made to output ports so far, oldest first. -/
structure Driver where
  bus : Bus
  lastHi : Nat
  lastUpper : Nat
  writes : List (Port × Nat)

/-- The statement `PORTC = v`. -/
def outPORTC (v : Nat) (s : Driver) : Driver :=
  { s with bus := s.bus.writePORTC v, writes := s.writes ++ [(Port.C, v % 256)] }

/-- The statement `PORTB = v`. -/
def outPORTB (v : Nat) (s : Driver) : Driver :=
  { s with bus := s.bus.writePORTB v, writes := s.writes ++ [(Port.B, v % 256)] }

/-- The statement `DDRB = v`. -/
def outDDRB (v : Nat) (s : Driver) : Driver :=
  { s with bus := { s.bus with DDRB := v % 256 } }

/-- The statement `DDRC = v`. -/
def outDDRC (v : Nat) (s : Driver) : Driver :=
  { s with bus := { s.bus with DDRC := v % 256 } }

/-- Port C bit of the pins `A3`, `A4`, `A5` (`PC3`, `PC4`, `PC5`). -/
def pinMask (pin : Nat) : Nat :=
  if pin = ADDR_CLK_HI then ADDR_CLK_HI_MASK
  else if pin = ADDR_CLK_LO then ADDR_CLK_LO_MASK
  else if pin = ADDR_DATA then ADDR_DATA_MASK
  else 0

/-- Arduino `pinMode(pin, OUTPUT)` on one of the pins `A3 .. A5`. -/
def pinModeOutput (pin : Nat) (s : Driver) : Driver :=
  outDDRC (s.bus.DDRC ||| pinMask pin) s

/-- Arduino `digitalWrite(pin, LOW)` on one of the pins `A3 .. A5`. -/
def digitalWriteLow (pin : Nat) (s : Driver) : Driver :=
  outPORTC (s.bus.PORTC &&& not8 (pinMask pin)) s

/-- The function `PromAddressDriver::setUpperAddress` (line 78). -/
def setUpperAddress (addr : Nat) (s : Driver) : Driver :=
  outPORTB ((s.bus.PORTB &&& not8 UPPER_ADDR_MASK) ||| ((addr <<< 2) &&& UPPER_ADDR_MASK)) s

/-- One iteration of the loop of `setAddressRegister` (lines 102-116), without
the update of `addr`. -/
def shiftBit (addr mask : Nat) (s : Driver) : Driver :=
  let s := if addr &&& 0x80 ≠ 0
    then outPORTC (s.bus.PORTC ||| ADDR_DATA_MASK) s
    else outPORTC (s.bus.PORTC &&& not8 ADDR_DATA_MASK) s
  let s := outPORTC (s.bus.PORTC ||| mask) s
  outPORTC (s.bus.PORTC &&& not8 mask) s

/-- The loop of `setAddressRegister` with `n` iterations left; `addr` is a
byte, so `addr <<= 1` drops the bit shifted out. -/
def shiftLoop : Nat → Nat → Nat → Driver → Driver
  | 0, _, _, s => s
  | n + 1, addr, mask, s => shiftLoop n ((addr <<< 1) % 256) mask (shiftBit addr mask s)

/-- The clock mask `setAddressRegister` selects for `clkPin` (lines 90-94). -/
def clockMask (clkPin : Nat) : Nat :=
  if clkPin = ADDR_CLK_HI then ADDR_CLK_HI_MASK
  else if clkPin = ADDR_CLK_LO then ADDR_CLK_LO_MASK
  else 0

/-- The function `PromAddressDriver::setAddressRegister` (line 88). -/
def setAddressRegister (clkPin addr : Nat) (s : Driver) : Driver :=
  let mask := clockMask clkPin
  let s := outPORTC (s.bus.PORTC &&& not8 mask) s
  let s := shiftLoop 8 addr mask s
  let s := outPORTB (s.bus.PORTB &&& not8 RCLK_595_MASK) s
  let s := outPORTB (s.bus.PORTB ||| RCLK_595_MASK) s
  outPORTB (s.bus.PORTB &&& not8 RCLK_595_MASK) s

/-- The function `PromAddressDriver::setAddress` (line 56); the static locals
`lastHi` and `lastUpper` are fields of the state. -/
def setAddress (address : Nat) (s : Driver) : Driver :=
  let upper := upperByte address
  let hi := hiByte address
  let lo := loByte address
  let s := if upper ≠ s.lastUpper
    then { setUpperAddress upper s with lastUpper := upper } else s
  let s := if hi ≠ s.lastHi
    then { setAddressRegister ADDR_CLK_HI hi s with lastHi := hi } else s
  setAddressRegister ADDR_CLK_LO lo s

/-- The function `PromAddressDriver::begin` (line 35). -/
def begin (s : Driver) : Driver :=
  let s := pinModeOutput ADDR_DATA s
  let s := pinModeOutput ADDR_CLK_LO s
  let s := pinModeOutput ADDR_CLK_HI s
  let s := digitalWriteLow ADDR_DATA s
  let s := digitalWriteLow ADDR_CLK_LO s
  let s := digitalWriteLow ADDR_CLK_HI s
  let s := outDDRB (s.bus.DDRB ||| (UPPER_ADDR_MASK ||| RCLK_595_MASK)) s
  setAddress 0x0000 s

/-- Level the loop of `setAddressRegister` puts on the data line for the byte
`addr`: its bit 7. -/
def dataBit (addr : Nat) : Nat := if addr &&& 0x80 ≠ 0 then 1 else 0

/-- Value of `PORTC` after one loop iteration that starts from `P`, puts the
level `d` on the data line and pulses the clock bit `mask`. -/
def afterBit (mask d P : Nat) : Nat :=
  (((if d ≠ 0 then (P ||| 0x20) % 256 else (P &&& 0xDF) % 256) ||| mask) % 256
    &&& not8 mask) % 256

/-- Value of `PORTC` after `n` loop iterations for the byte `addr`. -/
def portAfter : Nat → Nat → Nat → Nat → Nat
  | 0, _, _, P => P
  | n + 1, addr, mask, P =>
      portAfter n ((addr <<< 1) % 256) mask (afterBit mask (dataBit addr) P)

/-- Contents of a shift register holding `r` after `n` loop iterations have
clocked the byte `addr` into it. -/
def regAfter : Nat → Nat → Nat → Nat
  | 0, _, r => r
  | n + 1, addr, r => regAfter n ((addr <<< 1) % 256) ((2 * r + dataBit addr) % 256)

/-- Value of `PORTB` after the register-clock pulse of `setAddressRegister`
(lines 121-125) that starts from `Q`. -/
def afterLatch (Q : Nat) : Nat :=
  ((((Q &&& 0xDF) % 256 ||| 0x20) % 256) &&& 0xDF) % 256

/-- The static locals of `setAddress` hold their initializer `0xca`. -/
def PowerOn (s : Driver) : Prop := s.lastHi = 0xca ∧ s.lastUpper = 0xca

/-- The extended address lines `A16 .. A18`, read off `PB2 .. PB4`. -/
def Bus.extended (b : Bus) : Nat := (b.PORTB >>> 2) &&& 7

/-- The address the shift registers and the extended lines present. -/
def Bus.address (b : Bus) : Nat := b.loReg ||| (b.hiReg <<< 8) ||| (b.extended <<< 16)

/-- The driver presents the address `a`: the shift registers and their output
latches hold the low and the high byte of `a`, the extended lines carry
bits 16 to 18 of `a`, and the static bytes of `setAddress` hold the high and
the upper byte of `a`; for `a` below `2 ^ 19` the upper byte is what the
extended lines carry. -/
def Presents (s : Driver) (a : Nat) : Prop :=
  s.bus.loReg = a &&& 0xff ∧ s.bus.hiReg = (a >>> 8) &&& 0xff ∧
  s.bus.extended = (a >>> 16) &&& 7 ∧
  s.bus.loOut = a &&& 0xff ∧ s.bus.hiOut = (a >>> 8) &&& 0xff ∧
  s.lastHi = s.bus.hiReg ∧ s.lastUpper = (a >>> 16) &&& 0xff ∧
  s.lastUpper &&& 7 = s.bus.extended ∧
  (a < 2 ^ 19 → s.lastUpper = s.bus.extended)

/-- The requests `setAddress(a)` for `a` in `as`, made in order. -/
def run (as : List Nat) (s : Driver) : Driver := as.foldl (fun s a => setAddress a s) s

end ShiftRegister

/-! ## `PromAddressDriver`, direct-pin realization (Mega) -/

namespace DirectPin

def ADDR_MASK_A : Nat := 0xff

def ADDR_MASK_C : Nat := 0xff

def ADDR_MASK_D : Nat := 0x80

def ADDR_MASK_G : Nat := 0x06

/-- The AVR registers of the Mega the source names.  The address lines are
the pins themselves: `A0 .. A7` on `PA0 .. PA7`, `A8 .. A15` on
`PC7 .. PC0`, `A16` on `PD7`, `A17` on `PG2`, `A18` on `PG1`. -/
structure Bus where
  DDRA : Nat
  PORTA : Nat
  DDRC : Nat
  PORTC : Nat
  DDRD : Nat
  PORTD : Nat
  DDRE : Nat
  PORTE : Nat
  DDRG : Nat
  PORTG : Nat
  DDRH : Nat
  PORTH : Nat
  deriving DecidableEq, Repr

/-- State of the driver: the registers, the two static bytes of `setAddress`,
and the assignments made to output ports so far, oldest first. -/
structure Driver where
  bus : Bus
  lastHi : Nat
  lastUpper : Nat
  writes : List (Port × Nat)

/-- The statement `PORTA = v`. -/
def outPORTA (v : Nat) (s : Driver) : Driver :=
  { s with bus := { s.bus with PORTA := v % 256 }, writes := s.writes ++ [(Port.A, v % 256)] }

/-- The statement `PORTC = v`. -/
def outPORTC (v : Nat) (s : Driver) : Driver :=
  { s with bus := { s.bus with PORTC := v % 256 }, writes := s.writes ++ [(Port.C, v % 256)] }

/-- The statement `PORTD = v`. -/
def outPORTD (v : Nat) (s : Driver) : Driver :=
  { s with bus := { s.bus with PORTD := v % 256 }, writes := s.writes ++ [(Port.D, v % 256)] }

/-- The statement `PORTG = v`. -/
def outPORTG (v : Nat) (s : Driver) : Driver :=
  { s with bus := { s.bus with PORTG := v % 256 }, writes := s.writes ++ [(Port.G, v % 256)] }

/-- The function `PromAddressDriver::setUpperAddress` (line 174). -/
def setUpperAddress (addr : Nat) (s : Driver) : Driver :=
  let s := if addr &&& 0x01 ≠ 0
    then outPORTD (s.bus.PORTD ||| ADDR_MASK_D) s
    else outPORTD (s.bus.PORTD &&& not8 ADDR_MASK_D) s
  let portG := s.bus.PORTG &&& not8 ADDR_MASK_G
  let portG := if addr &&& 0x02 ≠ 0 then portG ||| 0x04 else portG
  let portG := if addr &&& 0x04 ≠ 0 then portG ||| 0x02 else portG
  outPORTG portG s

/-- The value `setLowerAddress` builds for `PORTC` from the high byte
(lines 199-207). -/
def highPattern (addr : Nat) : Nat :=
  let portC := 0
  let portC := if addr &&& 0x01 ≠ 0 then portC ||| 0x80 else portC
  let portC := if addr &&& 0x02 ≠ 0 then portC ||| 0x40 else portC
  let portC := if addr &&& 0x04 ≠ 0 then portC ||| 0x20 else portC
  let portC := if addr &&& 0x08 ≠ 0 then portC ||| 0x10 else portC
  let portC := if addr &&& 0x10 ≠ 0 then portC ||| 0x08 else portC
  let portC := if addr &&& 0x20 ≠ 0 then portC ||| 0x04 else portC
  let portC := if addr &&& 0x40 ≠ 0 then portC ||| 0x02 else portC
  let portC := if addr &&& 0x80 ≠ 0 then portC ||| 0x01 else portC
  portC

/-- The function `PromAddressDriver::setLowerAddress` (line 195). -/
def setLowerAddress (addr : Nat) (isHigh : Bool) (s : Driver) : Driver :=
  if isHigh then outPORTC (highPattern addr) s else outPORTA addr s

/-- The function `PromAddressDriver::setAddress` (line 152); the static locals
`lastHi` and `lastUpper` are fields of the state. -/
def setAddress (address : Nat) (s : Driver) : Driver :=
  let upper := upperByte address
  let hi := hiByte address
  let lo := loByte address
  let s := if upper ≠ s.lastUpper
    then { setUpperAddress upper s with lastUpper := upper } else s
  let s := if hi ≠ s.lastHi
    then { setLowerAddress hi true s with lastHi := hi } else s
  setLowerAddress lo false s

/-- The function `PromAddressDriver::begin` (line 136). -/
def begin (s : Driver) : Driver :=
  let s := { s with bus := { s.bus with DDRA := (s.bus.DDRA ||| ADDR_MASK_A) % 256 } }
  let s := { s with bus := { s.bus with DDRC := (s.bus.DDRC ||| ADDR_MASK_C) % 256 } }
  let s := { s with bus := { s.bus with DDRD := (s.bus.DDRD ||| ADDR_MASK_D) % 256 } }
  let s := { s with bus := { s.bus with DDRG := (s.bus.DDRG ||| ADDR_MASK_G) % 256 } }
  setAddress 0x0000 s

/-- The static locals of `setAddress` hold their initializer `0xca`. -/
def PowerOn (s : Driver) : Prop := s.lastHi = 0xca ∧ s.lastUpper = 0xca

/-- Bit `i` of a register, as 0 or 1. -/
def pin (reg i : Nat) : Nat := if reg.testBit i then 1 else 0

/-- The address lines `A0 .. A7`, read off `PA0 .. PA7`. -/
def Bus.low (b : Bus) : Nat := b.PORTA

/-- The address lines `A8 .. A15`, read off `PC7 .. PC0`. -/
def Bus.high (b : Bus) : Nat :=
  pin b.PORTC 7 + 2 * pin b.PORTC 6 + 4 * pin b.PORTC 5 + 8 * pin b.PORTC 4
    + 16 * pin b.PORTC 3 + 32 * pin b.PORTC 2 + 64 * pin b.PORTC 1 + 128 * pin b.PORTC 0

/-- The address lines `A16 .. A18`, read off `PD7`, `PG2`, `PG1`. -/
def Bus.extended (b : Bus) : Nat := pin b.PORTD 7 + 2 * pin b.PORTG 2 + 4 * pin b.PORTG 1

/-- The address the pins present. -/
def Bus.address (b : Bus) : Nat := b.low ||| (b.high <<< 8) ||| (b.extended <<< 16)

/-- The driver presents the address `a`: the pins carry the low byte, the high
byte and bits 16 to 18 of `a`, and the static bytes of `setAddress` hold the
high and the upper byte of `a`; for `a` below `2 ^ 19` the upper byte is what
the extended lines carry. -/
def Presents (s : Driver) (a : Nat) : Prop :=
  s.bus.low = a &&& 0xff ∧ s.bus.high = (a >>> 8) &&& 0xff ∧
  s.bus.extended = (a >>> 16) &&& 7 ∧
  s.lastHi = s.bus.high ∧ s.lastUpper = (a >>> 16) &&& 0xff ∧
  s.lastUpper &&& 7 = s.bus.extended ∧
  (a < 2 ^ 19 → s.lastUpper = s.bus.extended)

/-- The requests `setAddress(a)` for `a` in `as`, made in order. -/
def run (as : List Nat) (s : Driver) : Driver := as.foldl (fun s a => setAddress a s) s

end DirectPin

/-! ## `PromDevice`: the data bus -/

/-- The 8-bit register value `new` has the bits selected by `sel` equal to `b`
and its other bits as in `old`. -/
def SetsBits (sel : Nat → Prop) (b : Bool) (old new : Nat) : Prop :=
  (∀ k, sel k → new.testBit k = b) ∧ (∀ k, k < 8 → ¬ sel k → new.testBit k = old.testBit k)

/-- The 8-bit register value `new` differs from `old` at most in the bits
selected by `sel`. -/
def KeepsBits (sel : Nat → Prop) (old new : Nat) : Prop :=
  ∀ k, k < 8 → ¬ sel k → new.testBit k = old.testBit k

/-- Arduino constant `OUTPUT`. -/
def OUTPUT : Nat := 1

/-- Arduino constant `INPUT`. -/
def INPUT : Nat := 0

namespace ShiftRegister

/-- The statement `PORTD = v`. -/
def outPORTD (v : Nat) (s : Driver) : Driver :=
  { s with bus := { s.bus with PORTD := v % 256 }, writes := s.writes ++ [(Port.D, v % 256)] }

/-- The statement `DDRD = v`. -/
def outDDRD (v : Nat) (s : Driver) : Driver :=
  { s with bus := { s.bus with DDRD := v % 256 } }

/-- The function `PromDevice::setDataBusMode` without `IS_MEGA` (lines 109-120):
the data bus is on `PB0 .. PB1` and `PD2 .. PD7`. -/
def setDataBusMode (mode : Nat) (s : Driver) : Driver :=
  if mode = OUTPUT then
    let s := outDDRB (s.bus.DDRB ||| 0x03) s
    outDDRD (s.bus.DDRD ||| 0xfc) s
  else
    let s := outDDRB (s.bus.DDRB &&& 0xfc) s
    let s := outDDRD (s.bus.DDRD &&& 0x03) s
    let s := outPORTB (s.bus.PORTB ||| 0x03) s
    outPORTD (s.bus.PORTD ||| 0xfc) s

/-- The input registers `readDataBus` reads; what they hold is decided by the
levels on the pins, outside the program. -/
structure Inputs where
  PINB : Nat
  PIND : Nat
  deriving DecidableEq, Repr

/-- The function `PromDevice::readDataBus` without `IS_MEGA` (line 147); the
result is a `byte`. -/
def readDataBus (i : Inputs) : Nat := ((i.PINB <<< 6) ||| (i.PIND >>> 2)) % 256

/-- The function `PromDevice::writeDataBus` without `IS_MEGA` (lines 168-169). -/
def writeDataBus (data : Nat) (s : Driver) : Driver :=
  let s := outPORTB ((s.bus.PORTB &&& 0xfc) ||| (data >>> 6)) s
  outPORTD ((s.bus.PORTD &&& 0x03) ||| (data <<< 2)) s

/-- Bit `k` of `PORTB`, `DDRB`, `PINB` belongs to the data bus (`PB0`, `PB1`). -/
def dataPinB (k : Nat) : Prop := k < 2

/-- Bit `k` of `PORTD`, `DDRD`, `PIND` belongs to the data bus (`PD2 .. PD7`). -/
def dataPinD (k : Nat) : Prop := 2 ≤ k ∧ k < 8

/-- The input registers are 8 bits wide. -/
def Inputs.Bytes (i : Inputs) : Prop := i.PINB < 256 ∧ i.PIND < 256

/-- External loop-back: each data pin reads the level its port bit drives. -/
def LoopBack (b : Bus) (i : Inputs) : Prop :=
  (∀ k, dataPinB k → i.PINB.testBit k = b.PORTB.testBit k) ∧
  (∀ k, dataPinD k → i.PIND.testBit k = b.PORTD.testBit k)

/-- Two readings of the input registers agree on the eight data pins. -/
def SameDataPins (i j : Inputs) : Prop :=
  (∀ k, dataPinB k → i.PINB.testBit k = j.PINB.testBit k) ∧
  (∀ k, dataPinD k → i.PIND.testBit k = j.PIND.testBit k)

end ShiftRegister

namespace DirectPin

/-- The statement `PORTE = v`. -/
def outPORTE (v : Nat) (s : Driver) : Driver :=
  { s with bus := { s.bus with PORTE := v % 256 }, writes := s.writes ++ [(Port.E, v % 256)] }

/-- The statement `PORTH = v`. -/
def outPORTH (v : Nat) (s : Driver) : Driver :=
  { s with bus := { s.bus with PORTH := v % 256 }, writes := s.writes ++ [(Port.H, v % 256)] }

/-- The statement `DDRE = v`. -/
def outDDRE (v : Nat) (s : Driver) : Driver :=
  { s with bus := { s.bus with DDRE := v % 256 } }

/-- The statement `DDRG = v`. -/
def outDDRG (v : Nat) (s : Driver) : Driver :=
  { s with bus := { s.bus with DDRG := v % 256 } }

/-- The statement `DDRH = v`. -/
def outDDRH (v : Nat) (s : Driver) : Driver :=
  { s with bus := { s.bus with DDRH := v % 256 } }

/-- The function `PromDevice::setDataBusMode` with `IS_MEGA` (lines 123-136):
the data bus is on `PE3 .. PE5`, `PG5` and `PH3 .. PH6`. -/
def setDataBusMode (mode : Nat) (s : Driver) : Driver :=
  if mode = OUTPUT then
    let s := outDDRE (s.bus.DDRE ||| 0x38) s
    let s := outDDRG (s.bus.DDRG ||| 0x20) s
    outDDRH (s.bus.DDRH ||| 0x78) s
  else
    let s := outDDRE (s.bus.DDRE &&& not8 0x38) s
    let s := outDDRG (s.bus.DDRG &&& not8 0x20) s
    let s := outDDRH (s.bus.DDRH &&& not8 0x78) s
    let s := outPORTE (s.bus.PORTE ||| 0x38) s
    let s := outPORTG (s.bus.PORTG ||| 0x20) s
    outPORTH (s.bus.PORTH ||| 0x78) s

/-- The input registers `readDataBus` reads; what they hold is decided by the
levels on the pins, outside the program. -/
structure Inputs where
  PINE : Nat
  PING : Nat
  PINH : Nat
  deriving DecidableEq, Repr

/-- The function `PromDevice::readDataBus` with `IS_MEGA` (lines 149-158). -/
def readDataBus (i : Inputs) : Nat :=
  let data := 0
  let data := if i.PINE &&& 0x10 ≠ 0 then data ||| 0x01 else data
  let data := if i.PINE &&& 0x20 ≠ 0 then data ||| 0x02 else data
  let data := if i.PING &&& 0x20 ≠ 0 then data ||| 0x04 else data
  let data := if i.PINE &&& 0x08 ≠ 0 then data ||| 0x08 else data
  let data := if i.PINH &&& 0x08 ≠ 0 then data ||| 0x10 else data
  let data := if i.PINH &&& 0x10 ≠ 0 then data ||| 0x20 else data
  let data := if i.PINH &&& 0x20 ≠ 0 then data ||| 0x40 else data
  let data := if i.PINH &&& 0x40 ≠ 0 then data ||| 0x80 else data
  data

/-- The function `PromDevice::writeDataBus` with `IS_MEGA` (lines 171-186). -/
def writeDataBus (data : Nat) (s : Driver) : Driver :=
  let portE := s.bus.PORTE &&& not8 0x38
  let portE := if data &&& 0x01 ≠ 0 then portE ||| 0x10 else portE
  let portE := if data &&& 0x02 ≠ 0 then portE ||| 0x20 else portE
  let portE := if data &&& 0x08 ≠ 0 then portE ||| 0x08 else portE
  let s := outPORTE portE s
  let portG := s.bus.PORTG &&& not8 0x20
  let portG := if data &&& 0x04 ≠ 0 then portG ||| 0x20 else portG
  let s := outPORTG portG s
  let portH := s.bus.PORTH &&& not8 0x78
  let portH := if data &&& 0x10 ≠ 0 then portH ||| 0x08 else portH
  let portH := if data &&& 0x20 ≠ 0 then portH ||| 0x10 else portH
  let portH := if data &&& 0x40 ≠ 0 then portH ||| 0x20 else portH
  let portH := if data &&& 0x80 ≠ 0 then portH ||| 0x40 else portH
  outPORTH portH s

/-- Bit `k` of `PORTE`, `DDRE`, `PINE` belongs to the data bus (`PE3 .. PE5`). -/
def dataPinE (k : Nat) : Prop := 3 ≤ k ∧ k ≤ 5

/-- Bit `k` of `PORTG`, `DDRG`, `PING` belongs to the data bus (`PG5`). -/
def dataPinG (k : Nat) : Prop := k = 5

/-- Bit `k` of `PORTH`, `DDRH`, `PINH` belongs to the data bus (`PH3 .. PH6`). -/
def dataPinH (k : Nat) : Prop := 3 ≤ k ∧ k ≤ 6

/-- The level of data line `k` (`D2 + k` on the board) in registers `E`, `G`,
`H` of one kind: data bits 0 to 7 are on `PE4`, `PE5`, `PG5`, `PE3`, `PH3`,
`PH4`, `PH5`, `PH6`. -/
def dataLine (E G H : Nat) (k : Nat) : Bool :=
  match k with
  | 0 => E.testBit 4
  | 1 => E.testBit 5
  | 2 => G.testBit 5
  | 3 => E.testBit 3
  | 4 => H.testBit 3
  | 5 => H.testBit 4
  | 6 => H.testBit 5
  | 7 => H.testBit 6
  | _ => false

/-- External loop-back: each data pin reads the level its port bit drives. -/
def LoopBack (b : Bus) (i : Inputs) : Prop :=
  (∀ k, dataPinE k → i.PINE.testBit k = b.PORTE.testBit k) ∧
  (∀ k, dataPinG k → i.PING.testBit k = b.PORTG.testBit k) ∧
  (∀ k, dataPinH k → i.PINH.testBit k = b.PORTH.testBit k)

/-- Two readings of the input registers agree on the eight data pins. -/
def SameDataPins (i j : Inputs) : Prop :=
  (∀ k, dataPinE k → i.PINE.testBit k = j.PINE.testBit k) ∧
  (∀ k, dataPinG k → i.PING.testBit k = j.PING.testBit k) ∧
  (∀ k, dataPinH k → i.PINH.testBit k = j.PINH.testBit k)

end DirectPin

/-! ## Signals seen by the shift registers -/

namespace ShiftRegister

/-- Modelled from the spec: the levels the data line `PC5` has at the rising
edges of bit `bit` of `PORTC`, while `PORTC`, holding `P`, is assigned the
values `vs` in order.  As in `Bus.writePORTC`, an edge takes the level the
data line had before the assignment that raises the clock. -/
def edgeData (bit : Nat) : Nat → List Nat → List Bool
  | _, [] => []
  | P, v :: vs => (if rising P v bit then [P.testBit 5] else []) ++ edgeData bit v vs

/-- The values one iteration of the loop of `setAddressRegister` assigns to
`PORTC`, which holds `P` (lines 105-114). -/
def bitWrites (addr mask P : Nat) : List Nat :=
  let c1 := (if addr &&& 0x80 ≠ 0 then P ||| ADDR_DATA_MASK else P &&& not8 ADDR_DATA_MASK) % 256
  let c2 := (c1 ||| mask) % 256
  let c3 := (c2 &&& not8 mask) % 256
  [c1, c2, c3]

/-- The values `n` iterations of the loop of `setAddressRegister` assign to
`PORTC`, which holds `P`. -/
def loopWrites : Nat → Nat → Nat → Nat → List Nat
  | 0, _, _, _ => []
  | n + 1, addr, mask, P =>
      bitWrites addr mask P ++
        loopWrites n ((addr <<< 1) % 256) mask ((bitWrites addr mask P).getLastD P)

/-- Bit 7 of the byte `addr` at each of `n` loop iterations, `addr` being
shifted left by one in between. -/
def msbFirst : Nat → Nat → List Bool
  | 0, _ => []
  | n + 1, addr => addr.testBit 7 :: msbFirst n ((addr <<< 1) % 256)

/-- The assignments `vs` made to the port `p`, as log entries. -/
def onPort (p : Port) (vs : List Nat) : List (Port × Nat) := vs.map (fun v => (p, v))

end ShiftRegister

namespace ShiftRegister

/-- The call that takes the driver from `s` to `out` sends the byte `v` with
the shift clock on bit `bit` of `PORTC`.  Its port assignments are
assignments `cs` to `PORTC` followed by three assignments to `PORTB`.  The
selected clock has exactly eight rising edges, at which the data line carries
bit 7, bit 6, .., bit 0 of `v`; the shift clock on bit `other` has none.  The
register clock `PB5` is set low, high, low, its one rising edge being at the
second of these assignments.  The selected clock and the register clock are
low in `out`. -/
def Serializes (bit other v : Nat) (s out : Driver) : Prop :=
  ∃ cs q1 q2 q3,
    out.writes = s.writes ++ onPort Port.C cs ++ onPort Port.B [q1, q2, q3] ∧
    edgeData bit s.bus.PORTC cs
      = [v.testBit 7, v.testBit 6, v.testBit 5, v.testBit 4, v.testBit 3, v.testBit 2,
          v.testBit 1, v.testBit 0] ∧
    edgeData other s.bus.PORTC cs = [] ∧
    (q1.testBit 5 = false ∧ q2.testBit 5 = true ∧ q3.testBit 5 = false) ∧
    (rising s.bus.PORTB q1 5 = false ∧ rising q1 q2 5 = true ∧ rising q2 q3 5 = false) ∧
    (out.bus.PORTC = cs.getLastD s.bus.PORTC ∧ out.bus.PORTB = q3) ∧
    (out.bus.PORTC.testBit bit = false ∧ out.bus.PORTB.testBit 5 = false)

end ShiftRegister

/-! ## The log of port assignments -/

/-- The values assigned to the port `p` in the log `w`, oldest first. -/
def valuesOn (p : Port) (w : List (Port × Nat)) : List Nat :=
  (w.filter (fun x => decide (x.1 = p))).map (fun x => x.2)

namespace ShiftRegister

/-- The assignments to output ports made on the way from the state `s` to the
state `t`. -/
def newWrites (s t : Driver) : List (Port × Nat) := t.writes.drop s.writes.length

/-- The values `setAddressRegister` assigns to `PORTC`, which holds `P`
(lines 97-115). -/
def registerWrites (mask addr P : Nat) : List Nat :=
  (P &&& not8 mask) % 256 :: loopWrites 8 addr mask ((P &&& not8 mask) % 256)

/-- The values the register-clock pulse of `setAddressRegister` assigns to
`PORTB`, which holds `Q` (lines 121-125). -/
def latchWrites (Q : Nat) : List Nat :=
  let q1 := (Q &&& not8 RCLK_595_MASK) % 256
  let q2 := (q1 ||| RCLK_595_MASK) % 256
  let q3 := (q2 &&& not8 RCLK_595_MASK) % 256
  [q1, q2, q3]

end ShiftRegister

namespace DirectPin

/-- The assignments to output ports made on the way from the state `s` to the
state `t`. -/
def newWrites (s t : Driver) : List (Port × Nat) := t.writes.drop s.writes.length

end DirectPin

/-! ## Concrete driver states -/

/-- A shift-register driver as found at power-on: the static bytes hold
`0xca`, ports and shift registers hold arbitrary values. -/
def ShiftRegister.bootState : ShiftRegister.Driver where
  bus := { DDRB := 0, PORTB := 0x3f, DDRC := 0, PORTC := 0xff, DDRD := 0, PORTD := 0,
           hiReg := 0xA5, loReg := 0x5A, hiOut := 0x11, loOut := 0x22 }
  lastHi := 0xca
  lastUpper := 0xca
  writes := []

/-- A direct-pin driver as found at power-on: the static bytes hold `0xca`,
the ports hold arbitrary values. -/
def DirectPin.bootState : DirectPin.Driver where
  bus := { DDRA := 0, PORTA := 0x5A, DDRC := 0, PORTC := 0xA5, DDRD := 0, PORTD := 0xff,
           DDRE := 0, PORTE := 0, DDRG := 0, PORTG := 0xff, DDRH := 0, PORTH := 0 }
  lastHi := 0xca
  lastUpper := 0xca
  writes := []

/-! ## Unfolding the loops -/

theorem byteLoop_done (d : Device σ) (data : Nat → Nat) (len address ix : Nat) (s : σ)
    (h : ¬ ix < len) : byteLoop d data len address ix s = ⟨true, s, []⟩ := by
  rw [byteLoop, if_neg h]

theorem byteLoop_step (d : Device σ) (data : Nat → Nat) (len address ix : Nat) (s : σ)
    (h : ix < len) :
    byteLoop d data len address ix s =
      if (d.burnByte (data ix) (add32 address ix) s).1 = false then
        ⟨false, (d.burnByte (data ix) (add32 address ix) s).2,
          [⟨.byteLoop, .burnByte (data ix) (add32 address ix), false⟩]⟩
      else
        ⟨(byteLoop d data len address (ix + 1) (d.burnByte (data ix) (add32 address ix) s).2).status,
         (byteLoop d data len address (ix + 1) (d.burnByte (data ix) (add32 address ix) s).2).dev,
         ⟨.byteLoop, .burnByte (data ix) (add32 address ix), true⟩ ::
          (byteLoop d data len address (ix + 1) (d.burnByte (data ix) (add32 address ix) s).2).trace⟩ := by
  rw [byteLoop, if_pos h]
  by_cases hr : (d.burnByte (data ix) (add32 address ix) s).1 = false
  · simp [hr]
  · simp only [hr, if_false]
    simp at hr
    simp [hr]

theorem blockLoop_done (d : Device σ) (data : Nat → Nat) (bs : Nat) (hbs : 0 < bs)
    (address len offset : Nat) (s : σ) (h : ¬ len > 0) :
    blockLoop d data bs hbs address len offset s = ⟨true, s, []⟩ := by
  rw [blockLoop, dif_neg h]

theorem blockLoop_step (d : Device σ) (data : Nat → Nat) (bs : Nat) (hbs : 0 < bs)
    (address len offset : Nat) (s : σ) (h : len > 0) :
    blockLoop d data bs hbs address len offset s =
      if (d.burnBlock (fun i => data (offset + i)) (loopChunk bs len) (add32 address offset) s).1
          = false then
        ⟨false,
          (d.burnBlock (fun i => data (offset + i)) (loopChunk bs len) (add32 address offset) s).2,
          [⟨.blockLoop, .burnBlock offset (loopChunk bs len) (add32 address offset), false⟩]⟩
      else
        ⟨(blockLoop d data bs hbs address (sub32 len (loopChunk bs len))
            (add32 offset (loopChunk bs len))
            (d.burnBlock (fun i => data (offset + i)) (loopChunk bs len)
              (add32 address offset) s).2).status,
         (blockLoop d data bs hbs address (sub32 len (loopChunk bs len))
            (add32 offset (loopChunk bs len))
            (d.burnBlock (fun i => data (offset + i)) (loopChunk bs len)
              (add32 address offset) s).2).dev,
         ⟨.blockLoop, .burnBlock offset (loopChunk bs len) (add32 address offset), true⟩ ::
          (blockLoop d data bs hbs address (sub32 len (loopChunk bs len))
            (add32 offset (loopChunk bs len))
            (d.burnBlock (fun i => data (offset + i)) (loopChunk bs len)
              (add32 address offset) s).2).trace⟩ := by
  rw [blockLoop, dif_pos h]
  by_cases hr : (d.burnBlock (fun i => data (offset + i)) (loopChunk bs len)
      (add32 address offset) s).1 = false
  · simp [hr]
  · simp only [hr, if_false]
    simp at hr
    simp [hr]

/-! ## The byte loop -/

theorem byteLoop_induction (d : Device σ) (data : Nat → Nat) (len address : Nat)
    (motive : Nat → σ → Outcome σ → Prop)
    (done : ∀ ix s, ¬ ix < len → motive ix s ⟨true, s, []⟩)
    (fail : ∀ ix s, ix < len → (d.burnByte (data ix) (add32 address ix) s).1 = false →
      motive ix s ⟨false, (d.burnByte (data ix) (add32 address ix) s).2,
        [byteEvent data address false ix]⟩)
    (step : ∀ ix s, ix < len → (d.burnByte (data ix) (add32 address ix) s).1 = true →
      motive (ix + 1) (d.burnByte (data ix) (add32 address ix) s).2
        (byteLoop d data len address (ix + 1) (d.burnByte (data ix) (add32 address ix) s).2) →
      motive ix s
        ⟨(byteLoop d data len address (ix + 1) (d.burnByte (data ix) (add32 address ix) s).2).status,
         (byteLoop d data len address (ix + 1) (d.burnByte (data ix) (add32 address ix) s).2).dev,
         byteEvent data address true ix ::
          (byteLoop d data len address (ix + 1)
            (d.burnByte (data ix) (add32 address ix) s).2).trace⟩) :
    ∀ ix s, motive ix s (byteLoop d data len address ix s) := by
  intro ix
  generalize hm : len - ix = m
  induction m generalizing ix with
  | zero =>
    intro s
    rw [byteLoop_done _ _ _ _ _ _ (by omega)]
    exact done ix s (by omega)
  | succ m ih =>
    intro s
    have hlt : ix < len := by omega
    rw [byteLoop_step _ _ _ _ _ _ hlt]
    by_cases hr : (d.burnByte (data ix) (add32 address ix) s).1 = false
    · rw [if_pos hr]
      exact fail ix s hlt hr
    · rw [if_neg hr]
      have hr1 : (d.burnByte (data ix) (add32 address ix) s).1 = true := by simpa using hr
      exact step ix s hlt hr1 (ih (ix + 1) (by omega) _)

/-- A byte loop that returns `true` made every call from `ix` to `len - 1`,
each successfully. -/
theorem byteLoop_true (d : Device σ) (data : Nat → Nat) (len address ix : Nat) (s : σ)
    (h : (byteLoop d data len address ix s).status = true) :
    (byteLoop d data len address ix s).trace
      = (List.range' ix (len - ix)).map (byteEvent data address true) := by
  revert h
  refine byteLoop_induction d data len address
    (fun ix _ out => out.status = true →
      out.trace = (List.range' ix (len - ix)).map (byteEvent data address true)) ?_ ?_ ?_ ix s
  · intro ix s h _
    simp [Nat.sub_eq_zero_of_le (Nat.le_of_not_lt h)]
  · intro ix s _ _ h
    simp at h
  · intro ix s hlt _ ih h
    have := ih h
    simp only at this ⊢
    rw [this, show len - ix = (len - (ix + 1)) + 1 by omega, List.range'_succ]
    simp

/-- A byte loop that returns `false` stopped at its first failing call. -/
theorem byteLoop_false (d : Device σ) (data : Nat → Nat) (len address ix : Nat) (s : σ)
    (h : (byteLoop d data len address ix s).status = false) :
    ∃ n, ix + n < len ∧ (byteLoop d data len address ix s).trace
      = (List.range' ix n).map (byteEvent data address true)
          ++ [byteEvent data address false (ix + n)] := by
  revert h
  refine byteLoop_induction d data len address
    (fun ix _ out => out.status = false →
      ∃ n, ix + n < len ∧ out.trace = (List.range' ix n).map (byteEvent data address true)
          ++ [byteEvent data address false (ix + n)]) ?_ ?_ ?_ ix s
  · intro ix s _ h
    simp at h
  · intro ix s hlt _ _
    exact ⟨0, by omega, by simp⟩
  · intro ix s hlt _ ih h
    obtain ⟨n, hn, ht⟩ := ih h
    refine ⟨n + 1, by omega, ?_⟩
    simp only at ht ⊢
    rw [ht, List.range'_succ]
    simp [Nat.add_assoc, Nat.add_comm 1 n]

/-- The device is left in the state produced by the recorded calls. -/
theorem byteLoop_replay (d : Device σ) (data : Nat → Nat) (len address ix : Nat) (s : σ) :
    (byteLoop d data len address ix s).dev
      = replay d data (byteLoop d data len address ix s).trace s := by
  refine byteLoop_induction d data len address
    (fun _ s out => out.dev = replay d data out.trace s) ?_ ?_ ?_ ix s
  · intro ix s _
    rfl
  · intro ix s _ _
    simp [replay, byteEvent, Device.perform]
  · intro ix s _ _ ih
    simpa [replay, byteEvent, Device.perform] using ih

theorem writeData_zero (d : Device σ) (data : Nat → Nat) (len address : Nat) (s : σ) :
    writeData d 0 data len address s = byteLoop d data len address 0 s := by
  simp [writeData]

theorem range_map_byteEvent (data : Nat → Nat) (address n : Nat) (ok : Bool) :
    (List.range' 0 n).map (byteEvent data address ok)
      = (List.range n).map
          (fun i => ⟨.byteLoop, .burnByte (data i) ((address + i) % 2 ^ 32), ok⟩) := by
  rw [← List.range_eq_range']
  rfl

theorem addresses_byte_run (data : Nat → Nat) (address n : Nat) (ok : Bool)
    (h : address + n ≤ 2 ^ 32) :
    addresses ((List.range n).map (byteEvent data address ok)) = List.range' address n := by
  unfold addresses
  rw [List.map_map, List.range'_eq_map_range]
  apply List.map_congr_left
  intro i hi
  have hi' : i < n := List.mem_range.1 hi
  simp only [Function.comp, byteEvent, Call.addr, add32]
  exact Nat.mod_eq_of_lt (by omega)

theorem addresses_byte_run_nodup (data : Nat → Nat) (address n : Nat) (ok : Bool)
    (h : n ≤ 2 ^ 32) :
    (addresses ((List.range n).map (byteEvent data address ok))).Nodup := by
  unfold addresses
  rw [List.map_map]
  refine List.Nodup.map_on ?_ (List.nodup_range n)
  intro i hi j hj hij
  have hi' : i < n := List.mem_range.1 hi
  have hj' : j < n := List.mem_range.1 hj
  simp only [Function.comp, byteEvent, Call.addr, add32] at hij
  have h1 : (address + i) % 2 ^ 32 = (address + j) % 2 ^ 32 := hij
  omega

/-- C1 (as amended).  Byte mode, every burnByte call succeeding: `writeData`
returns true and makes exactly `len` calls, the `i`-th being
`burnByte(data[i], (address + i) mod 2^32)`; no burnBlock call is made; and
when `address + len ≤ 2^32` the addresses are `address .. address+len-1`,
strictly increasing. -/
theorem writeData_byte_mode_success (d : Device σ) (data : Nat → Nat) (len address : Nat)
    (s : σ) (hok : ∀ e ∈ (writeData d 0 data len address s).trace, e.ok = true) :
    (writeData d 0 data len address s).status = true ∧
    (writeData d 0 data len address s).trace
      = (List.range len).map
          (fun i => ⟨.byteLoop, .burnByte (data i) ((address + i) % 2 ^ 32), true⟩) ∧
    (∀ e ∈ (writeData d 0 data len address s).trace, e.call.isBlock = false) ∧
    (address + len ≤ 2 ^ 32 →
      addresses (writeData d 0 data len address s).trace = List.range' address len ∧
      (addresses (writeData d 0 data len address s).trace).Pairwise (· < ·)) := by
  rw [writeData_zero] at hok ⊢
  have hst : (byteLoop d data len address 0 s).status = true := by
    by_contra hne
    have hf : (byteLoop d data len address 0 s).status = false := by simpa using hne
    obtain ⟨n, _, ht⟩ := byteLoop_false d data len address 0 s hf
    have := hok (byteEvent data address false (0 + n)) (by rw [ht]; simp)
    simp [byteEvent] at this
  have ht := byteLoop_true d data len address 0 s hst
  rw [Nat.sub_zero] at ht
  refine ⟨hst, ?_, ?_, ?_⟩
  · rw [ht, range_map_byteEvent]
  · intro e he
    rw [ht] at he
    obtain ⟨i, _, rfl⟩ := List.mem_map.1 he
    rfl
  · intro hle
    rw [ht, ← List.range_eq_range', addresses_byte_run data address len true hle]
    exact ⟨rfl, List.pairwise_lt_range' address len⟩

/-- C1, concrete request: byte mode, two bytes from address `0xFFFFFFFF`.
Both calls succeed, the addresses are `0xFFFFFFFF` and then `0`, which is
not an increasing sequence. -/
theorem writeData_byte_mode_wraps :
    (∀ e ∈ (writeData okDevice 0 (fun _ => 0) 2 4294967295 ()).trace, e.ok = true) ∧
    addresses (writeData okDevice 0 (fun _ => 0) 2 4294967295 ()).trace = [4294967295, 0] ∧
    ¬ (addresses (writeData okDevice 0 (fun _ => 0) 2 4294967295 ()).trace).Pairwise
        (· < ·) := by
  simp [writeData, byteLoop_step, byteLoop_done, add32, okDevice, Call.addr, addresses]

/-- C1 (as amended) on a concrete request: three bytes from address 16. -/
theorem writeData_byte_mode_success_witness :
    (∀ e ∈ (writeData okDevice 0 (fun i => i + 7) 3 16 ()).trace, e.ok = true) ∧
    ((writeData okDevice 0 (fun i => i + 7) 3 16 ()).status = true ∧
    (writeData okDevice 0 (fun i => i + 7) 3 16 ()).trace
      = (List.range 3).map
          (fun i => ⟨.byteLoop, .burnByte ((fun i => i + 7) i) ((16 + i) % 2 ^ 32), true⟩) ∧
    (∀ e ∈ (writeData okDevice 0 (fun i => i + 7) 3 16 ()).trace, e.call.isBlock = false) ∧
    (16 + 3 ≤ 2 ^ 32 →
      addresses (writeData okDevice 0 (fun i => i + 7) 3 16 ()).trace = List.range' 16 3 ∧
      (addresses (writeData okDevice 0 (fun i => i + 7) 3 16 ()).trace).Pairwise (· < ·))) :=
  ⟨by simp [writeData, byteLoop_step, byteLoop_done, add32, okDevice],
   writeData_byte_mode_success okDevice (fun i => i + 7) 3 16 ()
    (by simp [writeData, byteLoop_step, byteLoop_done, add32, okDevice])⟩

/-- C2.  Byte mode, `1 ≤ k ≤ len`, on any device: if no call before the
`k`-th returns false and the `k`-th call does not return true, then
`writeData` returns false, the calls made are exactly the `k` calls
`burnByte(data[i], address + i)` for `i < k` (the sum taken as a `uint32_t`;
no call after the failing one), no address is programmed twice, and the
device is left in the state those `k` calls produce (nothing is rolled
back). -/
theorem writeData_byte_mode_failure (d : Device σ) (data : Nat → Nat) (len address : Nat)
    (s : σ) (k : Nat) (hk1 : 1 ≤ k) (hk : k ≤ len)
    (hpre : ∀ i e, i < k - 1 →
      (writeData d 0 data len address s).trace[i]? = some e → e.ok = true)
    (hfail : ∀ e, (writeData d 0 data len address s).trace[k - 1]? = some e → e.ok = false) :
    (writeData d 0 data len address s).status = false ∧
    (writeData d 0 data len address s).trace
      = (List.range (k - 1)).map
            (fun i => ⟨.byteLoop, .burnByte (data i) ((address + i) % 2 ^ 32), true⟩)
          ++ [⟨.byteLoop, .burnByte (data (k - 1)) ((address + (k - 1)) % 2 ^ 32), false⟩] ∧
    (writeData d 0 data len address s).trace.length = k ∧
    (len ≤ 2 ^ 32 → (addresses (writeData d 0 data len address s).trace).Nodup) ∧
    (writeData d 0 data len address s).dev
      = replay d data (writeData d 0 data len address s).trace s := by
  rw [writeData_zero] at hpre hfail ⊢
  have hst : (byteLoop d data len address 0 s).status = false := by
    by_contra hne
    have ht := byteLoop_true d data len address 0 s (by simpa using hne)
    rw [Nat.sub_zero] at ht
    have := hfail (byteEvent data address true (k - 1)) (by
      rw [ht, List.getElem?_map, List.getElem?_range' _ _ (by omega)]
      simp)
    simp [byteEvent] at this
  obtain ⟨n, hn, ht⟩ := byteLoop_false d data len address 0 s hst
  rw [Nat.zero_add] at hn ht
  have hnk : n = k - 1 := by
    rcases Nat.lt_trichotomy n (k - 1) with hlt | heq | hgt
    · have := hpre n (byteEvent data address false n) hlt (by
        rw [ht, List.getElem?_append_right (by simp)]
        simp)
      simp [byteEvent] at this
    · exact heq
    · have := hfail (byteEvent data address true (k - 1)) (by
        rw [ht, List.getElem?_append_left (by simpa using hgt), List.getElem?_map,
          List.getElem?_range' _ _ hgt]
        simp)
      simp [byteEvent] at this
  subst hnk
  have hlen : (byteLoop d data len address 0 s).trace.length = k := by
    rw [ht]
    simp
    omega
  refine ⟨hst, ?_, hlen, ?_, byteLoop_replay d data len address 0 s⟩
  · rw [ht, range_map_byteEvent]
    rfl
  · intro hle
    have hnd := addresses_byte_run_nodup data address k true (by omega)
    have hk' : k = (k - 1) + 1 := by omega
    rw [hk', List.range_succ, List.map_append] at hnd
    rw [ht, ← List.range_eq_range']
    simpa [addresses, byteEvent] using hnd

/-- C2 on a concrete request: five bytes from address 16 on a device that
fails on its second call. -/
theorem writeData_byte_mode_failure_witness :
    (1 ≤ 2 ∧ 2 ≤ 5 ∧
    (∀ i e, i < 2 - 1 →
      (writeData (failOnCall 2) 0 (fun i => i) 5 16 0).trace[i]? = some e → e.ok = true) ∧
    (∀ e, (writeData (failOnCall 2) 0 (fun i => i) 5 16 0).trace[2 - 1]? = some e →
      e.ok = false)) ∧
    (writeData (failOnCall 2) 0 (fun i => i) 5 16 0).status = false ∧
    (writeData (failOnCall 2) 0 (fun i => i) 5 16 0).trace.length = 2 :=
  have hpre : ∀ i e, i < 2 - 1 →
      (writeData (failOnCall 2) 0 (fun i => i) 5 16 0).trace[i]? = some e → e.ok = true := by
    intro i e hi
    have h0 : i = 0 := by omega
    subst h0
    simp [writeData, byteLoop_step, byteLoop_done, add32, failOnCall]
    rintro rfl
    rfl
  have hfail : ∀ e, (writeData (failOnCall 2) 0 (fun i => i) 5 16 0).trace[2 - 1]? = some e →
      e.ok = false := by
    intro e
    simp [writeData, byteLoop_step, byteLoop_done, add32, failOnCall]
    rintro rfl
    rfl
  have h := writeData_byte_mode_failure (failOnCall 2) (fun i => i) 5 16 0 2
    (by decide) (by decide) hpre hfail
  ⟨⟨by decide, by decide, hpre, hfail⟩, h.1, h.2.2.1⟩

/-! ## The block loop -/

theorem blockLoop_induction (d : Device σ) (data : Nat → Nat) (bs : Nat) (hbs : 0 < bs)
    (address : Nat) (motive : Nat → Nat → σ → Outcome σ → Prop)
    (done : ∀ off s, motive 0 off s ⟨true, s, []⟩)
    (fail : ∀ len off s, 0 < len →
      (d.burnBlock (fun i => data (off + i)) (loopChunk bs len) (add32 address off) s).1
        = false →
      motive len off s
        ⟨false,
         (d.burnBlock (fun i => data (off + i)) (loopChunk bs len) (add32 address off) s).2,
         [blockEvent bs address false len off]⟩)
    (step : ∀ len off s, 0 < len →
      (d.burnBlock (fun i => data (off + i)) (loopChunk bs len) (add32 address off) s).1
        = true →
      motive (sub32 len (loopChunk bs len)) (add32 off (loopChunk bs len))
        (d.burnBlock (fun i => data (off + i)) (loopChunk bs len) (add32 address off) s).2
        (blockLoop d data bs hbs address (sub32 len (loopChunk bs len))
          (add32 off (loopChunk bs len))
          (d.burnBlock (fun i => data (off + i)) (loopChunk bs len)
            (add32 address off) s).2) →
      motive len off s
        ⟨(blockLoop d data bs hbs address (sub32 len (loopChunk bs len))
            (add32 off (loopChunk bs len))
            (d.burnBlock (fun i => data (off + i)) (loopChunk bs len)
              (add32 address off) s).2).status,
         (blockLoop d data bs hbs address (sub32 len (loopChunk bs len))
            (add32 off (loopChunk bs len))
            (d.burnBlock (fun i => data (off + i)) (loopChunk bs len)
              (add32 address off) s).2).dev,
         blockEvent bs address true len off ::
          (blockLoop d data bs hbs address (sub32 len (loopChunk bs len))
            (add32 off (loopChunk bs len))
            (d.burnBlock (fun i => data (off + i)) (loopChunk bs len)
              (add32 address off) s).2).trace⟩) :
    ∀ len off s, motive len off s (blockLoop d data bs hbs address len off s) := by
  intro len
  induction len using Nat.strong_induction_on with
  | _ len ih =>
    intro off s
    rcases Nat.eq_zero_or_pos len with h0 | hpos
    · subst h0
      rw [blockLoop_done _ _ _ _ _ _ _ _ (by omega)]
      exact done off s
    · rw [blockLoop_step _ _ _ _ _ _ _ _ hpos]
      by_cases hr : (d.burnBlock (fun i => data (off + i)) (loopChunk bs len)
          (add32 address off) s).1 = false
      · rw [if_pos hr]
        exact fail len off s hpos hr
      · rw [if_neg hr]
        have hr1 : (d.burnBlock (fun i => data (off + i)) (loopChunk bs len)
            (add32 address off) s).1 = true := by simpa using hr
        refine step len off s hpos hr1 (ih _ ?_ _ _)
        unfold sub32 loopChunk
        split
        · rcases Nat.lt_or_ge len (2 ^ 32) with _ | h1
          · rw [show len + 2 ^ 32 - bs = (len - bs) + 2 ^ 32 by omega, Nat.add_mod_right]
            exact lt_of_le_of_lt (Nat.mod_le _ _) (by omega)
          · exact lt_of_lt_of_le (Nat.mod_lt _ (by norm_num)) h1
        · rw [show len + 2 ^ 32 - len = 2 ^ 32 by omega, Nat.mod_self]
          exact hpos

theorem loopChunk_pos {bs len : Nat} (hbs : 0 < bs) (hlen : 0 < len) :
    1 ≤ loopChunk bs len := by
  unfold loopChunk
  split <;> omega

theorem loopChunk_le_len (bs len : Nat) : loopChunk bs len ≤ len := by
  unfold loopChunk
  split <;> omega

theorem loopChunk_le_bs (bs len : Nat) : loopChunk bs len ≤ bs := by
  unfold loopChunk
  split <;> omega

theorem sub32_chunk {len c : Nat} (hlen : len < 2 ^ 32) (hc : c ≤ len) :
    sub32 len c = len - c := by
  unfold sub32
  rw [show len + 2 ^ 32 - c = (len - c) + 2 ^ 32 by omega, Nat.add_mod_right]
  exact Nat.mod_eq_of_lt (by omega)

theorem add32_small {a b : Nat} (h : a + b < 2 ^ 32) : add32 a b = a + b :=
  Nat.mod_eq_of_lt h

/-- Every call of the block loop is made at the loop site with a chunk of
between 1 and `bs` bytes. -/
theorem blockLoop_sites (d : Device σ) (data : Nat → Nat) (bs : Nat) (hbs : 0 < bs)
    (address len off : Nat) (s : σ) :
    ∀ e ∈ (blockLoop d data bs hbs address len off s).trace,
      e.site = .blockLoop ∧ 1 ≤ e.call.size ∧ e.call.size ≤ bs := by
  refine blockLoop_induction d data bs hbs address
    (fun _ _ _ out => ∀ e ∈ out.trace,
      e.site = .blockLoop ∧ 1 ≤ e.call.size ∧ e.call.size ≤ bs) ?_ ?_ ?_ len off s
  · intro off s e he
    simp at he
  · intro len off s hpos _ e he
    simp only [List.mem_singleton] at he
    subst he
    exact ⟨rfl, loopChunk_pos hbs hpos, loopChunk_le_bs bs len⟩
  · intro len off s hpos _ ih e he
    simp only [List.mem_cons] at he
    rcases he with rfl | he
    · exact ⟨rfl, loopChunk_pos hbs hpos, loopChunk_le_bs bs len⟩
    · exact ih e he

/-- The calls of the block loop are chained from the entry offset. -/
theorem blockLoop_contiguous (d : Device σ) (data : Nat → Nat) (bs : Nat) (hbs : 0 < bs)
    (address len off : Nat) (s : σ) (h : off + len < 2 ^ 32) :
    Contiguous address off (blockLoop d data bs hbs address len off s).trace := by
  revert h
  refine blockLoop_induction d data bs hbs address
    (fun len off _ out => off + len < 2 ^ 32 → Contiguous address off out.trace)
    ?_ ?_ ?_ len off s
  · intro off s _
    trivial
  · intro len off s _ _ _
    exact ⟨rfl, trivial⟩
  · intro len off s _ _ ih h
    have hc := loopChunk_le_len bs len
    refine ⟨rfl, ?_⟩
    have e1 : sub32 len (loopChunk bs len) = len - loopChunk bs len :=
      sub32_chunk (by omega) hc
    have e2 : add32 off (loopChunk bs len) = off + loopChunk bs len :=
      add32_small (by omega)
    have := ih (by rw [e1, e2]; omega)
    rw [e2] at this ⊢
    exact this

/-- The block loop returns true exactly when every call it made succeeded,
and it makes no call after a failed one. -/
theorem blockLoop_abort (d : Device σ) (data : Nat → Nat) (bs : Nat) (hbs : 0 < bs)
    (address len off : Nat) (s : σ) :
    ((blockLoop d data bs hbs address len off s).status = true ↔
      ∀ e ∈ (blockLoop d data bs hbs address len off s).trace, e.ok = true) ∧
    FailsOnlyLast (blockLoop d data bs hbs address len off s).trace := by
  refine blockLoop_induction d data bs hbs address
    (fun _ _ _ out => (out.status = true ↔ ∀ e ∈ out.trace, e.ok = true) ∧
      FailsOnlyLast out.trace) ?_ ?_ ?_ len off s
  · intro off s
    refine ⟨by simp, ?_⟩
    intro i e he
    simp at he
  · intro len off s _ _
    refine ⟨by simp [blockEvent], ?_⟩
    intro i e he _
    rcases i with _ | i
    · rfl
    · simp at he
  · intro len off s _ _ ih
    refine ⟨by simpa [blockEvent] using ih.1, ?_⟩
    intro i e he hf
    rcases i with _ | i
    · simp only [List.getElem?_cons_zero, Option.some.injEq] at he
      subst he
      simp [blockEvent] at hf
    · rw [List.getElem?_cons_succ] at he
      have := ih.2 i e he hf
      simp only [List.length_cons]
      omega

/-- On success the chunk lengths add up to the length the loop was entered
with. -/
theorem blockLoop_sum (d : Device σ) (data : Nat → Nat) (bs : Nat) (hbs : 0 < bs)
    (address len off : Nat) (s : σ) (hlen : len < 2 ^ 32)
    (h : (blockLoop d data bs hbs address len off s).status = true) :
    (sizes (blockLoop d data bs hbs address len off s).trace).sum = len := by
  revert hlen h
  refine blockLoop_induction d data bs hbs address
    (fun len _ _ out => len < 2 ^ 32 → out.status = true → (sizes out.trace).sum = len)
    ?_ ?_ ?_ len off s
  · intro off s _ _
    rfl
  · intro len off s _ _ _ h
    simp at h
  · intro len off s _ _ ih hlen h
    have hc := loopChunk_le_len bs len
    have e1 : sub32 len (loopChunk bs len) = len - loopChunk bs len := sub32_chunk hlen hc
    have := (ih (by rw [e1]; omega) h).trans e1
    simp only [sizes, List.map_cons, List.sum_cons, blockEvent, Call.size] at this ⊢
    omega

/-- The device is left in the state produced by the recorded calls. -/
theorem blockLoop_replay (d : Device σ) (data : Nat → Nat) (bs : Nat) (hbs : 0 < bs)
    (address len off : Nat) (s : σ) :
    (blockLoop d data bs hbs address len off s).dev
      = replay d data (blockLoop d data bs hbs address len off s).trace s := by
  refine blockLoop_induction d data bs hbs address
    (fun _ off s out => out.dev = replay d data out.trace s) ?_ ?_ ?_ len off s
  · intro off s
    rfl
  · intro len off s _ _
    simp [replay, blockEvent, Device.perform]
  · intro len off s _ _ ih
    simpa [replay, blockEvent, Device.perform] using ih

/-! ## Block mode of `writeData` -/

theorem writeData_aligned (d : Device σ) (bs : Nat) (data : Nat → Nat) (len address : Nat)
    (s : σ) (hbs : bs ≠ 0) (ha : address &&& (bs - 1) = 0) :
    writeData d bs data len address s
      = blockLoop d data bs (Nat.pos_of_ne_zero hbs) address len 0 s := by
  simp [writeData, hbs, ha]

theorem writeData_lead_fail (d : Device σ) (bs : Nat) (data : Nat → Nat) (len address : Nat)
    (s : σ) (hbs : bs ≠ 0) (ha : address &&& (bs - 1) ≠ 0)
    (hr : (d.burnBlock data (leadChunk bs len address) address s).1
      = false) :
    writeData d bs data len address s
      = ⟨false, (d.burnBlock data (leadChunk bs len address) address s).2,
          [leadEvent bs len address false]⟩ := by
  simp [writeData, hbs, ha, hr, leadEvent]

theorem writeData_lead_ok (d : Device σ) (bs : Nat) (data : Nat → Nat) (len address : Nat)
    (s : σ) (hbs : bs ≠ 0) (ha : address &&& (bs - 1) ≠ 0)
    (hr : (d.burnBlock data (leadChunk bs len address) address s).1
      = true) :
    writeData d bs data len address s
      = ⟨(blockLoop d data bs (Nat.pos_of_ne_zero hbs) address
            (sub32 len (leadChunk bs len address)) (add32 0 (leadChunk bs len address))
            (d.burnBlock data (leadChunk bs len address) address s).2).status,
         (blockLoop d data bs (Nat.pos_of_ne_zero hbs) address
            (sub32 len (leadChunk bs len address)) (add32 0 (leadChunk bs len address))
            (d.burnBlock data (leadChunk bs len address) address s).2).dev,
         leadEvent bs len address true ::
          (blockLoop d data bs (Nat.pos_of_ne_zero hbs) address
            (sub32 len (leadChunk bs len address)) (add32 0 (leadChunk bs len address))
            (d.burnBlock data (leadChunk bs len address) address s).2).trace⟩ := by
  simp [writeData, hbs, ha, hr, leadEvent]

theorem leadChunk_le_len (bs len address : Nat) : leadChunk bs len address ≤ len := by
  unfold leadChunk
  simp only
  split <;> omega

theorem leadChunk_eq {bs : Nat} (len address : Nat) (hbs32 : bs < 2 ^ 32) :
    leadChunk bs len address = min (bs - (address &&& (bs - 1))) len := by
  have hm : address &&& (bs - 1) ≤ bs - 1 := Nat.and_le_right
  have hsub : sub32 bs (address &&& (bs - 1)) = bs - (address &&& (bs - 1)) := by
    unfold sub32
    rw [show bs + 2 ^ 32 - (address &&& (bs - 1)) = (bs - (address &&& (bs - 1))) + 2 ^ 32
      by omega, Nat.add_mod_right]
    exact Nat.mod_eq_of_lt (by omega)
  unfold leadChunk
  simp only [hsub]
  split <;> omega

theorem leadChunk_pos {bs : Nat} (len address : Nat) (hbs : bs ≠ 0) (hbs32 : bs < 2 ^ 32)
    (hlen : 0 < len) : 1 ≤ leadChunk bs len address := by
  have hm : address &&& (bs - 1) ≤ bs - 1 := Nat.and_le_right
  rw [leadChunk_eq len address hbs32]
  omega

/-- In either mode `writeData` returns true exactly when every call it made
succeeded, and it makes no call after a failed one. -/
theorem byteLoop_abort (d : Device σ) (data : Nat → Nat) (len address ix : Nat) (s : σ) :
    ((byteLoop d data len address ix s).status = true ↔
      ∀ e ∈ (byteLoop d data len address ix s).trace, e.ok = true) ∧
    FailsOnlyLast (byteLoop d data len address ix s).trace := by
  refine byteLoop_induction d data len address
    (fun _ _ out => (out.status = true ↔ ∀ e ∈ out.trace, e.ok = true) ∧
      FailsOnlyLast out.trace) ?_ ?_ ?_ ix s
  · intro ix s _
    refine ⟨by simp, ?_⟩
    intro i e he
    simp at he
  · intro ix s _ _
    refine ⟨by simp [byteEvent], ?_⟩
    intro i e he _
    rcases i with _ | i
    · rfl
    · simp at he
  · intro ix s _ _ ih
    refine ⟨by simpa [byteEvent] using ih.1, ?_⟩
    intro i e he hf
    rcases i with _ | i
    · simp only [List.getElem?_cons_zero, Option.some.injEq] at he
      subst he
      simp [byteEvent] at hf
    · rw [List.getElem?_cons_succ] at he
      have := ih.2 i e he hf
      simp only [List.length_cons]
      omega

theorem writeData_abort (d : Device σ) (bs : Nat) (data : Nat → Nat) (len address : Nat)
    (s : σ) :
    ((writeData d bs data len address s).status = true ↔
      ∀ e ∈ (writeData d bs data len address s).trace, e.ok = true) ∧
    FailsOnlyLast (writeData d bs data len address s).trace := by
  by_cases hbs : bs = 0
  · subst hbs
    rw [writeData_zero]
    exact byteLoop_abort d data len address 0 s
  · by_cases ha : address &&& (bs - 1) = 0
    · rw [writeData_aligned d bs data len address s hbs ha]
      exact blockLoop_abort d data bs _ address len 0 s
    · by_cases hr : (d.burnBlock data (leadChunk bs len address)
          address s).1 = false
      · rw [writeData_lead_fail d bs data len address s hbs ha hr]
        refine ⟨by simp [leadEvent], ?_⟩
        intro i e he _
        rcases i with _ | i
        · rfl
        · simp at he
      · have hr1 : (d.burnBlock data (leadChunk bs len address)
            address s).1 = true := by simpa using hr
        rw [writeData_lead_ok d bs data len address s hbs ha hr1]
        have ih := blockLoop_abort d data bs (Nat.pos_of_ne_zero hbs) address
          (sub32 len (leadChunk bs len address)) (add32 0 (leadChunk bs len address))
          (d.burnBlock data (leadChunk bs len address) address s).2
        refine ⟨by simpa [leadEvent] using ih.1, ?_⟩
        intro i e he hf
        rcases i with _ | i
        · simp only [List.getElem?_cons_zero, Option.some.injEq] at he
          subst he
          simp [leadEvent] at hf
        · rw [List.getElem?_cons_succ] at he
          have := ih.2 i e he hf
          simp only [List.length_cons]
          omega

/-- In either mode the device is left in the state produced by the recorded
calls. -/
theorem writeData_replay (d : Device σ) (bs : Nat) (data : Nat → Nat) (len address : Nat)
    (s : σ) :
    (writeData d bs data len address s).dev
      = replay d data (writeData d bs data len address s).trace s := by
  by_cases hbs : bs = 0
  · subst hbs
    rw [writeData_zero]
    exact byteLoop_replay d data len address 0 s
  · by_cases ha : address &&& (bs - 1) = 0
    · rw [writeData_aligned d bs data len address s hbs ha]
      exact blockLoop_replay d data bs _ address len 0 s
    · by_cases hr : (d.burnBlock data (leadChunk bs len address)
          address s).1 = false
      · rw [writeData_lead_fail d bs data len address s hbs ha hr]
        simp [replay, leadEvent, Device.perform]
      · have hr1 : (d.burnBlock data (leadChunk bs len address)
            address s).1 = true := by simpa using hr
        rw [writeData_lead_ok d bs data len address s hbs ha hr1]
        simpa [replay, leadEvent, Device.perform] using blockLoop_replay d data bs
          (Nat.pos_of_ne_zero hbs) address
          (sub32 len (leadChunk bs len address)) (add32 0 (leadChunk bs len address))
          (d.burnBlock data (leadChunk bs len address) address s).2

/-! ## Chained calls -/

theorem contiguous_offsets (address : Nat) (t : List Event) :
    ∀ off, Contiguous address off t →
      offsetsCovered t = List.range' off (sizes t).sum := by
  induction t with
  | nil =>
    intro off _
    rfl
  | cons e es ih =>
    intro off h
    obtain ⟨hc, hrest⟩ := h
    have hoff : e.call.off = off := by rw [hc]; rfl
    have := ih _ hrest
    simp only [offsetsCovered, sizes, List.flatMap_cons, List.map_cons, List.sum_cons] at this ⊢
    rw [this, hoff, Nat.add_comm e.call.size]
    simp

theorem contiguous_addr_ge (address : Nat) (t : List Event) :
    ∀ off, Contiguous address off t → (∀ e ∈ t, 1 ≤ e.call.size) →
      address + off + (sizes t).sum ≤ 2 ^ 32 →
      ∀ a ∈ addresses t, address + off ≤ a := by
  induction t with
  | nil =>
    intro off _ _ _ a ha
    simp [addresses] at ha
  | cons e es ih =>
    intro off h hpos hsum a ha
    obtain ⟨hc, hrest⟩ := h
    have h1 := hpos e (List.mem_cons_self _ _)
    simp only [sizes, List.map_cons, List.sum_cons] at hsum
    simp only [addresses, List.map_cons, List.mem_cons] at ha
    rcases ha with rfl | ha
    · rw [hc]
      simp only [Call.addr, add32]
      rw [Nat.mod_eq_of_lt (by omega)]
    · have := ih (off + e.call.size) hrest (fun e' he' => hpos e' (List.mem_cons_of_mem _ he'))
        (by simp only [sizes]; omega) a ha
      omega

theorem contiguous_increasing (address : Nat) (t : List Event) :
    ∀ off, Contiguous address off t → (∀ e ∈ t, 1 ≤ e.call.size) →
      address + off + (sizes t).sum ≤ 2 ^ 32 →
      (addresses t).Pairwise (· < ·) := by
  induction t with
  | nil =>
    intro off _ _ _
    simp [addresses]
  | cons e es ih =>
    intro off h hpos hsum
    obtain ⟨hc, hrest⟩ := h
    have h1 := hpos e (List.mem_cons_self _ _)
    have hpos' : ∀ e' ∈ es, 1 ≤ e'.call.size := fun e' he' => hpos e' (List.mem_cons_of_mem _ he')
    simp only [sizes, List.map_cons, List.sum_cons] at hsum
    have hsum' : address + (off + e.call.size) + (sizes es).sum ≤ 2 ^ 32 := by
      simp only [sizes]; omega
    simp only [addresses, List.map_cons, List.pairwise_cons]
    refine ⟨?_, ih _ hrest hpos' hsum'⟩
    intro a ha
    have hge := contiguous_addr_ge address es _ hrest hpos' hsum' a ha
    have hea : e.call.addr = address + off := by
      rw [hc]
      simp only [Call.addr, add32]
      exact Nat.mod_eq_of_lt (by omega)
    omega

theorem contiguous_addresses (address : Nat) (t : List Event) :
    ∀ off, Contiguous address off t → address + off + (sizes t).sum ≤ 2 ^ 32 →
      addressesCovered t = List.range' (address + off) (sizes t).sum := by
  induction t with
  | nil =>
    intro off _ _
    rfl
  | cons e es ih =>
    intro off h hsum
    obtain ⟨hc, hrest⟩ := h
    simp only [sizes, List.map_cons, List.sum_cons] at hsum
    have := ih _ hrest (by simp only [sizes]; omega)
    simp only [addressesCovered, sizes, List.flatMap_cons, List.map_cons, List.sum_cons]
      at this ⊢
    rw [this, Nat.add_comm e.call.size]
    rcases Nat.eq_zero_or_pos e.call.size with h0 | hpos
    · simp [h0]
    · have hea : e.call.addr = address + off := by
        rw [hc]
        simp only [Call.addr, add32]
        exact Nat.mod_eq_of_lt (by omega)
      rw [hea, ← Nat.add_assoc]
      simp

theorem contiguous_isBlock (address : Nat) (t : List Event) :
    ∀ off, Contiguous address off t → ∀ e ∈ t, e.call.isBlock = true := by
  induction t with
  | nil =>
    intro off _ e he
    simp at he
  | cons e es ih =>
    intro off h e' he'
    obtain ⟨hc, hrest⟩ := h
    simp only [List.mem_cons] at he'
    rcases he' with rfl | he'
    · rw [hc]
      rfl
    · exact ih _ hrest e' he'

/-! ## Block mode: the chain of chunks -/

theorem writeData_contiguous (d : Device σ) (bs : Nat) (data : Nat → Nat) (len address : Nat)
    (s : σ) (hbs : bs ≠ 0) (hlen : len < 2 ^ 32) (haddr : address < 2 ^ 32) :
    Contiguous address 0 (writeData d bs data len address s).trace := by
  by_cases ha : address &&& (bs - 1) = 0
  · rw [writeData_aligned d bs data len address s hbs ha]
    exact blockLoop_contiguous d data bs _ address len 0 s (by omega)
  · have ha0 : add32 address 0 = address := Nat.mod_eq_of_lt (by omega)
    by_cases hr : (d.burnBlock data (leadChunk bs len address) address s).1 = false
    · rw [writeData_lead_fail d bs data len address s hbs ha hr]
      exact ⟨by simp [leadEvent, Call.size, ha0], trivial⟩
    · have hr1 : (d.burnBlock data (leadChunk bs len address) address s).1 = true := by
        simpa using hr
      rw [writeData_lead_ok d bs data len address s hbs ha hr1]
      have hc := leadChunk_le_len bs len address
      have e1 : sub32 len (leadChunk bs len address) = len - leadChunk bs len address :=
        sub32_chunk hlen hc
      have e2 : add32 0 (leadChunk bs len address) = leadChunk bs len address := by
        rw [add32_small (by omega), Nat.zero_add]
      refine ⟨by simp [leadEvent, Call.size, ha0], ?_⟩
      have := blockLoop_contiguous d data bs (Nat.pos_of_ne_zero hbs) address
        (sub32 len (leadChunk bs len address)) (add32 0 (leadChunk bs len address))
        (d.burnBlock data (leadChunk bs len address) address s).2 (by rw [e1, e2]; omega)
      simp only [leadEvent, Call.size, Nat.zero_add]
      rw [e2] at this ⊢
      exact this

theorem writeData_sum (d : Device σ) (bs : Nat) (data : Nat → Nat) (len address : Nat)
    (s : σ) (hbs : bs ≠ 0) (hlen : len < 2 ^ 32)
    (hst : (writeData d bs data len address s).status = true) :
    (sizes (writeData d bs data len address s).trace).sum = len := by
  by_cases ha : address &&& (bs - 1) = 0
  · rw [writeData_aligned d bs data len address s hbs ha] at hst ⊢
    exact blockLoop_sum d data bs _ address len 0 s hlen hst
  · by_cases hr : (d.burnBlock data (leadChunk bs len address) address s).1 = false
    · rw [writeData_lead_fail d bs data len address s hbs ha hr] at hst
      simp at hst
    · have hr1 : (d.burnBlock data (leadChunk bs len address) address s).1 = true := by
        simpa using hr
      rw [writeData_lead_ok d bs data len address s hbs ha hr1] at hst ⊢
      have hc := leadChunk_le_len bs len address
      have e1 : sub32 len (leadChunk bs len address) = len - leadChunk bs len address :=
        sub32_chunk hlen hc
      have := (blockLoop_sum d data bs (Nat.pos_of_ne_zero hbs) address
        (sub32 len (leadChunk bs len address)) (add32 0 (leadChunk bs len address))
        (d.burnBlock data (leadChunk bs len address) address s).2
        (by rw [e1]; omega) hst).trans e1
      simp only [sizes, List.map_cons, List.sum_cons, leadEvent, Call.size] at this ⊢
      omega

theorem writeData_sizes_pos (d : Device σ) (bs : Nat) (data : Nat → Nat) (len address : Nat)
    (s : σ) (hbs : bs ≠ 0) (hbs32 : bs < 2 ^ 32) (hlen : 0 < len) :
    ∀ e ∈ (writeData d bs data len address s).trace, 1 ≤ e.call.size ∧ e.call.size ≤ bs := by
  have hlead : 1 ≤ leadChunk bs len address ∧ leadChunk bs len address ≤ bs := by
    refine ⟨leadChunk_pos len address hbs hbs32 hlen, ?_⟩
    rw [leadChunk_eq len address hbs32]
    omega
  by_cases ha : address &&& (bs - 1) = 0
  · rw [writeData_aligned d bs data len address s hbs ha]
    intro e he
    exact (blockLoop_sites d data bs _ address len 0 s e he).2
  · by_cases hr : (d.burnBlock data (leadChunk bs len address) address s).1 = false
    · rw [writeData_lead_fail d bs data len address s hbs ha hr]
      intro e he
      simp only [List.mem_singleton] at he
      subst he
      exact hlead
    · have hr1 : (d.burnBlock data (leadChunk bs len address) address s).1 = true := by
        simpa using hr
      rw [writeData_lead_ok d bs data len address s hbs ha hr1]
      intro e he
      simp only [List.mem_cons] at he
      rcases he with rfl | he
      · exact hlead
      · exact (blockLoop_sites d data bs _ address _ _ _ e he).2

/-- C3 (as amended).  Block mode (any non-zero block size), every burnBlock
call succeeding: `writeData` returns true; the calls are
`burnBlock(data + off_j, size_j, (address + off_j) mod 2^32)` with
`off_0 = 0`, `off_(j+1) = off_j + size_j` and the sizes adding up to `len`;
every buffer offset `0 .. len-1` is handed to the primitive exactly once, in
order; and when `address + len ≤ 2^32` the call addresses are strictly
increasing and the addresses handed over are exactly
`address .. address+len-1`, each once. -/
theorem writeData_block_mode_success (d : Device σ) (bs : Nat) (data : Nat → Nat)
    (len address : Nat) (s : σ) (hbs : bs ≠ 0) (hbs32 : bs < 2 ^ 32) (hlen : len < 2 ^ 32)
    (haddr : address < 2 ^ 32)
    (hok : ∀ e ∈ (writeData d bs data len address s).trace, e.ok = true) :
    (writeData d bs data len address s).status = true ∧
    Contiguous address 0 (writeData d bs data len address s).trace ∧
    (sizes (writeData d bs data len address s).trace).sum = len ∧
    offsetsCovered (writeData d bs data len address s).trace = List.range len ∧
    (∀ e ∈ (writeData d bs data len address s).trace, e.call.isBlock = true) ∧
    (address + len ≤ 2 ^ 32 →
      (addresses (writeData d bs data len address s).trace).Pairwise (· < ·) ∧
      addressesCovered (writeData d bs data len address s).trace
        = List.range' address len) := by
  have hst := (writeData_abort d bs data len address s).1.2 hok
  have hcont := writeData_contiguous d bs data len address s hbs hlen haddr
  have hsum := writeData_sum d bs data len address s hbs hlen hst
  refine ⟨hst, hcont, hsum, ?_, contiguous_isBlock address _ 0 hcont, ?_⟩
  · rw [contiguous_offsets address _ 0 hcont, hsum, List.range_eq_range']
  · intro hle
    constructor
    · rcases Nat.eq_zero_or_pos len with h0 | hpos
      · have hl : (writeData d bs data len address s).trace.length ≤ 1 := by
          have hs := hsum
          rw [h0] at hs
          by_cases ha : address &&& (bs - 1) = 0
          · rw [writeData_aligned d bs data len address s hbs ha, h0,
              blockLoop_done _ _ _ _ _ _ _ _ (by omega)]
            simp
          · have hc := leadChunk_le_len bs len address
            by_cases hr : (d.burnBlock data (leadChunk bs len address) address s).1 = false
            · rw [writeData_lead_fail d bs data len address s hbs ha hr]
              simp
            · have hr1 : (d.burnBlock data (leadChunk bs len address) address s).1 = true := by
                simpa using hr
              rw [writeData_lead_ok d bs data len address s hbs ha hr1]
              have hz : sub32 len (leadChunk bs len address) = 0 := by
                rw [sub32_chunk hlen hc]
                omega
              rw [hz, blockLoop_done _ _ _ _ _ _ _ _ (by omega)]
              simp
        unfold addresses
        match hm : (writeData d bs data len address s).trace, hl with
        | [], _ => simp
        | [e], _ => simp
      · exact contiguous_increasing address _ 0 hcont
          (fun e he => (writeData_sizes_pos d bs data len address s hbs hbs32 hpos e he).1)
          (by rw [hsum]; omega)
    · rw [contiguous_addresses address _ 0 hcont (by rw [hsum]; omega), hsum, Nat.add_zero]

/-- C3, concrete request: block size 64, 128 bytes from the aligned address
`0xFFFFFFC0`.  Both calls succeed; the second chunk is addressed at `0`,
below the first. -/
theorem writeData_block_mode_wraps :
    (∀ e ∈ (writeData okDevice 64 (fun _ => 0) 128 4294967232 ()).trace, e.ok = true) ∧
    addresses (writeData okDevice 64 (fun _ => 0) 128 4294967232 ()).trace
      = [4294967232, 0] ∧
    ¬ (addresses (writeData okDevice 64 (fun _ => 0) 128 4294967232 ()).trace).Pairwise
        (· < ·) := by
  simp [writeData, blockLoop_step, blockLoop_done, loopChunk, sub32, add32, okDevice,
    Call.addr, addresses, (by decide : 4294967232 &&& 63 = 0)]

/-- C3 (as amended) on a concrete request: block size 64, 200 bytes from
address 10. -/
theorem writeData_block_mode_success_witness :
    ((64 : Nat) ≠ 0 ∧ 64 < 2 ^ 32 ∧ 200 < 2 ^ 32 ∧ 10 < 2 ^ 32 ∧
      ∀ e ∈ (writeData okDevice 64 (fun i => i) 200 10 ()).trace, e.ok = true) ∧
    (writeData okDevice 64 (fun i => i) 200 10 ()).status = true ∧
    offsetsCovered (writeData okDevice 64 (fun i => i) 200 10 ()).trace = List.range 200 :=
  have hok : ∀ e ∈ (writeData okDevice 64 (fun i => i) 200 10 ()).trace, e.ok = true := by
    simp [writeData, blockLoop_step, blockLoop_done, leadChunk, loopChunk, sub32, add32,
      okDevice, (by decide : 10 &&& 63 = 10)]
  have h := writeData_block_mode_success okDevice 64 (fun i => i) 200 10 ()
    (by decide) (by norm_num) (by norm_num) (by norm_num) hok
  ⟨⟨by decide, by norm_num, by norm_num, by norm_num, hok⟩, h.1, h.2.2.2.1⟩

/-- C4.  In either mode, if the `j`-th primitive call is made and fails, then
every earlier call had succeeded, `writeData` returns false, exactly `j`
calls were made (nothing is called after the failure, so the failed chunk is
not retried), and the device is left as those `j` calls left it. -/
theorem writeData_first_failure_aborts (d : Device σ) (bs : Nat) (data : Nat → Nat)
    (len address : Nat) (s : σ) (j : Nat) (e : Event) (hj : 1 ≤ j)
    (hcall : (writeData d bs data len address s).trace[j - 1]? = some e)
    (hfail : e.ok = false) :
    (writeData d bs data len address s).status = false ∧
    (writeData d bs data len address s).trace.length = j ∧
    (∀ i e', i < j - 1 →
      (writeData d bs data len address s).trace[i]? = some e' → e'.ok = true) ∧
    (writeData d bs data len address s).dev
      = replay d data (writeData d bs data len address s).trace s := by
  obtain ⟨hiff, hlast⟩ := writeData_abort d bs data len address s
  have hlen := hlast (j - 1) e hcall hfail
  refine ⟨?_, by omega, ?_, writeData_replay d bs data len address s⟩
  · by_contra hne
    have hall := hiff.1 (by simpa using hne)
    have := hall e (List.mem_iff_getElem?.2 ⟨j - 1, hcall⟩)
    rw [hfail] at this
    exact Bool.noConfusion this
  · intro i e' hi he'
    by_contra hne
    have := hlast i e' he' (by simpa using hne)
    omega

/-- C4 on a concrete request: block size 64, 200 bytes from address 10, on a
device that fails on its second call.  The lead-in succeeds, the second
chunk fails, `writeData` returns false after exactly two calls. -/
theorem writeData_first_failure_aborts_witness :
    (1 ≤ 2 ∧
      (writeData (failOnCall 2) 64 (fun i => i) 200 10 0).trace[2 - 1]?
        = some ⟨.blockLoop, .burnBlock 54 64 64, false⟩) ∧
    (writeData (failOnCall 2) 64 (fun i => i) 200 10 0).status = false ∧
    (writeData (failOnCall 2) 64 (fun i => i) 200 10 0).trace.length = 2 :=
  have hcall : (writeData (failOnCall 2) 64 (fun i => i) 200 10 0).trace[2 - 1]?
      = some ⟨.blockLoop, .burnBlock 54 64 64, false⟩ := by
    simp [writeData, blockLoop_step, blockLoop_done, leadChunk, loopChunk, sub32, add32,
      failOnCall, (by decide : 10 &&& 63 = 10)]
  have h := writeData_first_failure_aborts (failOnCall 2) 64 (fun i => i) 200 10 0 2
    ⟨.blockLoop, .burnBlock 54 64 64, false⟩ (by decide) hcall rfl
  ⟨⟨by decide, hcall⟩, h.1, h.2.1⟩

/-! ## Block mode: chunk sizes -/

theorem specFullAndTail_step {bs len : Nat} (hbs : 0 < bs) (hlen : 0 < len) :
    loopChunk bs len :: specFullAndTail bs (len - loopChunk bs len)
      = specFullAndTail bs len := by
  unfold loopChunk specFullAndTail
  split
  · next hgt =>
    have hd : len / bs = (len - bs) / bs + 1 := by
      rw [Nat.div_eq_sub_div hbs (by omega)]
    have hm : len % bs = (len - bs) % bs := Nat.mod_eq_sub_mod (by omega)
    rw [hd, hm, List.replicate_succ, List.cons_append]
  · next hle =>
    rw [Nat.sub_self, Nat.zero_div, Nat.zero_mod]
    rcases Nat.lt_or_eq_of_le (Nat.le_of_not_lt hle) with hlt | heq
    · rw [Nat.div_eq_of_lt hlt, Nat.mod_eq_of_lt hlt]
      simp [Nat.pos_iff_ne_zero.1 hlen]
    · subst heq
      rw [Nat.div_self hbs, Nat.mod_self]
      simp

/-- A block loop that returns true cut its length into full blocks followed by
the remainder. -/
theorem blockLoop_sizes (d : Device σ) (data : Nat → Nat) (bs : Nat) (hbs : 0 < bs)
    (address len off : Nat) (s : σ) (hlen : len < 2 ^ 32)
    (h : (blockLoop d data bs hbs address len off s).status = true) :
    sizes (blockLoop d data bs hbs address len off s).trace = specFullAndTail bs len := by
  revert hlen h
  refine blockLoop_induction d data bs hbs address
    (fun len _ _ out => len < 2 ^ 32 → out.status = true →
      sizes out.trace = specFullAndTail bs len) ?_ ?_ ?_ len off s
  · intro off s _ _
    simp [sizes, specFullAndTail]
  · intro len off s _ _ _ h
    simp at h
  · intro len off s hpos _ ih hlen h
    have hc := loopChunk_le_len bs len
    have e1 : sub32 len (loopChunk bs len) = len - loopChunk bs len := sub32_chunk hlen hc
    have := ih (by rw [e1]; omega) h
    rw [← specFullAndTail_step hbs hpos, ← e1, ← this]
    rfl

/-- Every call of the block loop that is followed by another one has a chunk of
exactly `bs` bytes. -/
theorem blockLoop_inner (d : Device σ) (data : Nat → Nat) (bs : Nat) (hbs : 0 < bs)
    (address len off : Nat) (s : σ) :
    ∀ i e, i + 1 < (blockLoop d data bs hbs address len off s).trace.length →
      (blockLoop d data bs hbs address len off s).trace[i]? = some e → e.call.size = bs := by
  refine blockLoop_induction d data bs hbs address
    (fun _ _ _ out => ∀ i e, i + 1 < out.trace.length → out.trace[i]? = some e →
      e.call.size = bs) ?_ ?_ ?_ len off s
  · intro off s i e hi
    simp at hi
  · intro len off s _ _ i e hi
    simp at hi
  · intro len off s hpos _ ih i e hi he
    rcases i with _ | i
    · simp only [List.getElem?_cons_zero, Option.some.injEq] at he
      subst he
      simp only [blockEvent, Call.size]
      by_contra hne
      have hlen : loopChunk bs len = len := by
        unfold loopChunk at hne ⊢
        split
        · next hgt => simp [hgt] at hne
        · rfl
      have hz : sub32 len (loopChunk bs len) = 0 := by
        rw [hlen]
        unfold sub32
        rw [show len + 2 ^ 32 - len = 2 ^ 32 by omega, Nat.mod_self]
      rw [hz, blockLoop_done _ _ _ _ _ _ _ _ (by omega)] at hi
      simp at hi
    · rw [List.getElem?_cons_succ] at he
      simp only [List.length_cons] at hi
      exact ih i e (by omega) he

theorem mask_eq_mod (address k : Nat) : address &&& (2 ^ k - 1) = address % 2 ^ k :=
  Nat.and_pow_two_sub_one_eq_mod address k

/-- C5.  Block size a power of two, `len > 0`, every burnBlock call succeeding:
the chunk sizes passed to burnBlock are a lead-in `min(bs - a mod bs, len)`
when `a mod bs ≠ 0`, then `r / bs` chunks of `bs` bytes, then `r mod bs` when
that is not zero, `r` being what the lead-in leaves of `len`. -/
theorem writeData_chunk_sizes (d : Device σ) (bs k : Nat) (data : Nat → Nat)
    (len address : Nat) (s : σ) (hpow : bs = 2 ^ k) (hbs32 : bs < 2 ^ 32)
    (hpos : 0 < len) (hlen : len < 2 ^ 32)
    (hok : ∀ e ∈ (writeData d bs data len address s).trace, e.ok = true) :
    sizes (writeData d bs data len address s).trace
      = (if address % bs ≠ 0 then [min (bs - address % bs) len] else [])
        ++ List.replicate
            ((len - if address % bs ≠ 0 then min (bs - address % bs) len else 0) / bs) bs
        ++ (if (len - if address % bs ≠ 0 then min (bs - address % bs) len else 0) % bs ≠ 0
            then [(len - if address % bs ≠ 0 then min (bs - address % bs) len else 0) % bs]
            else []) ∧
    sizes (writeData d bs data len address s).trace = specChunkSizes bs address len := by
  have hbs : bs ≠ 0 := by
    rw [hpow]
    exact Nat.pos_iff_ne_zero.1 (Nat.pow_pos (by norm_num))
  have hst := (writeData_abort d bs data len address s).1.2 hok
  have hmask : address &&& (bs - 1) = address % bs := by
    rw [hpow]
    exact mask_eq_mod address k
  have hspec : sizes (writeData d bs data len address s).trace
      = specChunkSizes bs address len := by
    by_cases ha : address % bs = 0
    · have ha' : address &&& (bs - 1) = 0 := by rw [hmask]; exact ha
      rw [writeData_aligned d bs data len address s hbs ha'] at hst ⊢
      rw [blockLoop_sizes d data bs _ address len 0 s hlen hst]
      simp [specChunkSizes, ha]
    · have ha' : address &&& (bs - 1) ≠ 0 := by rw [hmask]; exact ha
      by_cases hr : (d.burnBlock data (leadChunk bs len address) address s).1 = false
      · rw [writeData_lead_fail d bs data len address s hbs ha' hr] at hst
        simp at hst
      · have hr1 : (d.burnBlock data (leadChunk bs len address) address s).1 = true := by
          simpa using hr
        rw [writeData_lead_ok d bs data len address s hbs ha' hr1] at hst ⊢
        have hc := leadChunk_le_len bs len address
        have e1 : sub32 len (leadChunk bs len address) = len - leadChunk bs len address :=
          sub32_chunk hlen hc
        have hsz := blockLoop_sizes d data bs (Nat.pos_of_ne_zero hbs) address
          (sub32 len (leadChunk bs len address)) (add32 0 (leadChunk bs len address))
          (d.burnBlock data (leadChunk bs len address) address s).2
          (by rw [e1]; omega) hst
        have hlead : leadChunk bs len address = specLead bs address len := by
          rw [leadChunk_eq len address hbs32, hmask]
          rfl
        simp only [sizes, List.map_cons] at hsz ⊢
        rw [hsz, e1, hlead]
        simp [specChunkSizes, ha, leadEvent, Call.size, hlead]
  refine ⟨?_, hspec⟩
  rw [hspec]
  unfold specChunkSizes specFullAndTail specLead
  by_cases ha : address % bs = 0
  · simp [ha]
  · simp [ha]

/-- C5 on the request of the specification: block size 64, 200 bytes from
address 10 give the chunks 54, 64, 64, 18, which add up to 200. -/
theorem writeData_chunk_sizes_witness :
    ((64 : Nat) = 2 ^ 6 ∧ 64 < 2 ^ 32 ∧ 0 < 200 ∧ 200 < 2 ^ 32 ∧
      ∀ e ∈ (writeData okDevice 64 (fun i => i) 200 10 ()).trace, e.ok = true) ∧
    sizes (writeData okDevice 64 (fun i => i) 200 10 ()).trace = specChunkSizes 64 10 200 ∧
    specChunkSizes 64 10 200 = [54, 64, 64, 18] ∧
    (sizes (writeData okDevice 64 (fun i => i) 200 10 ()).trace).sum = 200 :=
  have hok : ∀ e ∈ (writeData okDevice 64 (fun i => i) 200 10 ()).trace, e.ok = true := by
    simp [writeData, blockLoop_step, blockLoop_done, leadChunk, loopChunk, sub32, add32,
      okDevice, (by decide : 10 &&& 63 = 10)]
  have h := writeData_chunk_sizes okDevice 64 6 (fun i => i) 200 10 ()
    (by norm_num) (by norm_num) (by norm_num) (by norm_num) hok
  have hspec : specChunkSizes 64 10 200 = [54, 64, 64, 18] := by decide
  ⟨⟨by norm_num, by norm_num, by norm_num, by norm_num, hok⟩, h.2, hspec,
    by rw [h.2, hspec]; rfl⟩

/-- C6.  Block size a power of two, start address a multiple of it, length
an exact multiple of it, every burnBlock call succeeding: no lead-in call is
made, exactly `len / bs` burnBlock calls are made, and every chunk has
exactly `bs` bytes. -/
theorem writeData_aligned_whole_blocks (d : Device σ) (bs k : Nat) (data : Nat → Nat)
    (len address : Nat) (s : σ) (hpow : bs = 2 ^ k) (hlen : len < 2 ^ 32)
    (ha : address % bs = 0) (hmul : len % bs = 0)
    (hok : ∀ e ∈ (writeData d bs data len address s).trace, e.ok = true) :
    (∀ e ∈ (writeData d bs data len address s).trace, e.site ≠ .leadIn) ∧
    (writeData d bs data len address s).trace.length = len / bs ∧
    (∀ e ∈ (writeData d bs data len address s).trace,
      e.call.isBlock = true ∧ e.call.size = bs) ∧
    sizes (writeData d bs data len address s).trace = List.replicate (len / bs) bs := by
  have hbs : bs ≠ 0 := by
    rw [hpow]
    exact Nat.pos_iff_ne_zero.1 (Nat.pow_pos (by norm_num))
  have hst := (writeData_abort d bs data len address s).1.2 hok
  have ha' : address &&& (bs - 1) = 0 := by
    rw [hpow, mask_eq_mod, ← hpow]
    exact ha
  rw [writeData_aligned d bs data len address s hbs ha'] at hst ⊢
  have hsz := blockLoop_sizes d data bs (Nat.pos_of_ne_zero hbs) address len 0 s hlen hst
  have hrep : sizes (blockLoop d data bs (Nat.pos_of_ne_zero hbs) address len 0 s).trace
      = List.replicate (len / bs) bs := by
    rw [hsz]
    simp [specFullAndTail, hmul]
  have hcont := blockLoop_contiguous d data bs (Nat.pos_of_ne_zero hbs) address len 0 s
    (by omega)
  refine ⟨?_, ?_, ?_, hrep⟩
  · intro e he
    rw [(blockLoop_sites d data bs _ address len 0 s e he).1]
    decide
  · have := congrArg List.length hrep
    simpa [sizes] using this
  · intro e he
    refine ⟨contiguous_isBlock address _ 0 hcont e he, ?_⟩
    have hmem : e.call.size ∈ sizes (blockLoop d data bs (Nat.pos_of_ne_zero hbs)
        address len 0 s).trace := List.mem_map.2 ⟨e, he, rfl⟩
    rw [hrep] at hmem
    exact (List.mem_replicate.1 hmem).2

/-- C6 on a concrete request: block size 64, 128 bytes from address 192. -/
theorem writeData_aligned_whole_blocks_witness :
    ((64 : Nat) = 2 ^ 6 ∧ 128 < 2 ^ 32 ∧ 192 % 64 = 0 ∧ 128 % 64 = 0 ∧
      ∀ e ∈ (writeData okDevice 64 (fun i => i) 128 192 ()).trace, e.ok = true) ∧
    (∀ e ∈ (writeData okDevice 64 (fun i => i) 128 192 ()).trace, e.site ≠ .leadIn) ∧
    (writeData okDevice 64 (fun i => i) 128 192 ()).trace.length = 128 / 64 ∧
    sizes (writeData okDevice 64 (fun i => i) 128 192 ()).trace
      = List.replicate (128 / 64) 64 :=
  have hok : ∀ e ∈ (writeData okDevice 64 (fun i => i) 128 192 ()).trace, e.ok = true := by
    simp [writeData, blockLoop_step, blockLoop_done, loopChunk, sub32, add32,
      okDevice, (by decide : 192 &&& 63 = 0)]
  have h := writeData_aligned_whole_blocks okDevice 64 6 (fun i => i) 128 192 ()
    (by norm_num) (by norm_num) (by norm_num) (by norm_num) hok
  ⟨⟨by norm_num, by norm_num, by norm_num, by norm_num, hok⟩, h.1, h.2.1, h.2.2.2⟩

/-- C7, the request of the specification: block size 64, 200 bytes from
address 10.  The call succeeds, the chunks are 54, 64, 64, 18, and the fourth
chunk, which is not the first, has 18 bytes and not 64. -/
theorem writeData_last_chunk_short :
    (writeData okDevice 64 (fun i => i) 200 10 ()).status = true ∧
    sizes (writeData okDevice 64 (fun i => i) 200 10 ()).trace = [54, 64, 64, 18] ∧
    ∃ i e, 0 < i ∧ (writeData okDevice 64 (fun i => i) 200 10 ()).trace[i]? = some e ∧
      e.call.size ≠ 64 := by
  refine ⟨?_, ?_, 3, ⟨.blockLoop, .burnBlock 182 18 192, true⟩, by decide, ?_, by decide⟩ <;>
    simp [writeData, blockLoop_step, blockLoop_done, leadChunk, loopChunk, sub32, add32,
      okDevice, sizes, Call.size, blockEvent, (by decide : 10 &&& 63 = 10)]

/-- C7 (as amended).  On a successful `writeData` call on a block-capable
profile, every chunk passed to burnBlock other than the first and the last
has exactly `bs` bytes. -/
theorem writeData_inner_chunks_full (d : Device σ) (bs : Nat) (data : Nat → Nat)
    (len address : Nat) (s : σ) (hbs : bs ≠ 0)
    (hst : (writeData d bs data len address s).status = true) :
    ∀ i e, 0 < i → i + 1 < (writeData d bs data len address s).trace.length →
      (writeData d bs data len address s).trace[i]? = some e →
      e.call = .burnBlock e.call.off bs e.call.addr := by
  have hshape : ∀ e ∈ (writeData d bs data len address s).trace,
      e.call = .burnBlock e.call.off e.call.size e.call.addr := by
    intro e he
    by_cases ha : address &&& (bs - 1) = 0
    · rw [writeData_aligned d bs data len address s hbs ha] at he
      revert e
      refine blockLoop_induction d data bs (Nat.pos_of_ne_zero hbs) address
        (fun _ _ _ out => ∀ e ∈ out.trace,
          e.call = .burnBlock e.call.off e.call.size e.call.addr) ?_ ?_ ?_ len 0 s
      · intro off s e he
        simp at he
      · intro len off s _ _ e he
        simp only [List.mem_singleton] at he
        subst he
        rfl
      · intro len off s _ _ ih e he
        simp only [List.mem_cons] at he
        rcases he with rfl | he
        · rfl
        · exact ih e he
    · by_cases hr : (d.burnBlock data (leadChunk bs len address) address s).1 = false
      · rw [writeData_lead_fail d bs data len address s hbs ha hr] at hst
        simp at hst
      · have hr1 : (d.burnBlock data (leadChunk bs len address) address s).1 = true := by
          simpa using hr
        rw [writeData_lead_ok d bs data len address s hbs ha hr1] at he
        simp only [List.mem_cons] at he
        rcases he with rfl | he
        · rfl
        · revert e
          refine blockLoop_induction d data bs (Nat.pos_of_ne_zero hbs) address
            (fun _ _ _ out => ∀ e ∈ out.trace,
              e.call = .burnBlock e.call.off e.call.size e.call.addr) ?_ ?_ ?_ _ _ _
          · intro off s e he
            simp at he
          · intro len off s _ _ e he
            simp only [List.mem_singleton] at he
            subst he
            rfl
          · intro len off s _ _ ih e he
            simp only [List.mem_cons] at he
            rcases he with rfl | he
            · rfl
            · exact ih e he
  intro i e hi hlt he
  have hsize : e.call.size = bs := by
    by_cases ha : address &&& (bs - 1) = 0
    · rw [writeData_aligned d bs data len address s hbs ha] at hlt he
      exact blockLoop_inner d data bs _ address len 0 s i e hlt he
    · by_cases hr : (d.burnBlock data (leadChunk bs len address) address s).1 = false
      · rw [writeData_lead_fail d bs data len address s hbs ha hr] at hst
        simp at hst
      · have hr1 : (d.burnBlock data (leadChunk bs len address) address s).1 = true := by
          simpa using hr
        rw [writeData_lead_ok d bs data len address s hbs ha hr1] at hlt he
        obtain ⟨i, rfl⟩ : ∃ i', i = i' + 1 := ⟨i - 1, by omega⟩
        rw [List.getElem?_cons_succ] at he
        simp only [List.length_cons] at hlt
        exact blockLoop_inner d data bs _ address _ _ _ i e (by omega) he
  have := hshape e (List.mem_iff_getElem?.2 ⟨i, he⟩)
  rw [hsize] at this
  exact this

/-- C7 (as amended) on the request of the specification: the second and third
of the chunks 54, 64, 64, 18 have 64 bytes. -/
theorem writeData_inner_chunks_full_witness :
    ((64 : Nat) ≠ 0 ∧ (writeData okDevice 64 (fun i => i) 200 10 ()).status = true) ∧
    ∀ i e, 0 < i → i + 1 < (writeData okDevice 64 (fun i => i) 200 10 ()).trace.length →
      (writeData okDevice 64 (fun i => i) 200 10 ()).trace[i]? = some e →
      e.call = .burnBlock e.call.off 64 e.call.addr :=
  have hst : (writeData okDevice 64 (fun i => i) 200 10 ()).status = true := by
    simp [writeData, blockLoop_step, blockLoop_done, leadChunk, loopChunk, sub32, add32,
      okDevice, (by decide : 10 &&& 63 = 10)]
  ⟨⟨by decide, hst⟩,
    writeData_inner_chunks_full okDevice 64 (fun i => i) 200 10 () (by decide) hst⟩

/-- C8, concrete request: block size 3, six bytes from address 4.  The
address is not a multiple of the block size, yet no lead-in call is made:
the calls are two chunks of 3 bytes from the block loop, the first at
address 4. -/
theorem writeData_no_lead_in_unaligned :
    4 % 3 ≠ 0 ∧ min (3 - 4 % 3) 6 = 2 ∧
    (writeData okDevice 3 (fun i => i) 6 4 ()).trace
      = [⟨.blockLoop, .burnBlock 0 3 4, true⟩, ⟨.blockLoop, .burnBlock 3 3 7, true⟩] := by
  refine ⟨by decide, by decide, ?_⟩
  simp [writeData, blockLoop_step, blockLoop_done, loopChunk, sub32, add32,
    okDevice, (by decide : 4 &&& 2 = 0)]

/-- C8 (as amended).  Block size a power of two, any `len`: a lead-in call is
made exactly when `a mod bs ≠ 0`; it is then the first call,
`burnBlock(data, min(bs - a mod bs, len), a)`, and every later call comes
from the block loop; when `a mod bs = 0` every call comes from the block
loop. -/
theorem writeData_lead_in (d : Device σ) (bs k : Nat) (data : Nat → Nat)
    (len address : Nat) (s : σ) (hpow : bs = 2 ^ k) (hbs32 : bs < 2 ^ 32) :
    ((∃ e ∈ (writeData d bs data len address s).trace, e.site = .leadIn)
      ↔ address % bs ≠ 0) ∧
    (address % bs ≠ 0 → ∃ ok rest,
      (writeData d bs data len address s).trace
        = ⟨.leadIn, .burnBlock 0 (min (bs - address % bs) len) address, ok⟩ :: rest ∧
      ∀ e ∈ rest, e.site = .blockLoop) ∧
    (address % bs = 0 → ∀ e ∈ (writeData d bs data len address s).trace,
      e.site = .blockLoop) := by
  have hbs : bs ≠ 0 := by
    rw [hpow]
    exact Nat.pos_iff_ne_zero.1 (Nat.pow_pos (by norm_num))
  have hmask : address &&& (bs - 1) = address % bs := by
    rw [hpow]
    exact mask_eq_mod address k
  have hlead : leadChunk bs len address = min (bs - address % bs) len := by
    rw [leadChunk_eq len address hbs32, hmask]
  have hyes : address % bs ≠ 0 → ∃ ok rest,
      (writeData d bs data len address s).trace
        = ⟨.leadIn, .burnBlock 0 (min (bs - address % bs) len) address, ok⟩ :: rest ∧
      ∀ e ∈ rest, e.site = .blockLoop := by
    intro ha
    have ha' : address &&& (bs - 1) ≠ 0 := by rw [hmask]; exact ha
    rw [← hlead]
    by_cases hr : (d.burnBlock data (leadChunk bs len address) address s).1 = false
    · rw [writeData_lead_fail d bs data len address s hbs ha' hr]
      exact ⟨false, [], rfl, by simp⟩
    · have hr1 : (d.burnBlock data (leadChunk bs len address) address s).1 = true := by
        simpa using hr
      rw [writeData_lead_ok d bs data len address s hbs ha' hr1]
      exact ⟨true, _, rfl,
        fun e he => (blockLoop_sites d data bs _ address _ _ _ e he).1⟩
  have hno : address % bs = 0 → ∀ e ∈ (writeData d bs data len address s).trace,
      e.site = .blockLoop := by
    intro ha
    have ha' : address &&& (bs - 1) = 0 := by rw [hmask]; exact ha
    rw [writeData_aligned d bs data len address s hbs ha']
    exact fun e he => (blockLoop_sites d data bs _ address len 0 s e he).1
  refine ⟨⟨?_, ?_⟩, hyes, hno⟩
  · rintro ⟨e, he, hsite⟩ ha
    have := hno ha e he
    rw [hsite] at this
    exact Site.noConfusion this
  · intro ha
    obtain ⟨ok, rest, ht, _⟩ := hyes ha
    exact ⟨_, by rw [ht]; exact List.mem_cons_self _ _, rfl⟩

/-- C8 (as amended) on the request of the specification: block size 64, 200
bytes from address 10 start with a lead-in of 54 bytes. -/
theorem writeData_lead_in_witness :
    ((64 : Nat) = 2 ^ 6 ∧ 64 < 2 ^ 32) ∧
    (10 % 64 ≠ 0 → ∃ ok rest,
      (writeData okDevice 64 (fun i => i) 200 10 ()).trace
        = ⟨.leadIn, .burnBlock 0 (min (64 - 10 % 64) 200) 10, ok⟩ :: rest ∧
      ∀ e ∈ rest, e.site = .blockLoop) :=
  ⟨⟨by norm_num, by norm_num⟩,
    (writeData_lead_in okDevice 64 6 (fun i => i) 200 10 ()
      (by norm_num) (by norm_num)).2.1⟩

/-! ## Shift-register realization: one register transfer -/

namespace ShiftRegister

theorem testBit_mod256 (x i : Nat) :
    (x % 256).testBit i = (decide (i < 8) && x.testBit i) :=
  Nat.testBit_mod_two_pow x 8 i

theorem dataBit_cases (addr : Nat) :
    (addr &&& 0x80 ≠ 0 ∧ dataBit addr = 1) ∨ (addr &&& 0x80 = 0 ∧ dataBit addr = 0) := by
  unfold dataBit
  by_cases h : addr &&& 0x80 = 0
  · exact Or.inr ⟨h, by simp [h]⟩
  · exact Or.inl ⟨h, by simp [h]⟩

theorem shiftBit_lo_bus (addr : Nat) (s : Driver) (hclk : s.bus.PORTC.testBit 4 = false) :
    (shiftBit addr ADDR_CLK_LO_MASK s).bus =
      { s.bus with
        PORTC := afterBit 0x10 (dataBit addr) s.bus.PORTC
        loReg := (2 * s.bus.loReg + dataBit addr) % 256 } := by
  rcases dataBit_cases addr with ⟨h, hd⟩ | ⟨h, hd⟩ <;>
  simp [shiftBit, outPORTC, Bus.writePORTC, rising, not8, testBit_mod256, h, hd, hclk,
    afterBit, Nat.testBit_or, Nat.testBit_and, ADDR_CLK_LO_MASK, ADDR_DATA_MASK,
    (by decide : Nat.testBit 32 3 = false), (by decide : Nat.testBit 32 4 = false),
    (by decide : Nat.testBit 32 5 = true), (by decide : Nat.testBit 16 4 = true),
    (by decide : Nat.testBit 16 3 = false), (by decide : Nat.testBit 16 5 = false),
    (by decide : Nat.testBit 239 4 = false), (by decide : Nat.testBit 239 3 = true),
    (by decide : Nat.testBit 239 5 = true), (by decide : Nat.testBit 223 3 = true),
    (by decide : Nat.testBit 223 4 = true), (by decide : Nat.testBit 223 5 = false)]

theorem shiftBit_hi_bus (addr : Nat) (s : Driver) (hclk : s.bus.PORTC.testBit 3 = false) :
    (shiftBit addr ADDR_CLK_HI_MASK s).bus =
      { s.bus with
        PORTC := afterBit 0x08 (dataBit addr) s.bus.PORTC
        hiReg := (2 * s.bus.hiReg + dataBit addr) % 256 } := by
  rcases dataBit_cases addr with ⟨h, hd⟩ | ⟨h, hd⟩ <;>
  simp [shiftBit, outPORTC, Bus.writePORTC, rising, not8, testBit_mod256, h, hd, hclk,
    afterBit, Nat.testBit_or, Nat.testBit_and, ADDR_CLK_HI_MASK, ADDR_DATA_MASK,
    (by decide : Nat.testBit 32 3 = false), (by decide : Nat.testBit 32 4 = false),
    (by decide : Nat.testBit 32 5 = true), (by decide : Nat.testBit 8 4 = false),
    (by decide : Nat.testBit 8 3 = true), (by decide : Nat.testBit 8 5 = false),
    (by decide : Nat.testBit 247 4 = true), (by decide : Nat.testBit 247 3 = false),
    (by decide : Nat.testBit 247 5 = true), (by decide : Nat.testBit 223 3 = true),
    (by decide : Nat.testBit 223 4 = true), (by decide : Nat.testBit 223 5 = false)]

theorem shiftBit_frame (addr mask : Nat) (s : Driver) :
    (shiftBit addr mask s).lastHi = s.lastHi ∧ (shiftBit addr mask s).lastUpper = s.lastUpper := by
  unfold shiftBit
  split <;> simp [outPORTC]

theorem afterBit_clock_lo (d P : Nat) : (afterBit 0x10 d P).testBit 4 = false := by
  simp [afterBit, not8, testBit_mod256, Nat.testBit_and, (by decide : Nat.testBit 239 4 = false)]

theorem afterBit_clock_hi (d P : Nat) : (afterBit 0x08 d P).testBit 3 = false := by
  simp [afterBit, not8, testBit_mod256, Nat.testBit_and, (by decide : Nat.testBit 247 3 = false)]

theorem shiftLoop_lo_bus (n : Nat) :
    ∀ (addr : Nat) (s : Driver), s.bus.PORTC.testBit 4 = false →
      (shiftLoop n addr ADDR_CLK_LO_MASK s).bus =
        { s.bus with
          PORTC := portAfter n addr 0x10 s.bus.PORTC
          loReg := regAfter n addr s.bus.loReg } := by
  induction n with
  | zero =>
    intro addr s _
    rfl
  | succ n ih =>
    intro addr s hclk
    have hb := shiftBit_lo_bus addr s hclk
    have hclk1 : (shiftBit addr ADDR_CLK_LO_MASK s).bus.PORTC.testBit 4 = false := by
      rw [hb]
      exact afterBit_clock_lo _ _
    rw [shiftLoop, ih _ _ hclk1, hb]
    rfl

theorem shiftLoop_hi_bus (n : Nat) :
    ∀ (addr : Nat) (s : Driver), s.bus.PORTC.testBit 3 = false →
      (shiftLoop n addr ADDR_CLK_HI_MASK s).bus =
        { s.bus with
          PORTC := portAfter n addr 0x08 s.bus.PORTC
          hiReg := regAfter n addr s.bus.hiReg } := by
  induction n with
  | zero =>
    intro addr s _
    rfl
  | succ n ih =>
    intro addr s hclk
    have hb := shiftBit_hi_bus addr s hclk
    have hclk1 : (shiftBit addr ADDR_CLK_HI_MASK s).bus.PORTC.testBit 3 = false := by
      rw [hb]
      exact afterBit_clock_hi _ _
    rw [shiftLoop, ih _ _ hclk1, hb]
    rfl

theorem shiftLoop_frame (n : Nat) :
    ∀ (addr mask : Nat) (s : Driver),
      (shiftLoop n addr mask s).lastHi = s.lastHi ∧
      (shiftLoop n addr mask s).lastUpper = s.lastUpper := by
  induction n with
  | zero =>
    intro addr mask s
    exact ⟨rfl, rfl⟩
  | succ n ih =>
    intro addr mask s
    rw [shiftLoop]
    have h1 := ih ((addr <<< 1) % 256) mask (shiftBit addr mask s)
    have h2 := shiftBit_frame addr mask s
    exact ⟨h1.1.trans h2.1, h1.2.trans h2.2⟩

theorem dataBit_le_one (addr : Nat) : dataBit addr ≤ 1 := by
  unfold dataBit
  split <;> omega

set_option maxRecDepth 100000 in
theorem dataBits_value : ∀ addr, addr < 256 →
    128 * dataBit addr + 64 * dataBit ((addr <<< 1) % 256)
      + 32 * dataBit ((((addr <<< 1) % 256) <<< 1) % 256)
      + 16 * dataBit ((((((addr <<< 1) % 256) <<< 1) % 256) <<< 1) % 256)
      + 8 * dataBit ((((((((addr <<< 1) % 256) <<< 1) % 256) <<< 1) % 256) <<< 1) % 256)
      + 4 * dataBit ((((((((((addr <<< 1) % 256) <<< 1) % 256) <<< 1) % 256) <<< 1) % 256)
          <<< 1) % 256)
      + 2 * dataBit ((((((((((((addr <<< 1) % 256) <<< 1) % 256) <<< 1) % 256) <<< 1) % 256)
          <<< 1) % 256) <<< 1) % 256)
      + dataBit ((((((((((((((addr <<< 1) % 256) <<< 1) % 256) <<< 1) % 256) <<< 1) % 256)
          <<< 1) % 256) <<< 1) % 256) <<< 1) % 256) = addr := by
  decide

/-- Eight iterations of the loop leave the byte itself in the register clocked,
whatever it held. -/
theorem regAfter_eight (addr r : Nat) (h : addr < 256) : regAfter 8 addr r = addr := by
  have hv := dataBits_value addr h
  simp only [regAfter]
  generalize dataBit addr = b7 at hv ⊢
  omega

theorem latch_bus (s : Driver) :
    (outPORTB (((outPORTB ((outPORTB (s.bus.PORTB &&& not8 RCLK_595_MASK) s).bus.PORTB
        ||| RCLK_595_MASK) (outPORTB (s.bus.PORTB &&& not8 RCLK_595_MASK) s)).bus.PORTB)
        &&& not8 RCLK_595_MASK)
      (outPORTB ((outPORTB (s.bus.PORTB &&& not8 RCLK_595_MASK) s).bus.PORTB
        ||| RCLK_595_MASK) (outPORTB (s.bus.PORTB &&& not8 RCLK_595_MASK) s))).bus =
      { s.bus with
        PORTB := afterLatch s.bus.PORTB
        hiOut := s.bus.hiReg
        loOut := s.bus.loReg } := by
  simp [outPORTB, Bus.writePORTB, rising, not8, testBit_mod256, afterLatch, RCLK_595_MASK,
    Nat.testBit_or, Nat.testBit_and, (by decide : Nat.testBit 32 5 = true),
    (by decide : Nat.testBit 223 5 = false)]

theorem latch_frame (s : Driver) :
    (outPORTB (((outPORTB ((outPORTB (s.bus.PORTB &&& not8 RCLK_595_MASK) s).bus.PORTB
        ||| RCLK_595_MASK) (outPORTB (s.bus.PORTB &&& not8 RCLK_595_MASK) s)).bus.PORTB)
        &&& not8 RCLK_595_MASK)
      (outPORTB ((outPORTB (s.bus.PORTB &&& not8 RCLK_595_MASK) s).bus.PORTB
        ||| RCLK_595_MASK) (outPORTB (s.bus.PORTB &&& not8 RCLK_595_MASK) s))).lastHi
      = s.lastHi ∧
    (outPORTB (((outPORTB ((outPORTB (s.bus.PORTB &&& not8 RCLK_595_MASK) s).bus.PORTB
        ||| RCLK_595_MASK) (outPORTB (s.bus.PORTB &&& not8 RCLK_595_MASK) s)).bus.PORTB)
        &&& not8 RCLK_595_MASK)
      (outPORTB ((outPORTB (s.bus.PORTB &&& not8 RCLK_595_MASK) s).bus.PORTB
        ||| RCLK_595_MASK) (outPORTB (s.bus.PORTB &&& not8 RCLK_595_MASK) s))).lastUpper
      = s.lastUpper := by
  simp [outPORTB]

theorem clockLow_lo_bus (s : Driver) :
    (outPORTC (s.bus.PORTC &&& not8 ADDR_CLK_LO_MASK) s).bus
      = { s.bus with PORTC := (s.bus.PORTC &&& 0xEF) % 256 } := by
  simp [outPORTC, Bus.writePORTC, rising, not8, testBit_mod256, ADDR_CLK_LO_MASK,
    Nat.testBit_and, (by decide : Nat.testBit 239 4 = false),
    (by decide : Nat.testBit 239 3 = true)]

theorem clockLow_hi_bus (s : Driver) :
    (outPORTC (s.bus.PORTC &&& not8 ADDR_CLK_HI_MASK) s).bus
      = { s.bus with PORTC := (s.bus.PORTC &&& 0xF7) % 256 } := by
  simp [outPORTC, Bus.writePORTC, rising, not8, testBit_mod256, ADDR_CLK_HI_MASK,
    Nat.testBit_and, (by decide : Nat.testBit 247 4 = true),
    (by decide : Nat.testBit 247 3 = false)]

/-- Effect of `setAddressRegister(ADDR_CLK_LO, addr)` on the hardware. -/
theorem setAddressRegister_lo_bus (addr : Nat) (s : Driver) :
    (setAddressRegister ADDR_CLK_LO addr s).bus =
      { s.bus with
        PORTC := portAfter 8 addr 0x10 ((s.bus.PORTC &&& 0xEF) % 256)
        loReg := regAfter 8 addr s.bus.loReg
        PORTB := afterLatch s.bus.PORTB
        hiOut := s.bus.hiReg
        loOut := regAfter 8 addr s.bus.loReg } := by
  have hmask : clockMask ADDR_CLK_LO = ADDR_CLK_LO_MASK := by
    simp [clockMask, ADDR_CLK_LO, ADDR_CLK_HI]
  unfold setAddressRegister
  simp only [hmask]
  have h1 := clockLow_lo_bus s
  have hclk : (outPORTC (s.bus.PORTC &&& not8 ADDR_CLK_LO_MASK) s).bus.PORTC.testBit 4
      = false := by
    rw [h1]
    simp [testBit_mod256, Nat.testBit_and, (by decide : Nat.testBit 239 4 = false)]
  have h2 := shiftLoop_lo_bus 8 addr _ hclk
  rw [latch_bus]
  simp only [h2, h1]

/-- Effect of `setAddressRegister(ADDR_CLK_HI, addr)` on the hardware. -/
theorem setAddressRegister_hi_bus (addr : Nat) (s : Driver) :
    (setAddressRegister ADDR_CLK_HI addr s).bus =
      { s.bus with
        PORTC := portAfter 8 addr 0x08 ((s.bus.PORTC &&& 0xF7) % 256)
        hiReg := regAfter 8 addr s.bus.hiReg
        PORTB := afterLatch s.bus.PORTB
        hiOut := regAfter 8 addr s.bus.hiReg
        loOut := s.bus.loReg } := by
  have hmask : clockMask ADDR_CLK_HI = ADDR_CLK_HI_MASK := by
    simp [clockMask]
  unfold setAddressRegister
  simp only [hmask]
  have h1 := clockLow_hi_bus s
  have hclk : (outPORTC (s.bus.PORTC &&& not8 ADDR_CLK_HI_MASK) s).bus.PORTC.testBit 3
      = false := by
    rw [h1]
    simp [testBit_mod256, Nat.testBit_and, (by decide : Nat.testBit 247 3 = false)]
  have h2 := shiftLoop_hi_bus 8 addr _ hclk
  rw [latch_bus]
  simp only [h2, h1]

/-- The function `setAddressRegister` leaves the static bytes of `setAddress`
alone. -/
theorem setAddressRegister_frame (clkPin addr : Nat) (s : Driver) :
    (setAddressRegister clkPin addr s).lastHi = s.lastHi ∧
    (setAddressRegister clkPin addr s).lastUpper = s.lastUpper := by
  unfold setAddressRegister
  simp only
  have h1 := latch_frame (shiftLoop 8 addr (clockMask clkPin)
    (outPORTC (s.bus.PORTC &&& not8 (clockMask clkPin)) s))
  have h2 := shiftLoop_frame 8 addr (clockMask clkPin)
    (outPORTC (s.bus.PORTC &&& not8 (clockMask clkPin)) s)
  exact ⟨h1.1.trans h2.1, h1.2.trans h2.2⟩

/-- Effect of `setUpperAddress` on the hardware: only `PORTB` changes, and the
register clock `PB5` keeps its level. -/
theorem setUpperAddress_bus (addr : Nat) (s : Driver) :
    (setUpperAddress addr s).bus =
      { s.bus with
        PORTB := ((s.bus.PORTB &&& 0xE3) ||| ((addr <<< 2) &&& 0x1c)) % 256 } := by
  simp [setUpperAddress, outPORTB, Bus.writePORTB, rising, not8, testBit_mod256,
    UPPER_ADDR_MASK, Nat.testBit_or, Nat.testBit_and,
    (by decide : Nat.testBit 227 5 = true), (by decide : Nat.testBit 28 5 = false)]

/-! ## Shift-register realization: `setAddress` -/

theorem testBit_seven (i : Nat) : Nat.testBit 7 i = decide (i < 3) := by
  rcases Nat.lt_or_ge i 3 with h | h
  · interval_cases i <;> rfl
  · rw [Nat.testBit_lt_two_pow (lt_of_lt_of_le (by norm_num : 7 < 2 ^ 3)
      (Nat.pow_le_pow_right (by norm_num) h))]
    simp
    omega

/-- The register-clock pulse does not touch the extended address lines. -/
theorem extended_afterLatch (Q : Nat) : (afterLatch Q >>> 2) &&& 7 = (Q >>> 2) &&& 7 := by
  apply Nat.eq_of_testBit_eq
  intro i
  simp only [Nat.testBit_and, Nat.testBit_shiftRight, testBit_seven, afterLatch,
    testBit_mod256, Nat.testBit_or]
  rcases Nat.lt_or_ge i 3 with h | h
  · interval_cases i <;> simp [(by decide : Nat.testBit 223 2 = true),
      (by decide : Nat.testBit 223 3 = true), (by decide : Nat.testBit 223 4 = true),
      (by decide : Nat.testBit 32 2 = false), (by decide : Nat.testBit 32 3 = false),
      (by decide : Nat.testBit 32 4 = false)]
  · simp [Nat.not_lt.2 h]

/-- The write of `setUpperAddress` puts the low three bits of its argument on the
extended address lines. -/
theorem extended_upper (Q u : Nat) :
    ((((Q &&& 0xE3) ||| ((u <<< 2) &&& 0x1c)) % 256) >>> 2) &&& 7 = u &&& 7 := by
  apply Nat.eq_of_testBit_eq
  intro i
  simp only [Nat.testBit_and, Nat.testBit_shiftRight, testBit_seven,
    testBit_mod256, Nat.testBit_or, Nat.testBit_shiftLeft]
  rcases Nat.lt_or_ge i 3 with h | h
  · interval_cases i <;> simp [(by decide : Nat.testBit 227 2 = false),
      (by decide : Nat.testBit 227 3 = false), (by decide : Nat.testBit 227 4 = false),
      (by decide : Nat.testBit 28 2 = true), (by decide : Nat.testBit 28 3 = true),
      (by decide : Nat.testBit 28 4 = true)]
  · simp [Nat.not_lt.2 h]

theorem and_255_lt (a : Nat) : a &&& 0xff < 256 :=
  lt_of_le_of_lt Nat.and_le_right (by norm_num)

theorem and_255_and_7 (a : Nat) : (a &&& 0xff) &&& 7 = a &&& 7 := by
  rw [Nat.and_assoc]
  rfl

/-- First step of `setAddress`: the extended lines. -/
theorem setAddress_upper_step (upper : Nat) (s : Driver) :
    ∃ s1 : Driver,
      (if upper ≠ s.lastUpper
        then { setUpperAddress upper s with lastUpper := upper } else s) = s1 ∧
      s1.lastUpper = upper ∧ s1.lastHi = s.lastHi ∧ s1.bus.hiReg = s.bus.hiReg ∧
      ((upper = s.lastUpper → s.bus.extended = s.lastUpper &&& 7) →
        s1.bus.extended = upper &&& 7) := by
  refine ⟨_, rfl, ?_, ?_, ?_, ?_⟩
  · by_cases h : upper = s.lastUpper
    · simp [h]
    · simp [h]
  · by_cases h : upper = s.lastUpper
    · simp [h]
    · simp [h, setUpperAddress, outPORTB]
  · by_cases h : upper = s.lastUpper
    · simp [h]
    · simp [h, setUpperAddress_bus]
  · intro hc
    by_cases h : upper = s.lastUpper
    · simp only [h, ne_eq, not_true_eq_false, if_false]
      rw [hc h]
    · simp only [h, ne_eq, not_false_eq_true, if_true, setUpperAddress_bus, Bus.extended]
      exact extended_upper s.bus.PORTB upper

/-- Second step of `setAddress`: the high byte. -/
theorem setAddress_hi_step (hi : Nat) (hhi : hi < 256) (s : Driver) :
    ∃ s2 : Driver,
      (if hi ≠ s.lastHi
        then { setAddressRegister ADDR_CLK_HI hi s with lastHi := hi } else s) = s2 ∧
      s2.lastUpper = s.lastUpper ∧ s2.lastHi = hi ∧ s2.bus.extended = s.bus.extended ∧
      ((hi = s.lastHi → s.bus.hiReg = s.lastHi) → s2.bus.hiReg = hi) := by
  refine ⟨_, rfl, ?_, ?_, ?_, ?_⟩
  · by_cases h : hi = s.lastHi
    · simp [h]
    · simp [h, (setAddressRegister_frame ADDR_CLK_HI hi s).2]
  · by_cases h : hi = s.lastHi
    · simp [h]
    · simp [h]
  · by_cases h : hi = s.lastHi
    · simp [h]
    · simp only [h, ne_eq, not_false_eq_true, if_true, setAddressRegister_hi_bus,
        Bus.extended]
      exact extended_afterLatch s.bus.PORTB
  · intro hc
    by_cases h : hi = s.lastHi
    · simp only [h, ne_eq, not_true_eq_false, if_false]
      rw [hc h]
    · simp only [h, ne_eq, not_false_eq_true, if_true, setAddressRegister_hi_bus]
      exact regAfter_eight hi _ hhi

theorem upper_small (a : Nat) (h : a < 2 ^ 19) :
    (a >>> 16) &&& 0xff = (a >>> 16) &&& 7 := by
  have hlt : a >>> 16 < 8 := by
    rw [Nat.shiftRight_eq_div_pow]
    exact Nat.div_lt_of_lt_mul (by norm_num at h ⊢; omega)
  generalize a >>> 16 = x at hlt
  interval_cases x <;> rfl

theorem shiftRight_and_255_and_7 (a : Nat) : ((a >>> 16) &&& 0xff) &&& 7 = (a >>> 16) &&& 7 :=
  and_255_and_7 (a >>> 16)

/-- A call `setAddress a` presents `a`, provided each static byte that equals
the plane requested agrees with what the hardware holds for that plane. -/
theorem setAddress_presents (a : Nat) (s : Driver)
    (hU : upperByte a = s.lastUpper → s.bus.extended = s.lastUpper &&& 7)
    (hH : hiByte a = s.lastHi → s.bus.hiReg = s.lastHi) :
    Presents (setAddress a s) a := by
  obtain ⟨s1, e1, hu1, hh1, hr1, hx1⟩ := setAddress_upper_step (upperByte a) s
  obtain ⟨s2, e2, hu2, hh2, hx2, hr2⟩ :=
    setAddress_hi_step (hiByte a) (and_255_lt _) s1
  have hset : setAddress a s = setAddressRegister ADDR_CLK_LO (loByte a) s2 := by
    unfold setAddress
    simp only [e1, e2]
  have hreg : s2.bus.hiReg = hiByte a := hr2 (by
    intro h
    rw [hh1] at h ⊢
    rw [hr1]
    exact hH h)
  have hext : s2.bus.extended = upperByte a &&& 7 := by
    rw [hx2]
    exact hx1 hU
  have hlo : regAfter 8 (loByte a) s2.bus.loReg = loByte a :=
    regAfter_eight _ _ (and_255_lt _)
  have hfr := setAddressRegister_frame ADDR_CLK_LO (loByte a) s2
  have hext2 : (setAddressRegister ADDR_CLK_LO (loByte a) s2).bus.extended
      = upperByte a &&& 7 := by
    rw [← hext, setAddressRegister_lo_bus]
    exact extended_afterLatch s2.bus.PORTB
  rw [hset]
  refine ⟨?_, ?_, ?_, ?_, ?_, ?_, ?_, ?_, ?_⟩
  · rw [setAddressRegister_lo_bus]
    exact hlo
  · rw [setAddressRegister_lo_bus]
    exact hreg
  · rw [hext2]
    exact shiftRight_and_255_and_7 a
  · rw [setAddressRegister_lo_bus]
    exact hlo
  · rw [setAddressRegister_lo_bus]
    exact hreg
  · rw [hfr.1, hh2, setAddressRegister_lo_bus]
    exact hreg.symm
  · rw [hfr.2, hu2, hu1]
    rfl
  · rw [hfr.2, hu2, hu1, hext2]
  · intro ha
    rw [hfr.2, hu2, hu1, hext2]
    exact (upper_small a ha).trans (shiftRight_and_255_and_7 a).symm

theorem begin_eq (s : Driver) :
    ∃ s0 : Driver, begin s = setAddress 0 s0 ∧ s0.lastHi = s.lastHi ∧
      s0.lastUpper = s.lastUpper := by
  refine ⟨_, rfl, ?_, ?_⟩ <;>
    simp [pinModeOutput, digitalWriteLow, outDDRC, outDDRB, outPORTC]

/-- After `begin` on a driver whose static bytes hold `0xca`, address 0 is
presented. -/
theorem begin_presents (s : Driver) (h : PowerOn s) : Presents (begin s) 0 := by
  obtain ⟨s0, e, hh, hu⟩ := begin_eq s
  rw [e]
  apply setAddress_presents
  · intro hc
    rw [hu, h.2] at hc
    exact absurd hc (by decide)
  · intro hc
    rw [hh, h.1] at hc
    exact absurd hc (by decide)

/-- A driver that presents an address presents the next one requested. -/
theorem setAddress_keeps (a b : Nat) (s : Driver) (h : Presents s a) :
    Presents (setAddress b s) b := by
  obtain ⟨_, _, _, _, _, h6, _, h8, _⟩ := h
  exact setAddress_presents b s (fun _ => h8.symm) (fun _ => h6.symm)

theorem run_presents (as : List Nat) :
    ∀ (a : Nat) (s : Driver), Presents s a → Presents (run as s) (as.getLast?.getD a) := by
  induction as with
  | nil =>
    intro a s h
    exact h
  | cons b bs ih =>
    intro a s h
    have := ih b (setAddress b s) (setAddress_keeps a b s h)
    simp only [run, List.foldl_cons] at this ⊢
    rw [List.getLast?_cons]
    exact this

/-! ## Shift-register realization: repeating a request -/

set_option maxRecDepth 100000 in
theorem afterBit_collapse_lo : ∀ d, d < 2 → ∀ e, e < 2 → ∀ x, x < 256 →
    afterBit 0x10 d (afterBit 0x10 e x) = afterBit 0x10 d x := by
  decide

set_option maxRecDepth 100000 in
theorem afterBit_again_lo : ∀ d, d < 2 → ∀ x, x < 256 →
    afterBit 0x10 d ((afterBit 0x10 d x &&& 0xEF) % 256) = afterBit 0x10 d x := by
  decide

set_option maxRecDepth 100000 in
theorem afterLatch_step : ∀ y, y < 256 →
    (((((((y ||| 0x20) % 256) &&& 0xDF) % 256 &&& 0xDF) % 256 ||| 0x20) % 256) &&& 0xDF) % 256
      = (((y ||| 0x20) % 256) &&& 0xDF) % 256 := by
  decide

theorem afterLatch_idem (Q : Nat) : afterLatch (afterLatch Q) = afterLatch Q :=
  afterLatch_step ((Q &&& 0xDF) % 256) (Nat.mod_lt _ (by norm_num))

theorem dataBit_lt_two (addr : Nat) : dataBit addr < 2 :=
  Nat.lt_succ_of_le (dataBit_le_one addr)

theorem afterBit_lt (m d x : Nat) : afterBit m d x < 256 :=
  Nat.mod_lt _ (by norm_num)

theorem portAfter_again_lo (v P : Nat) :
    portAfter 8 v 0x10 ((portAfter 8 v 0x10 ((P &&& 0xEF) % 256) &&& 0xEF) % 256)
      = portAfter 8 v 0x10 ((P &&& 0xEF) % 256) := by
  have hx : (P &&& 0xEF) % 256 < 256 := Nat.mod_lt _ (by norm_num)
  simp only [portAfter]
  rw [afterBit_collapse_lo _ (dataBit_lt_two _) _ (dataBit_lt_two _) _ hx,
    afterBit_collapse_lo _ (dataBit_lt_two _) _ (dataBit_lt_two _) _ hx,
    afterBit_collapse_lo _ (dataBit_lt_two _) _ (dataBit_lt_two _) _ hx,
    afterBit_collapse_lo _ (dataBit_lt_two _) _ (dataBit_lt_two _) _ hx,
    afterBit_collapse_lo _ (dataBit_lt_two _) _ (dataBit_lt_two _) _ hx,
    afterBit_collapse_lo _ (dataBit_lt_two _) _ (dataBit_lt_two _) _ hx,
    afterBit_collapse_lo _ (dataBit_lt_two _) _ (dataBit_lt_two _) _ hx]
  have hy : (afterBit 0x10 (dataBit ((((((((((((((v <<< 1) % 256) <<< 1) % 256) <<< 1) % 256)
      <<< 1) % 256) <<< 1) % 256) <<< 1) % 256) <<< 1) % 256)) ((P &&& 0xEF) % 256) &&& 0xEF)
      % 256 < 256 := Nat.mod_lt _ (by norm_num)
  rw [afterBit_collapse_lo _ (dataBit_lt_two _) _ (dataBit_lt_two _) _ hy,
    afterBit_collapse_lo _ (dataBit_lt_two _) _ (dataBit_lt_two _) _ hy,
    afterBit_collapse_lo _ (dataBit_lt_two _) _ (dataBit_lt_two _) _ hy,
    afterBit_collapse_lo _ (dataBit_lt_two _) _ (dataBit_lt_two _) _ hy,
    afterBit_collapse_lo _ (dataBit_lt_two _) _ (dataBit_lt_two _) _ hy,
    afterBit_collapse_lo _ (dataBit_lt_two _) _ (dataBit_lt_two _) _ hy,
    afterBit_collapse_lo _ (dataBit_lt_two _) _ (dataBit_lt_two _) _ hy]
  exact afterBit_again_lo _ (dataBit_lt_two _) _ hx

/-- Shifting the same byte into the low register a second time leaves the
hardware as the first transfer left it. -/
theorem setAddressRegister_lo_idem (v : Nat) (hv : v < 256) (s : Driver) :
    (setAddressRegister ADDR_CLK_LO v (setAddressRegister ADDR_CLK_LO v s)).bus
      = (setAddressRegister ADDR_CLK_LO v s).bus := by
  rw [setAddressRegister_lo_bus v (setAddressRegister ADDR_CLK_LO v s),
    setAddressRegister_lo_bus v s]
  simp only [portAfter_again_lo, afterLatch_idem, regAfter_eight v _ hv]

theorem setAddress_same (a : Nat) (s : Driver) (hu : s.lastUpper = upperByte a)
    (hh : s.lastHi = hiByte a) :
    setAddress a s = setAddressRegister ADDR_CLK_LO (loByte a) s := by
  unfold setAddress
  simp [hu, hh]

theorem setAddress_last (a : Nat) (s : Driver) :
    ∃ s2 : Driver, setAddress a s = setAddressRegister ADDR_CLK_LO (loByte a) s2 ∧
      (setAddress a s).lastUpper = upperByte a ∧ (setAddress a s).lastHi = hiByte a := by
  obtain ⟨s1, e1, hu1, _, _, _⟩ := setAddress_upper_step (upperByte a) s
  obtain ⟨s2, e2, hu2, hh2, _, _⟩ := setAddress_hi_step (hiByte a) (and_255_lt _) s1
  have hset : setAddress a s = setAddressRegister ADDR_CLK_LO (loByte a) s2 := by
    unfold setAddress
    simp only [e1, e2]
  have hfr := setAddressRegister_frame ADDR_CLK_LO (loByte a) s2
  refine ⟨s2, hset, ?_, ?_⟩
  · rw [hset, hfr.2, hu2, hu1]
  · rw [hset, hfr.1, hh2]

/-- Requesting the same address twice in a row: the second call leaves the
hardware and the static bytes as the first left them. -/
theorem setAddress_twice (a : Nat) (s : Driver) :
    (setAddress a (setAddress a s)).bus = (setAddress a s).bus ∧
    (setAddress a (setAddress a s)).lastHi = (setAddress a s).lastHi ∧
    (setAddress a (setAddress a s)).lastUpper = (setAddress a s).lastUpper := by
  obtain ⟨s2, hset, hu, hh⟩ := setAddress_last a s
  have hfr := setAddressRegister_frame ADDR_CLK_LO (loByte a) (setAddress a s)
  rw [setAddress_same a (setAddress a s) hu hh]
  refine ⟨?_, hfr.1, hfr.2⟩
  rw [hset]
  exact setAddressRegister_lo_idem (loByte a) (and_255_lt _) s2

end ShiftRegister

/-! ## Direct-pin realization -/

namespace DirectPin

theorem bit_cases (x m : Nat) : x &&& m ≠ 0 ∨ x &&& m = 0 := by
  by_cases h : x &&& m = 0
  · exact Or.inr h
  · exact Or.inl h

set_option maxRecDepth 100000 in
theorem upper_bits_value : ∀ u, u < 256 →
    (if u &&& 0x01 ≠ 0 then 1 else 0) + 2 * (if u &&& 0x02 ≠ 0 then 1 else 0)
      + 4 * (if u &&& 0x04 ≠ 0 then 1 else 0) = u &&& 7 := by
  decide

set_option maxRecDepth 100000 in
theorem high_pattern_value : ∀ h, h < 256 →
    pin (highPattern h % 256) 7 + 2 * pin (highPattern h % 256) 6
      + 4 * pin (highPattern h % 256) 5 + 8 * pin (highPattern h % 256) 4
      + 16 * pin (highPattern h % 256) 3 + 32 * pin (highPattern h % 256) 2
      + 64 * pin (highPattern h % 256) 1 + 128 * pin (highPattern h % 256) 0 = h := by
  decide

/-- The function `setUpperAddress` puts the low three bits of its argument on
`PD7`, `PG2`, `PG1`. -/
theorem direct_upper_extended (u : Nat) (hu : u < 256) (s : Driver) :
    (setUpperAddress u s).bus.extended = u &&& 7 := by
  rw [← upper_bits_value u hu]
  rcases bit_cases u 0x01 with h1 | h1 <;> rcases bit_cases u 0x02 with h2 | h2 <;>
    rcases bit_cases u 0x04 with h4 | h4 <;>
    simp only [setUpperAddress, h1, h2, h4, ne_eq, not_true_eq_false, not_false_eq_true,
      if_true, if_false] <;>
    simp [outPORTD, outPORTG, Bus.extended, pin, not8,
      ADDR_MASK_D, ADDR_MASK_G, ShiftRegister.testBit_mod256, Nat.testBit_or,
      Nat.testBit_and,
      (by decide : Nat.testBit 128 7 = true), (by decide : Nat.testBit 127 7 = false),
      (by decide : Nat.testBit 249 1 = false), (by decide : Nat.testBit 249 2 = false),
      (by decide : Nat.testBit 4 1 = false), (by decide : Nat.testBit 4 2 = true),
      (by decide : Nat.testBit 2 1 = true), (by decide : Nat.testBit 2 2 = false)]

theorem direct_upper_frame (u : Nat) (s : Driver) :
    (setUpperAddress u s).bus.PORTA = s.bus.PORTA ∧
    (setUpperAddress u s).bus.PORTC = s.bus.PORTC ∧
    (setUpperAddress u s).lastHi = s.lastHi ∧
    (setUpperAddress u s).lastUpper = s.lastUpper := by
  rcases bit_cases u 0x01 with h1 | h1 <;>
    simp only [setUpperAddress, h1, ne_eq, not_true_eq_false, not_false_eq_true,
      if_true, if_false] <;>
    simp [outPORTD, outPORTG]

theorem direct_high_value (h : Nat) (hh : h < 256) (s : Driver) :
    (setLowerAddress h true s).bus.high = h := by
  simp only [setLowerAddress, if_true, outPORTC, Bus.high]
  exact high_pattern_value h hh

theorem direct_high_frame (h : Nat) (s : Driver) :
    (setLowerAddress h true s).bus.PORTA = s.bus.PORTA ∧
    (setLowerAddress h true s).bus.extended = s.bus.extended ∧
    (setLowerAddress h true s).lastHi = s.lastHi ∧
    (setLowerAddress h true s).lastUpper = s.lastUpper := by
  simp [setLowerAddress, outPORTC, Bus.extended]

theorem direct_low_bus (v : Nat) (s : Driver) :
    (setLowerAddress v false s).bus = { s.bus with PORTA := v % 256 } ∧
    (setLowerAddress v false s).lastHi = s.lastHi ∧
    (setLowerAddress v false s).lastUpper = s.lastUpper := by
  simp [setLowerAddress, outPORTA]

theorem direct_upper_step (upper : Nat) (hup : upper < 256) (s : Driver) :
    ∃ s1 : Driver,
      (if upper ≠ s.lastUpper
        then { setUpperAddress upper s with lastUpper := upper } else s) = s1 ∧
      s1.lastUpper = upper ∧ s1.lastHi = s.lastHi ∧ s1.bus.high = s.bus.high ∧
      ((upper = s.lastUpper → s.bus.extended = s.lastUpper &&& 7) →
        s1.bus.extended = upper &&& 7) := by
  refine ⟨_, rfl, ?_, ?_, ?_, ?_⟩
  · by_cases h : upper = s.lastUpper
    · simp [h]
    · simp [h]
  · by_cases h : upper = s.lastUpper
    · simp [h]
    · simp [h, (direct_upper_frame upper s).2.2.1]
  · by_cases h : upper = s.lastUpper
    · simp [h]
    · simp [h, Bus.high, (direct_upper_frame upper s).2.1]
  · intro hc
    by_cases h : upper = s.lastUpper
    · simp only [h, ne_eq, not_true_eq_false, if_false]
      rw [hc h]
    · simp only [h, ne_eq, not_false_eq_true, if_true]
      exact direct_upper_extended upper hup s

theorem direct_hi_step (hi : Nat) (hhi : hi < 256) (s : Driver) :
    ∃ s2 : Driver,
      (if hi ≠ s.lastHi
        then { setLowerAddress hi true s with lastHi := hi } else s) = s2 ∧
      s2.lastUpper = s.lastUpper ∧ s2.lastHi = hi ∧ s2.bus.extended = s.bus.extended ∧
      ((hi = s.lastHi → s.bus.high = s.lastHi) → s2.bus.high = hi) := by
  refine ⟨_, rfl, ?_, ?_, ?_, ?_⟩
  · by_cases h : hi = s.lastHi
    · simp [h]
    · simp [h, (direct_high_frame hi s).2.2.2]
  · by_cases h : hi = s.lastHi
    · simp [h]
    · simp [h]
  · by_cases h : hi = s.lastHi
    · simp [h]
    · simp only [h, ne_eq, not_false_eq_true, if_true]
      exact (direct_high_frame hi s).2.1
  · intro hc
    by_cases h : hi = s.lastHi
    · simp only [h, ne_eq, not_true_eq_false, if_false]
      rw [hc h]
    · simp only [h, ne_eq, not_false_eq_true, if_true]
      exact direct_high_value hi hhi s

/-- A call `setAddress a` presents `a`, provided each static byte that equals
the plane requested agrees with what the pins carry for that plane. -/
theorem direct_setAddress_presents (a : Nat) (s : Driver)
    (hU : upperByte a = s.lastUpper → s.bus.extended = s.lastUpper &&& 7)
    (hH : hiByte a = s.lastHi → s.bus.high = s.lastHi) :
    Presents (setAddress a s) a := by
  obtain ⟨s1, e1, hu1, hh1, hr1, hx1⟩ :=
    direct_upper_step (upperByte a) (ShiftRegister.and_255_lt _) s
  obtain ⟨s2, e2, hu2, hh2, hx2, hr2⟩ :=
    direct_hi_step (hiByte a) (ShiftRegister.and_255_lt _) s1
  have hset : setAddress a s = setLowerAddress (loByte a) false s2 := by
    unfold setAddress
    simp only [e1, e2]
  have hreg : s2.bus.high = hiByte a := hr2 (by
    intro h
    rw [hh1] at h ⊢
    rw [hr1]
    exact hH h)
  have hext : s2.bus.extended = upperByte a &&& 7 := by
    rw [hx2]
    exact hx1 hU
  obtain ⟨hb, hfh, hfu⟩ := direct_low_bus (loByte a) s2
  have hlo : loByte a % 256 = loByte a := Nat.mod_eq_of_lt (ShiftRegister.and_255_lt _)
  rw [hset]
  refine ⟨?_, ?_, ?_, ?_, ?_, ?_, ?_⟩
  · rw [hb]
    exact hlo
  · rw [hb]
    exact hreg
  · rw [hb]
    exact hext.trans (ShiftRegister.shiftRight_and_255_and_7 a)
  · rw [hfh, hh2, hb]
    exact hreg.symm
  · rw [hfu, hu2, hu1]
    rfl
  · rw [hfu, hu2, hu1, hb]
    exact hext.symm
  · intro ha
    rw [hfu, hu2, hu1, hb]
    exact (ShiftRegister.upper_small a ha).trans
      ((ShiftRegister.shiftRight_and_255_and_7 a).symm.trans hext.symm)

theorem direct_begin_eq (s : Driver) :
    ∃ s0 : Driver, begin s = setAddress 0 s0 ∧ s0.lastHi = s.lastHi ∧
      s0.lastUpper = s.lastUpper :=
  ⟨_, rfl, rfl, rfl⟩

/-- After `begin` on a driver whose static bytes hold `0xca`, address 0 is
presented. -/
theorem direct_begin_presents (s : Driver) (h : PowerOn s) : Presents (begin s) 0 := by
  obtain ⟨s0, e, hh, hu⟩ := direct_begin_eq s
  rw [e]
  apply direct_setAddress_presents
  · intro hc
    rw [hu, h.2] at hc
    exact absurd hc (by decide)
  · intro hc
    rw [hh, h.1] at hc
    exact absurd hc (by decide)

theorem direct_setAddress_keeps (a b : Nat) (s : Driver) (h : Presents s a) :
    Presents (setAddress b s) b := by
  obtain ⟨_, _, _, h4, _, h6, _⟩ := h
  exact direct_setAddress_presents b s (fun _ => h6.symm) (fun _ => h4.symm)

theorem direct_run_presents (as : List Nat) :
    ∀ (a : Nat) (s : Driver), Presents s a → Presents (run as s) (as.getLast?.getD a) := by
  induction as with
  | nil =>
    intro a s h
    exact h
  | cons b bs ih =>
    intro a s h
    have := ih b (setAddress b s) (direct_setAddress_keeps a b s h)
    simp only [run, List.foldl_cons] at this ⊢
    rw [List.getLast?_cons]
    exact this

theorem direct_setAddress_same (a : Nat) (s : Driver) (hu : s.lastUpper = upperByte a)
    (hh : s.lastHi = hiByte a) :
    setAddress a s = setLowerAddress (loByte a) false s := by
  unfold setAddress
  simp [hu, hh]

/-- Requesting the same address twice in a row: the second call leaves the
pins and the static bytes as the first left them. -/
theorem direct_setAddress_twice (a : Nat) (s : Driver) :
    (setAddress a (setAddress a s)).bus = (setAddress a s).bus ∧
    (setAddress a (setAddress a s)).lastHi = (setAddress a s).lastHi ∧
    (setAddress a (setAddress a s)).lastUpper = (setAddress a s).lastUpper := by
  obtain ⟨s1, e1, hu1, _, _, _⟩ :=
    direct_upper_step (upperByte a) (ShiftRegister.and_255_lt _) s
  obtain ⟨s2, e2, hu2, hh2, _, _⟩ :=
    direct_hi_step (hiByte a) (ShiftRegister.and_255_lt _) s1
  have hset : setAddress a s = setLowerAddress (loByte a) false s2 := by
    unfold setAddress
    simp only [e1, e2]
  obtain ⟨hb, hfh, hfu⟩ := direct_low_bus (loByte a) s2
  have hu : (setAddress a s).lastUpper = upperByte a := by rw [hset, hfu, hu2, hu1]
  have hh : (setAddress a s).lastHi = hiByte a := by rw [hset, hfh, hh2]
  have hsame := direct_setAddress_same a (setAddress a s) hu hh
  obtain ⟨hb2, hfh2, hfu2⟩ := direct_low_bus (loByte a) (setAddress a s)
  rw [hsame]
  refine ⟨?_, hfh2, hfu2⟩
  rw [hb2, hset, hb]

end DirectPin

/-! ## The address driver: both realizations -/

/-- C9.  From the power-on state (both static bytes `0xca`, everything else
arbitrary), after `begin()` and any sequence of `setAddress` calls, both
realizations present the address requested last (address 0 when none was
requested after `begin`): low plane `a & 0xff`, high plane
`(a >> 8) & 0xff`, extended lines `(a >> 16) & 7`; `lastHi` equals the high
plane latched, `lastUpper` equals `(a >> 16) & 0xff`, the byte whose low
three bits are on the extended lines, and equals what those lines carry for
every address below `2 ^ 19`.  This covers the state right after `begin()`
(all address lines low) and a first request with `0xca` as high or upper
byte. -/
theorem address_follows_requests :
    (∀ (s : ShiftRegister.Driver) (as : List Nat), ShiftRegister.PowerOn s →
      ShiftRegister.Presents (ShiftRegister.run as (ShiftRegister.begin s))
        (as.getLast?.getD 0)) ∧
    (∀ (s : DirectPin.Driver) (as : List Nat), DirectPin.PowerOn s →
      DirectPin.Presents (DirectPin.run as (DirectPin.begin s)) (as.getLast?.getD 0)) :=
  ⟨fun s as h => ShiftRegister.run_presents as 0 _ (ShiftRegister.begin_presents s h),
   fun s as h => DirectPin.direct_run_presents as 0 _ (DirectPin.direct_begin_presents s h)⟩

/-- C9 on concrete runs from power-on: no request after `begin()`, and a first
request `0xCACA12`, whose high and upper bytes are both `0xca`. -/
theorem address_follows_requests_witness :
    (ShiftRegister.PowerOn ShiftRegister.bootState ∧
      ShiftRegister.Presents
        (ShiftRegister.run [] (ShiftRegister.begin ShiftRegister.bootState)) 0 ∧
      ShiftRegister.Presents
        (ShiftRegister.run [0xCACA12] (ShiftRegister.begin ShiftRegister.bootState))
        0xCACA12) ∧
    (DirectPin.PowerOn DirectPin.bootState ∧
      DirectPin.Presents (DirectPin.run [] (DirectPin.begin DirectPin.bootState)) 0 ∧
      DirectPin.Presents
        (DirectPin.run [0xCACA12] (DirectPin.begin DirectPin.bootState)) 0xCACA12) :=
  ⟨⟨⟨rfl, rfl⟩,
    address_follows_requests.1 ShiftRegister.bootState [] ⟨rfl, rfl⟩,
    address_follows_requests.1 ShiftRegister.bootState [0xCACA12] ⟨rfl, rfl⟩⟩,
   ⟨⟨rfl, rfl⟩,
    address_follows_requests.2 DirectPin.bootState [] ⟨rfl, rfl⟩,
    address_follows_requests.2 DirectPin.bootState [0xCACA12] ⟨rfl, rfl⟩⟩⟩

/-- C10.  For every address and every driver state, in both realizations, a
second `setAddress(a)` right after the first leaves the ports, the shift
registers with their output latches, and the static bytes exactly as the
first call left them. -/
theorem setAddress_idempotent :
    (∀ (a : Nat) (s : ShiftRegister.Driver),
      (ShiftRegister.setAddress a (ShiftRegister.setAddress a s)).bus
        = (ShiftRegister.setAddress a s).bus ∧
      (ShiftRegister.setAddress a (ShiftRegister.setAddress a s)).lastHi
        = (ShiftRegister.setAddress a s).lastHi ∧
      (ShiftRegister.setAddress a (ShiftRegister.setAddress a s)).lastUpper
        = (ShiftRegister.setAddress a s).lastUpper) ∧
    (∀ (a : Nat) (s : DirectPin.Driver),
      (DirectPin.setAddress a (DirectPin.setAddress a s)).bus
        = (DirectPin.setAddress a s).bus ∧
      (DirectPin.setAddress a (DirectPin.setAddress a s)).lastHi
        = (DirectPin.setAddress a s).lastHi ∧
      (DirectPin.setAddress a (DirectPin.setAddress a s)).lastUpper
        = (DirectPin.setAddress a s).lastUpper) :=
  ⟨ShiftRegister.setAddress_twice, DirectPin.direct_setAddress_twice⟩

/-! ## The data bus -/

theorem ite_or_testBit (c : Prop) [Decidable c] (x m k : Nat) :
    (if c then x ||| m else x).testBit k = (x.testBit k || (decide c && m.testBit k)) := by
  split <;> simp [Nat.testBit_or, *]

theorem testBit_of_lt_256 (x k : Nat) (hx : x < 256) (hk : 8 ≤ k) : x.testBit k = false :=
  Nat.testBit_lt_two_pow (lt_of_lt_of_le (show x < 2 ^ 8 from hx)
    (Nat.pow_le_pow_right (by norm_num) hk))

theorem and_bit_ne_zero (x j : Nat) : x &&& 2 ^ j ≠ 0 ↔ x.testBit j = true := by
  rw [Nat.and_two_pow]
  have h2 : 2 ^ j ≠ 0 := Nat.pos_iff_ne_zero.1 (Nat.pow_pos (by norm_num))
  cases x.testBit j <;> simp [h2]

namespace ShiftRegister

theorem writeDataBus_ports (v : Nat) (s : Driver) :
    (writeDataBus v s).bus.PORTB = ((s.bus.PORTB &&& 0xfc) ||| (v >>> 6)) % 256 ∧
    (writeDataBus v s).bus.PORTD = ((s.bus.PORTD &&& 0x03) ||| (v <<< 2)) % 256 := by
  simp [writeDataBus, outPORTB, outPORTD, Bus.writePORTB]

/-- What `writeDataBus` drives on the data pins: bits 6 and 7 of the byte on
`PB0`, `PB1`, bits 0 to 5 on `PD2 .. PD7`. -/
theorem writeDataBus_pins (v : Nat) (s : Driver) :
    (∀ k, dataPinB k → (writeDataBus v s).bus.PORTB.testBit k = v.testBit (k + 6)) ∧
    (∀ k, dataPinD k → (writeDataBus v s).bus.PORTD.testBit k = v.testBit (k - 2)) := by
  obtain ⟨hB, hD⟩ := writeDataBus_ports v s
  constructor
  · intro k hk
    have hk2 : k < 2 := hk
    rw [hB]
    interval_cases k <;>
      simp +decide [testBit_mod256, Nat.testBit_or, Nat.testBit_and, Nat.testBit_shiftRight]
  · intro k hk
    obtain ⟨h2, h8⟩ : 2 ≤ k ∧ k < 8 := hk
    rw [hD]
    interval_cases k <;>
      simp +decide [testBit_mod256, Nat.testBit_or, Nat.testBit_and, Nat.testBit_shiftLeft]

/-- The value `readDataBus` returns is made of the data-pin bits of the input
registers: bit `k` is `PIND` bit `k + 2` for `k < 6` and `PINB` bit `k - 6`
for `k = 6, 7`. -/
theorem readDataBus_bits (i : Inputs) (hi : i.Bytes) (k : Nat) :
    (readDataBus i).testBit k =
      if k < 6 then i.PIND.testBit (k + 2)
      else if k < 8 then i.PINB.testBit (k - 6) else false := by
  obtain ⟨_, hD⟩ := hi
  have h8 := testBit_of_lt_256 i.PIND 8 hD (by norm_num)
  have h9 := testBit_of_lt_256 i.PIND 9 hD (by norm_num)
  rcases Nat.lt_or_ge k 8 with h | h
  · interval_cases k <;>
      simp +decide [readDataBus, testBit_mod256, Nat.testBit_or, Nat.testBit_shiftLeft,
        Nat.testBit_shiftRight, h8, h9]
  · simp [readDataBus, testBit_mod256, Nat.not_lt.2 h, Nat.not_lt.2 (show 6 ≤ k by omega)]

/-- The value `readDataBus` returns depends on the data pins only. -/
theorem readDataBus_congr (i j : Inputs) (hi : i.Bytes) (hj : j.Bytes)
    (h : SameDataPins i j) : readDataBus i = readDataBus j := by
  apply Nat.eq_of_testBit_eq
  intro k
  rw [readDataBus_bits i hi, readDataBus_bits j hj]
  by_cases h6 : k < 6
  · simp only [h6, if_true]
    exact h.2 (k + 2) ⟨by omega, by omega⟩
  · by_cases h8 : k < 8
    · simp only [h6, h8, if_true, if_false]
      exact h.1 (k - 6) (show k - 6 < 2 by omega)
    · simp only [h6, h8, if_false]

/-- Loop-back after `writeDataBus v`: `readDataBus` returns `v`. -/
theorem read_after_write (v : Nat) (hv : v < 256) (s : Driver) (i : Inputs) (hi : i.Bytes)
    (hl : LoopBack (writeDataBus v s).bus i) : readDataBus i = v := by
  obtain ⟨pB, pD⟩ := writeDataBus_pins v s
  apply Nat.eq_of_testBit_eq
  intro k
  rw [readDataBus_bits i hi]
  by_cases h6 : k < 6
  · simp only [h6, if_true]
    rw [hl.2 (k + 2) ⟨by omega, by omega⟩, pD (k + 2) ⟨by omega, by omega⟩]
    simp
  · by_cases h8 : k < 8
    · simp only [h6, h8, if_true, if_false]
      rw [hl.1 (k - 6) (show k - 6 < 2 by omega), pB (k - 6) (show k - 6 < 2 by omega)]
      congr 1
      omega
    · simp only [h6, h8, if_false]
      exact (testBit_of_lt_256 v k hv (by omega)).symm

end ShiftRegister

namespace DirectPin

theorem and_literals (v : Nat) :
    (v &&& 0x01 ≠ 0 ↔ v.testBit 0 = true) ∧ (v &&& 0x02 ≠ 0 ↔ v.testBit 1 = true) ∧
    (v &&& 0x04 ≠ 0 ↔ v.testBit 2 = true) ∧ (v &&& 0x08 ≠ 0 ↔ v.testBit 3 = true) ∧
    (v &&& 0x10 ≠ 0 ↔ v.testBit 4 = true) ∧ (v &&& 0x20 ≠ 0 ↔ v.testBit 5 = true) ∧
    (v &&& 0x40 ≠ 0 ↔ v.testBit 6 = true) ∧ (v &&& 0x80 ≠ 0 ↔ v.testBit 7 = true) :=
  ⟨and_bit_ne_zero v 0, and_bit_ne_zero v 1, and_bit_ne_zero v 2, and_bit_ne_zero v 3,
   and_bit_ne_zero v 4, and_bit_ne_zero v 5, and_bit_ne_zero v 6, and_bit_ne_zero v 7⟩

theorem direct_writeDataBus_E (v : Nat) (s : Driver) (k : Nat) :
    (writeDataBus v s).bus.PORTE.testBit k =
      (decide (k < 8) && ((s.bus.PORTE.testBit k && Nat.testBit 199 k)
        || (v.testBit 0 && Nat.testBit 16 k) || (v.testBit 1 && Nat.testBit 32 k)
        || (v.testBit 3 && Nat.testBit 8 k))) := by
  obtain ⟨h0, h1, _, h3, _, _, _, _⟩ := and_literals v
  simp only [writeDataBus, outPORTE, outPORTG, outPORTH, ShiftRegister.testBit_mod256,
    ite_or_testBit, Nat.testBit_and, h0, h1, h3, not8, Bool.decide_eq_true]

theorem direct_writeDataBus_G (v : Nat) (s : Driver) (k : Nat) :
    (writeDataBus v s).bus.PORTG.testBit k =
      (decide (k < 8) && ((s.bus.PORTG.testBit k && Nat.testBit 223 k)
        || (v.testBit 2 && Nat.testBit 32 k))) := by
  obtain ⟨_, _, h2, _, _, _, _, _⟩ := and_literals v
  simp only [writeDataBus, outPORTE, outPORTG, outPORTH, ShiftRegister.testBit_mod256,
    ite_or_testBit, Nat.testBit_and, h2, not8, Bool.decide_eq_true]

theorem direct_writeDataBus_H (v : Nat) (s : Driver) (k : Nat) :
    (writeDataBus v s).bus.PORTH.testBit k =
      (decide (k < 8) && ((s.bus.PORTH.testBit k && Nat.testBit 135 k)
        || (v.testBit 4 && Nat.testBit 8 k) || (v.testBit 5 && Nat.testBit 16 k)
        || (v.testBit 6 && Nat.testBit 32 k) || (v.testBit 7 && Nat.testBit 64 k))) := by
  obtain ⟨_, _, _, _, h4, h5, h6, h7⟩ := and_literals v
  simp only [writeDataBus, outPORTE, outPORTG, outPORTH, ShiftRegister.testBit_mod256,
    ite_or_testBit, Nat.testBit_and, h4, h5, h6, h7, not8, Bool.decide_eq_true]

theorem dataLine_high (E G H k : Nat) (hk : 8 ≤ k) : dataLine E G H k = false := by
  obtain ⟨n, rfl⟩ : ∃ n, k = n + 8 := ⟨k - 8, by omega⟩
  rfl

/-- What `writeDataBus` drives on the data lines: line `k` carries bit `k` of
the byte. -/
theorem direct_writeDataBus_lines (v : Nat) (s : Driver) (k : Nat) :
    dataLine (writeDataBus v s).bus.PORTE (writeDataBus v s).bus.PORTG
      (writeDataBus v s).bus.PORTH k = (decide (k < 8) && v.testBit k) := by
  rcases Nat.lt_or_ge k 8 with h | h
  · interval_cases k <;>
      simp only [dataLine, direct_writeDataBus_E, direct_writeDataBus_G,
        direct_writeDataBus_H,
        (by decide : Nat.testBit 199 3 = false), (by decide : Nat.testBit 199 4 = false),
        (by decide : Nat.testBit 199 5 = false), (by decide : Nat.testBit 199 6 = true),
        (by decide : Nat.testBit 223 3 = true), (by decide : Nat.testBit 223 4 = true),
        (by decide : Nat.testBit 223 5 = false), (by decide : Nat.testBit 223 6 = true),
        (by decide : Nat.testBit 135 3 = false), (by decide : Nat.testBit 135 4 = false),
        (by decide : Nat.testBit 135 5 = false), (by decide : Nat.testBit 135 6 = false),
        (by decide : Nat.testBit 8 3 = true), (by decide : Nat.testBit 8 4 = false),
        (by decide : Nat.testBit 8 5 = false), (by decide : Nat.testBit 8 6 = false),
        (by decide : Nat.testBit 16 3 = false), (by decide : Nat.testBit 16 4 = true),
        (by decide : Nat.testBit 16 5 = false), (by decide : Nat.testBit 16 6 = false),
        (by decide : Nat.testBit 32 3 = false), (by decide : Nat.testBit 32 4 = false),
        (by decide : Nat.testBit 32 5 = true), (by decide : Nat.testBit 32 6 = false),
        (by decide : Nat.testBit 64 3 = false), (by decide : Nat.testBit 64 4 = false),
        (by decide : Nat.testBit 64 5 = false), (by decide : Nat.testBit 64 6 = true),
        Bool.and_false, Bool.and_true, Bool.or_false, Bool.false_or, Bool.true_and,
        decide_True, Nat.reduceLT]
  · rw [dataLine_high _ _ _ _ h]
    simp [Nat.not_lt.2 h]

/-- The value `readDataBus` returns is made of the data lines: bit `k` is the
level of line `k`. -/
theorem direct_readDataBus_bits (i : Inputs) (k : Nat) :
    (readDataBus i).testBit k = dataLine i.PINE i.PING i.PINH k := by
  obtain ⟨_, _, _, e3, e4, e5, _, _⟩ := and_literals i.PINE
  obtain ⟨_, _, _, _, _, g5, _, _⟩ := and_literals i.PING
  obtain ⟨_, _, _, h3, h4, h5, h6, _⟩ := and_literals i.PINH
  have hread : (readDataBus i).testBit k =
      ((i.PINE.testBit 4 && Nat.testBit 1 k) || (i.PINE.testBit 5 && Nat.testBit 2 k)
        || (i.PING.testBit 5 && Nat.testBit 4 k) || (i.PINE.testBit 3 && Nat.testBit 8 k)
        || (i.PINH.testBit 3 && Nat.testBit 16 k) || (i.PINH.testBit 4 && Nat.testBit 32 k)
        || (i.PINH.testBit 5 && Nat.testBit 64 k)
        || (i.PINH.testBit 6 && Nat.testBit 128 k)) := by
    simp only [readDataBus, ite_or_testBit, e3, e4, e5, g5, h3, h4, h5, h6,
      Bool.decide_eq_true, Nat.zero_testBit, Bool.false_or]
  rw [hread]
  rcases Nat.lt_or_ge k 8 with h | h
  · interval_cases k <;>
      simp only [dataLine,
        (by decide : Nat.testBit 1 0 = true), (by decide : Nat.testBit 1 1 = false),
        (by decide : Nat.testBit 1 2 = false), (by decide : Nat.testBit 1 3 = false),
        (by decide : Nat.testBit 1 4 = false), (by decide : Nat.testBit 1 5 = false),
        (by decide : Nat.testBit 1 6 = false), (by decide : Nat.testBit 1 7 = false),
        (by decide : Nat.testBit 2 0 = false), (by decide : Nat.testBit 2 1 = true),
        (by decide : Nat.testBit 2 2 = false), (by decide : Nat.testBit 2 3 = false),
        (by decide : Nat.testBit 2 4 = false), (by decide : Nat.testBit 2 5 = false),
        (by decide : Nat.testBit 2 6 = false), (by decide : Nat.testBit 2 7 = false),
        (by decide : Nat.testBit 4 0 = false), (by decide : Nat.testBit 4 1 = false),
        (by decide : Nat.testBit 4 2 = true), (by decide : Nat.testBit 4 3 = false),
        (by decide : Nat.testBit 4 4 = false), (by decide : Nat.testBit 4 5 = false),
        (by decide : Nat.testBit 4 6 = false), (by decide : Nat.testBit 4 7 = false),
        (by decide : Nat.testBit 8 0 = false), (by decide : Nat.testBit 8 1 = false),
        (by decide : Nat.testBit 8 2 = false), (by decide : Nat.testBit 8 3 = true),
        (by decide : Nat.testBit 8 4 = false), (by decide : Nat.testBit 8 5 = false),
        (by decide : Nat.testBit 8 6 = false), (by decide : Nat.testBit 8 7 = false),
        (by decide : Nat.testBit 16 0 = false), (by decide : Nat.testBit 16 1 = false),
        (by decide : Nat.testBit 16 2 = false), (by decide : Nat.testBit 16 3 = false),
        (by decide : Nat.testBit 16 4 = true), (by decide : Nat.testBit 16 5 = false),
        (by decide : Nat.testBit 16 6 = false), (by decide : Nat.testBit 16 7 = false),
        (by decide : Nat.testBit 32 0 = false), (by decide : Nat.testBit 32 1 = false),
        (by decide : Nat.testBit 32 2 = false), (by decide : Nat.testBit 32 3 = false),
        (by decide : Nat.testBit 32 4 = false), (by decide : Nat.testBit 32 5 = true),
        (by decide : Nat.testBit 32 6 = false), (by decide : Nat.testBit 32 7 = false),
        (by decide : Nat.testBit 64 0 = false), (by decide : Nat.testBit 64 1 = false),
        (by decide : Nat.testBit 64 2 = false), (by decide : Nat.testBit 64 3 = false),
        (by decide : Nat.testBit 64 4 = false), (by decide : Nat.testBit 64 5 = false),
        (by decide : Nat.testBit 64 6 = true), (by decide : Nat.testBit 64 7 = false),
        (by decide : Nat.testBit 128 0 = false), (by decide : Nat.testBit 128 1 = false),
        (by decide : Nat.testBit 128 2 = false), (by decide : Nat.testBit 128 3 = false),
        (by decide : Nat.testBit 128 4 = false), (by decide : Nat.testBit 128 5 = false),
        (by decide : Nat.testBit 128 6 = false), (by decide : Nat.testBit 128 7 = true),
        Bool.and_false, Bool.and_true, Bool.or_false, Bool.false_or]
  · rw [dataLine_high _ _ _ _ h]
    simp [testBit_of_lt_256 1 k (by norm_num) h, testBit_of_lt_256 2 k (by norm_num) h,
      testBit_of_lt_256 4 k (by norm_num) h, testBit_of_lt_256 8 k (by norm_num) h,
      testBit_of_lt_256 16 k (by norm_num) h, testBit_of_lt_256 32 k (by norm_num) h,
      testBit_of_lt_256 64 k (by norm_num) h, testBit_of_lt_256 128 k (by norm_num) h]

theorem dataLine_congr (E G H E2 G2 H2 : Nat)
    (hE : ∀ k, dataPinE k → E.testBit k = E2.testBit k)
    (hG : ∀ k, dataPinG k → G.testBit k = G2.testBit k)
    (hH : ∀ k, dataPinH k → H.testBit k = H2.testBit k) (k : Nat) :
    dataLine E G H k = dataLine E2 G2 H2 k := by
  have e3 := hE 3 ⟨by norm_num, by norm_num⟩
  have e4 := hE 4 ⟨by norm_num, by norm_num⟩
  have e5 := hE 5 ⟨by norm_num, by norm_num⟩
  have g5 := hG 5 rfl
  have h3 := hH 3 ⟨by norm_num, by norm_num⟩
  have h4 := hH 4 ⟨by norm_num, by norm_num⟩
  have h5 := hH 5 ⟨by norm_num, by norm_num⟩
  have h6 := hH 6 ⟨by norm_num, by norm_num⟩
  rcases Nat.lt_or_ge k 8 with h | h
  · interval_cases k <;> simp [dataLine, e3, e4, e5, g5, h3, h4, h5, h6]
  · rw [dataLine_high _ _ _ _ h, dataLine_high _ _ _ _ h]

/-- The value `readDataBus` returns depends on the data pins only. -/
theorem direct_readDataBus_congr (i j : Inputs) (h : SameDataPins i j) :
    readDataBus i = readDataBus j := by
  apply Nat.eq_of_testBit_eq
  intro k
  rw [direct_readDataBus_bits, direct_readDataBus_bits]
  exact dataLine_congr _ _ _ _ _ _ h.1 h.2.1 h.2.2 k

/-- Loop-back after `writeDataBus v`: `readDataBus` returns `v`. -/
theorem direct_read_after_write (v : Nat) (hv : v < 256) (s : Driver) (i : Inputs)
    (hl : LoopBack (writeDataBus v s).bus i) : readDataBus i = v := by
  apply Nat.eq_of_testBit_eq
  intro k
  rw [direct_readDataBus_bits,
    dataLine_congr _ _ _ _ _ _ hl.1 hl.2.1 hl.2.2 k, direct_writeDataBus_lines]
  rcases Nat.lt_or_ge k 8 with h | h
  · simp [h]
  · simp [Nat.not_lt.2 h, testBit_of_lt_256 v k hv h]

end DirectPin

namespace ShiftRegister

theorem writeDataBus_bytes (v : Nat) (s : Driver) :
    Inputs.Bytes ⟨(writeDataBus v s).bus.PORTB, (writeDataBus v s).bus.PORTD⟩ := by
  obtain ⟨hB, hD⟩ := writeDataBus_ports v s
  exact ⟨by rw [hB]; exact Nat.mod_lt _ (by norm_num),
    by rw [hD]; exact Nat.mod_lt _ (by norm_num)⟩

theorem writeDataBus_injective (v w : Nat) (hv : v < 256) (hw : w < 256) (s t : Driver)
    (hB : ∀ k, dataPinB k →
      (writeDataBus v s).bus.PORTB.testBit k = (writeDataBus w t).bus.PORTB.testBit k)
    (hD : ∀ k, dataPinD k →
      (writeDataBus v s).bus.PORTD.testBit k = (writeDataBus w t).bus.PORTD.testBit k) :
    v = w := by
  have h1 := read_after_write v hv s
    ⟨(writeDataBus v s).bus.PORTB, (writeDataBus v s).bus.PORTD⟩ (writeDataBus_bytes v s)
    ⟨fun _ _ => rfl, fun _ _ => rfl⟩
  have h2 := read_after_write w hw t
    ⟨(writeDataBus v s).bus.PORTB, (writeDataBus v s).bus.PORTD⟩ (writeDataBus_bytes v s)
    ⟨hB, hD⟩
  exact h1.symm.trans h2

end ShiftRegister

namespace DirectPin

theorem direct_writeDataBus_injective (v w : Nat) (hv : v < 256) (hw : w < 256)
    (s t : Driver)
    (hE : ∀ k, dataPinE k →
      (writeDataBus v s).bus.PORTE.testBit k = (writeDataBus w t).bus.PORTE.testBit k)
    (hG : ∀ k, dataPinG k →
      (writeDataBus v s).bus.PORTG.testBit k = (writeDataBus w t).bus.PORTG.testBit k)
    (hH : ∀ k, dataPinH k →
      (writeDataBus v s).bus.PORTH.testBit k = (writeDataBus w t).bus.PORTH.testBit k) :
    v = w := by
  have h1 := direct_read_after_write v hv s
    ⟨(writeDataBus v s).bus.PORTE, (writeDataBus v s).bus.PORTG,
      (writeDataBus v s).bus.PORTH⟩ ⟨fun _ _ => rfl, fun _ _ => rfl, fun _ _ => rfl⟩
  have h2 := direct_read_after_write w hw t
    ⟨(writeDataBus v s).bus.PORTE, (writeDataBus v s).bus.PORTG,
      (writeDataBus v s).bus.PORTH⟩ ⟨hE, hG, hH⟩
  exact h1.symm.trans h2

end DirectPin

/-- C11.  For both pin layouts and every byte `v`: after `writeDataBus(v)`, when
the data-pin bits of the input registers carry what `writeDataBus` drove on
the data-pin bits of the port registers (external loop-back; the switch of
the bus to input changes direction and port registers, not the levels the
loop-back presents), `readDataBus()` returns `v`.  The map from the byte to
the eight data pins is one-to-one: two bytes that drive the same levels on
the data pins are equal. -/
theorem data_bus_round_trip :
    (∀ (v : Nat) (s : ShiftRegister.Driver) (i : ShiftRegister.Inputs), v < 256 →
      i.Bytes → ShiftRegister.LoopBack (ShiftRegister.writeDataBus v s).bus i →
      ShiftRegister.readDataBus i = v) ∧
    (∀ (v w : Nat) (s t : ShiftRegister.Driver), v < 256 → w < 256 →
      (∀ k, ShiftRegister.dataPinB k →
        (ShiftRegister.writeDataBus v s).bus.PORTB.testBit k
          = (ShiftRegister.writeDataBus w t).bus.PORTB.testBit k) →
      (∀ k, ShiftRegister.dataPinD k →
        (ShiftRegister.writeDataBus v s).bus.PORTD.testBit k
          = (ShiftRegister.writeDataBus w t).bus.PORTD.testBit k) → v = w) ∧
    (∀ (v : Nat) (s : DirectPin.Driver) (i : DirectPin.Inputs), v < 256 →
      DirectPin.LoopBack (DirectPin.writeDataBus v s).bus i →
      DirectPin.readDataBus i = v) ∧
    (∀ (v w : Nat) (s t : DirectPin.Driver), v < 256 → w < 256 →
      (∀ k, DirectPin.dataPinE k →
        (DirectPin.writeDataBus v s).bus.PORTE.testBit k
          = (DirectPin.writeDataBus w t).bus.PORTE.testBit k) →
      (∀ k, DirectPin.dataPinG k →
        (DirectPin.writeDataBus v s).bus.PORTG.testBit k
          = (DirectPin.writeDataBus w t).bus.PORTG.testBit k) →
      (∀ k, DirectPin.dataPinH k →
        (DirectPin.writeDataBus v s).bus.PORTH.testBit k
          = (DirectPin.writeDataBus w t).bus.PORTH.testBit k) → v = w) :=
  ⟨fun v s i hv hi hl => ShiftRegister.read_after_write v hv s i hi hl,
   fun v w s t hv hw hB hD => ShiftRegister.writeDataBus_injective v w hv hw s t hB hD,
   fun v s i hv hl => DirectPin.direct_read_after_write v hv s i hl,
   fun v w s t hv hw hE hG hH =>
    DirectPin.direct_writeDataBus_injective v w hv hw s t hE hG hH⟩

/-- C11 on a concrete byte: `0xA7` written from the power-on states and read
back through the loop-back, after the bus has been switched to input. -/
theorem data_bus_round_trip_witness :
    ((0xA7 : Nat) < 256 ∧
      ShiftRegister.Inputs.Bytes
        ⟨(ShiftRegister.writeDataBus 0xA7 ShiftRegister.bootState).bus.PORTB,
         (ShiftRegister.writeDataBus 0xA7 ShiftRegister.bootState).bus.PORTD⟩ ∧
      ShiftRegister.LoopBack (ShiftRegister.writeDataBus 0xA7 ShiftRegister.bootState).bus
        ⟨(ShiftRegister.writeDataBus 0xA7 ShiftRegister.bootState).bus.PORTB,
         (ShiftRegister.writeDataBus 0xA7 ShiftRegister.bootState).bus.PORTD⟩) ∧
    ShiftRegister.readDataBus
      ⟨(ShiftRegister.writeDataBus 0xA7 ShiftRegister.bootState).bus.PORTB,
       (ShiftRegister.writeDataBus 0xA7 ShiftRegister.bootState).bus.PORTD⟩ = 0xA7 ∧
    DirectPin.readDataBus
      ⟨(DirectPin.writeDataBus 0xA7 DirectPin.bootState).bus.PORTE,
       (DirectPin.writeDataBus 0xA7 DirectPin.bootState).bus.PORTG,
       (DirectPin.writeDataBus 0xA7 DirectPin.bootState).bus.PORTH⟩ = 0xA7 :=
  ⟨⟨by decide, ShiftRegister.writeDataBus_bytes _ _, ⟨fun _ _ => rfl, fun _ _ => rfl⟩⟩,
   data_bus_round_trip.1 0xA7 ShiftRegister.bootState _ (by decide)
    (ShiftRegister.writeDataBus_bytes _ _) ⟨fun _ _ => rfl, fun _ _ => rfl⟩,
   data_bus_round_trip.2.2.1 0xA7 DirectPin.bootState _ (by decide)
    ⟨fun _ _ => rfl, fun _ _ => rfl, fun _ _ => rfl⟩⟩

theorem setsBits_or (sel : Nat → Prop) (x m : Nat)
    (hm : ∀ k, m.testBit k = true ↔ sel k) (h8 : ∀ k, sel k → k < 8) :
    SetsBits sel true x ((x ||| m) % 256) := by
  constructor
  · intro k hk
    simp [ShiftRegister.testBit_mod256, Nat.testBit_or, h8 k hk, (hm k).2 hk]
  · intro k hk hn
    have : m.testBit k = false := by
      cases h : m.testBit k
      · rfl
      · exact absurd ((hm k).1 h) hn
    simp [ShiftRegister.testBit_mod256, Nat.testBit_or, hk, this]

theorem setsBits_and (sel : Nat → Prop) (x c : Nat)
    (hc : ∀ k, c.testBit k = true ↔ (k < 8 ∧ ¬ sel k)) :
    SetsBits sel false x ((x &&& c) % 256) := by
  constructor
  · intro k hk
    have : c.testBit k = false := by
      cases h : c.testBit k
      · rfl
      · exact absurd hk ((hc k).1 h).2
    simp [ShiftRegister.testBit_mod256, Nat.testBit_and, this]
  · intro k hk hn
    simp [ShiftRegister.testBit_mod256, Nat.testBit_and, hk, (hc k).2 ⟨hk, hn⟩]

theorem mask_bits (k : Nat) :
    (Nat.testBit 0x03 k = true ↔ k < 2) ∧
    (Nat.testBit 0xfc k = true ↔ (2 ≤ k ∧ k < 8)) ∧
    (Nat.testBit 0x38 k = true ↔ (3 ≤ k ∧ k ≤ 5)) ∧
    (Nat.testBit 0x20 k = true ↔ k = 5) ∧
    (Nat.testBit 0x78 k = true ↔ (3 ≤ k ∧ k ≤ 6)) ∧
    (Nat.testBit (not8 0x38) k = true ↔ (k < 8 ∧ ¬ (3 ≤ k ∧ k ≤ 5))) ∧
    (Nat.testBit (not8 0x20) k = true ↔ (k < 8 ∧ ¬ k = 5)) ∧
    (Nat.testBit (not8 0x78) k = true ↔ (k < 8 ∧ ¬ (3 ≤ k ∧ k ≤ 6))) := by
  rcases Nat.lt_or_ge k 8 with h | h
  · interval_cases k <;> decide
  · have h1 := testBit_of_lt_256 0x03 k (by norm_num) h
    have h2 := testBit_of_lt_256 0xfc k (by norm_num) h
    have h3 := testBit_of_lt_256 0x38 k (by norm_num) h
    have h4 := testBit_of_lt_256 0x20 k (by norm_num) h
    have h5 := testBit_of_lt_256 0x78 k (by norm_num) h
    have h6 := testBit_of_lt_256 (not8 0x38) k (by decide) h
    have h7 := testBit_of_lt_256 (not8 0x20) k (by decide) h
    have h8 := testBit_of_lt_256 (not8 0x78) k (by decide) h
    rw [h1, h2, h3, h4, h5, h6, h7, h8]
    refine ⟨?_, ?_, ?_, ?_, ?_, ?_, ?_, ?_⟩ <;> constructor <;> intro hh <;>
      first
      | exact absurd hh (by decide)
      | omega

namespace ShiftRegister

/-- Effect of `setDataBusMode(OUTPUT)` on the registers. -/
theorem setDataBusMode_output (s : Driver) :
    (setDataBusMode OUTPUT s).bus =
      { s.bus with DDRB := (s.bus.DDRB ||| 0x03) % 256, DDRD := (s.bus.DDRD ||| 0xfc) % 256 } ∧
    (setDataBusMode OUTPUT s).lastHi = s.lastHi ∧
    (setDataBusMode OUTPUT s).lastUpper = s.lastUpper ∧
    (setDataBusMode OUTPUT s).writes = s.writes := by
  simp [setDataBusMode, outDDRB, outDDRD]

/-- Effect of `setDataBusMode(mode)` for a mode other than `OUTPUT`. -/
theorem setDataBusMode_input (mode : Nat) (hm : mode ≠ OUTPUT) (s : Driver) :
    (setDataBusMode mode s).bus =
      { s.bus with
        DDRB := (s.bus.DDRB &&& 0xfc) % 256, DDRD := (s.bus.DDRD &&& 0x03) % 256,
        PORTB := (s.bus.PORTB ||| 0x03) % 256, PORTD := (s.bus.PORTD ||| 0xfc) % 256 } ∧
    (setDataBusMode mode s).lastHi = s.lastHi ∧
    (setDataBusMode mode s).lastUpper = s.lastUpper := by
  simp +decide [setDataBusMode, hm, outDDRB, outDDRD, outPORTB, outPORTD, Bus.writePORTB,
    rising, testBit_mod256, Nat.testBit_or]

end ShiftRegister

namespace DirectPin

/-- Effect of `setDataBusMode(OUTPUT)` on the registers. -/
theorem direct_setDataBusMode_output (s : Driver) :
    (setDataBusMode OUTPUT s).bus =
      { s.bus with DDRE := (s.bus.DDRE ||| 0x38) % 256, DDRG := (s.bus.DDRG ||| 0x20) % 256,
                   DDRH := (s.bus.DDRH ||| 0x78) % 256 } ∧
    (setDataBusMode OUTPUT s).lastHi = s.lastHi ∧
    (setDataBusMode OUTPUT s).lastUpper = s.lastUpper ∧
    (setDataBusMode OUTPUT s).writes = s.writes := by
  simp [setDataBusMode, outDDRE, outDDRG, outDDRH]

/-- Effect of `setDataBusMode(mode)` for a mode other than `OUTPUT`. -/
theorem direct_setDataBusMode_input (mode : Nat) (hm : mode ≠ OUTPUT) (s : Driver) :
    (setDataBusMode mode s).bus =
      { s.bus with
        DDRE := (s.bus.DDRE &&& not8 0x38) % 256, DDRG := (s.bus.DDRG &&& not8 0x20) % 256,
        DDRH := (s.bus.DDRH &&& not8 0x78) % 256,
        PORTE := (s.bus.PORTE ||| 0x38) % 256, PORTG := (s.bus.PORTG ||| 0x20) % 256,
        PORTH := (s.bus.PORTH ||| 0x78) % 256 } ∧
    (setDataBusMode mode s).lastHi = s.lastHi ∧
    (setDataBusMode mode s).lastUpper = s.lastUpper := by
  simp [setDataBusMode, hm, outDDRE, outDDRG, outDDRH, outPORTE, outPORTG, outPORTH]

end DirectPin

/-- C15.  In both pin layouts `setDataBusMode` reconfigures exactly the eight
data pins.  For `OUTPUT` every data-pin bit of the direction registers
becomes 1, the other direction bits keep their value and the port registers
are not written.  For any other mode every data-pin direction bit becomes 0
and every data-pin port bit becomes 1 (pull-ups), the other bits of the
direction and port registers keep their value.  No other register changes. -/
theorem setDataBusMode_data_pins :
    (∀ s : ShiftRegister.Driver,
      SetsBits ShiftRegister.dataPinB true s.bus.DDRB
        (ShiftRegister.setDataBusMode OUTPUT s).bus.DDRB ∧
      SetsBits ShiftRegister.dataPinD true s.bus.DDRD
        (ShiftRegister.setDataBusMode OUTPUT s).bus.DDRD ∧
      (ShiftRegister.setDataBusMode OUTPUT s).bus
        = { s.bus with DDRB := (ShiftRegister.setDataBusMode OUTPUT s).bus.DDRB,
                       DDRD := (ShiftRegister.setDataBusMode OUTPUT s).bus.DDRD }) ∧
    (∀ (mode : Nat) (s : ShiftRegister.Driver), mode ≠ OUTPUT →
      SetsBits ShiftRegister.dataPinB false s.bus.DDRB
        (ShiftRegister.setDataBusMode mode s).bus.DDRB ∧
      SetsBits ShiftRegister.dataPinD false s.bus.DDRD
        (ShiftRegister.setDataBusMode mode s).bus.DDRD ∧
      SetsBits ShiftRegister.dataPinB true s.bus.PORTB
        (ShiftRegister.setDataBusMode mode s).bus.PORTB ∧
      SetsBits ShiftRegister.dataPinD true s.bus.PORTD
        (ShiftRegister.setDataBusMode mode s).bus.PORTD ∧
      (ShiftRegister.setDataBusMode mode s).bus
        = { s.bus with DDRB := (ShiftRegister.setDataBusMode mode s).bus.DDRB,
                       DDRD := (ShiftRegister.setDataBusMode mode s).bus.DDRD,
                       PORTB := (ShiftRegister.setDataBusMode mode s).bus.PORTB,
                       PORTD := (ShiftRegister.setDataBusMode mode s).bus.PORTD }) ∧
    (∀ s : DirectPin.Driver,
      SetsBits DirectPin.dataPinE true s.bus.DDRE
        (DirectPin.setDataBusMode OUTPUT s).bus.DDRE ∧
      SetsBits DirectPin.dataPinG true s.bus.DDRG
        (DirectPin.setDataBusMode OUTPUT s).bus.DDRG ∧
      SetsBits DirectPin.dataPinH true s.bus.DDRH
        (DirectPin.setDataBusMode OUTPUT s).bus.DDRH ∧
      (DirectPin.setDataBusMode OUTPUT s).bus
        = { s.bus with DDRE := (DirectPin.setDataBusMode OUTPUT s).bus.DDRE,
                       DDRG := (DirectPin.setDataBusMode OUTPUT s).bus.DDRG,
                       DDRH := (DirectPin.setDataBusMode OUTPUT s).bus.DDRH }) ∧
    (∀ (mode : Nat) (s : DirectPin.Driver), mode ≠ OUTPUT →
      SetsBits DirectPin.dataPinE false s.bus.DDRE
        (DirectPin.setDataBusMode mode s).bus.DDRE ∧
      SetsBits DirectPin.dataPinG false s.bus.DDRG
        (DirectPin.setDataBusMode mode s).bus.DDRG ∧
      SetsBits DirectPin.dataPinH false s.bus.DDRH
        (DirectPin.setDataBusMode mode s).bus.DDRH ∧
      SetsBits DirectPin.dataPinE true s.bus.PORTE
        (DirectPin.setDataBusMode mode s).bus.PORTE ∧
      SetsBits DirectPin.dataPinG true s.bus.PORTG
        (DirectPin.setDataBusMode mode s).bus.PORTG ∧
      SetsBits DirectPin.dataPinH true s.bus.PORTH
        (DirectPin.setDataBusMode mode s).bus.PORTH ∧
      (DirectPin.setDataBusMode mode s).bus
        = { s.bus with DDRE := (DirectPin.setDataBusMode mode s).bus.DDRE,
                       DDRG := (DirectPin.setDataBusMode mode s).bus.DDRG,
                       DDRH := (DirectPin.setDataBusMode mode s).bus.DDRH,
                       PORTE := (DirectPin.setDataBusMode mode s).bus.PORTE,
                       PORTG := (DirectPin.setDataBusMode mode s).bus.PORTG,
                       PORTH := (DirectPin.setDataBusMode mode s).bus.PORTH }) := by
  have m3 : ∀ k, Nat.testBit 0x03 k = true ↔ ShiftRegister.dataPinB k :=
    fun k => (mask_bits k).1
  have mfc : ∀ k, Nat.testBit 0xfc k = true ↔ ShiftRegister.dataPinD k :=
    fun k => (mask_bits k).2.1
  have m38 : ∀ k, Nat.testBit 0x38 k = true ↔ DirectPin.dataPinE k :=
    fun k => (mask_bits k).2.2.1
  have m20 : ∀ k, Nat.testBit 0x20 k = true ↔ DirectPin.dataPinG k :=
    fun k => (mask_bits k).2.2.2.1
  have m78 : ∀ k, Nat.testBit 0x78 k = true ↔ DirectPin.dataPinH k :=
    fun k => (mask_bits k).2.2.2.2.1
  have c3 : ∀ k, Nat.testBit 0x03 k = true ↔ (k < 8 ∧ ¬ ShiftRegister.dataPinD k) := by
    intro k
    rw [(mask_bits k).1]
    unfold ShiftRegister.dataPinD
    omega
  have cfc : ∀ k, Nat.testBit 0xfc k = true ↔ (k < 8 ∧ ¬ ShiftRegister.dataPinB k) := by
    intro k
    rw [(mask_bits k).2.1]
    unfold ShiftRegister.dataPinB
    omega
  have c38 : ∀ k, Nat.testBit (not8 0x38) k = true ↔ (k < 8 ∧ ¬ DirectPin.dataPinE k) :=
    fun k => (mask_bits k).2.2.2.2.2.1
  have c20 : ∀ k, Nat.testBit (not8 0x20) k = true ↔ (k < 8 ∧ ¬ DirectPin.dataPinG k) :=
    fun k => (mask_bits k).2.2.2.2.2.2.1
  have c78 : ∀ k, Nat.testBit (not8 0x78) k = true ↔ (k < 8 ∧ ¬ DirectPin.dataPinH k) :=
    fun k => (mask_bits k).2.2.2.2.2.2.2
  have b2 : ∀ k, ShiftRegister.dataPinB k → k < 8 := fun k h => lt_trans h (by norm_num)
  have d8 : ∀ k, ShiftRegister.dataPinD k → k < 8 := fun k h => h.2
  have e8 : ∀ k, DirectPin.dataPinE k → k < 8 := fun k h => lt_of_le_of_lt h.2 (by norm_num)
  have g8 : ∀ k, DirectPin.dataPinG k → k < 8 := fun k h => by
    rw [show k = 5 from h]
    norm_num
  have h8 : ∀ k, DirectPin.dataPinH k → k < 8 := fun k h => lt_of_le_of_lt h.2 (by norm_num)
  refine ⟨?_, ?_, ?_, ?_⟩
  · intro s
    obtain ⟨hb, _, _, _⟩ := ShiftRegister.setDataBusMode_output s
    rw [hb]
    exact ⟨setsBits_or _ _ _ m3 b2, setsBits_or _ _ _ mfc d8, rfl⟩
  · intro mode s hm
    obtain ⟨hb, _, _⟩ := ShiftRegister.setDataBusMode_input mode hm s
    rw [hb]
    exact ⟨setsBits_and _ _ _ cfc, setsBits_and _ _ _ c3, setsBits_or _ _ _ m3 b2,
      setsBits_or _ _ _ mfc d8, rfl⟩
  · intro s
    obtain ⟨hb, _, _, _⟩ := DirectPin.direct_setDataBusMode_output s
    rw [hb]
    exact ⟨setsBits_or _ _ _ m38 e8, setsBits_or _ _ _ m20 g8, setsBits_or _ _ _ m78 h8, rfl⟩
  · intro mode s hm
    obtain ⟨hb, _, _⟩ := DirectPin.direct_setDataBusMode_input mode hm s
    rw [hb]
    exact ⟨setsBits_and _ _ _ c38, setsBits_and _ _ _ c20, setsBits_and _ _ _ c78,
      setsBits_or _ _ _ m38 e8, setsBits_or _ _ _ m20 g8, setsBits_or _ _ _ m78 h8, rfl⟩

/-- C15 on concrete states: the bus switched to input (mode `INPUT`) from the
power-on states. -/
theorem setDataBusMode_data_pins_witness :
    INPUT ≠ OUTPUT ∧
    SetsBits ShiftRegister.dataPinB false ShiftRegister.bootState.bus.DDRB
      (ShiftRegister.setDataBusMode INPUT ShiftRegister.bootState).bus.DDRB ∧
    SetsBits ShiftRegister.dataPinD true ShiftRegister.bootState.bus.PORTD
      (ShiftRegister.setDataBusMode INPUT ShiftRegister.bootState).bus.PORTD ∧
    SetsBits DirectPin.dataPinH true DirectPin.bootState.bus.PORTH
      (DirectPin.setDataBusMode INPUT DirectPin.bootState).bus.PORTH :=
  ⟨by decide,
   (setDataBusMode_data_pins.2.1 INPUT ShiftRegister.bootState (by decide)).1,
   (setDataBusMode_data_pins.2.1 INPUT ShiftRegister.bootState (by decide)).2.2.2.1,
   (setDataBusMode_data_pins.2.2.2 INPUT DirectPin.bootState (by decide)).2.2.2.2.2.1⟩

/-! ## `writeData`: empty requests, bounds, block alignment -/

theorem leadChunk_zero (bs address : Nat) : leadChunk bs 0 address = 0 :=
  Nat.le_zero.1 (leadChunk_le_len bs 0 address)

/-- C19, concrete request: block size 64, no bytes, address 10, on a device
that fails on its first call.  One burnBlock call of length 0 is made and
`writeData` returns false. -/
theorem writeData_empty_unaligned_fails :
    (writeData (failOnCall 1) 64 (fun _ => 0) 0 10 0).trace
      = [⟨.leadIn, .burnBlock 0 0 10, false⟩] ∧
    (writeData (failOnCall 1) 64 (fun _ => 0) 0 10 0).status = false := by
  constructor <;>
    simp [writeData, blockLoop_step, blockLoop_done, leadChunk, loopChunk, sub32, add32,
      failOnCall, (by decide : 10 &&& 63 = 10)]

/-- A request of no bytes: no call, or the lead-in call alone with length 0. -/
theorem writeData_len_zero (d : Device σ) (bs : Nat) (data : Nat → Nat) (address : Nat) (s : σ) :
    ((bs = 0 ∨ address &&& (bs - 1) = 0) →
      (writeData d bs data 0 address s).status = true ∧
      (writeData d bs data 0 address s).trace = [] ∧
      (writeData d bs data 0 address s).dev = s) ∧
    ((bs ≠ 0 ∧ address &&& (bs - 1) ≠ 0) →
      (writeData d bs data 0 address s).trace
        = [⟨.leadIn, .burnBlock 0 0 address, (d.burnBlock data 0 address s).1⟩] ∧
      (writeData d bs data 0 address s).status = (d.burnBlock data 0 address s).1 ∧
      (writeData d bs data 0 address s).dev = (d.burnBlock data 0 address s).2) := by
  constructor
  · intro h
    by_cases hbs : bs = 0
    · subst hbs
      rw [writeData_zero, byteLoop_done _ _ _ _ _ _ (by omega)]
      exact ⟨rfl, rfl, rfl⟩
    · have ha : address &&& (bs - 1) = 0 := h.resolve_left hbs
      rw [writeData_aligned d bs data 0 address s hbs ha,
        blockLoop_done _ _ _ _ _ _ _ _ (by omega)]
      exact ⟨rfl, rfl, rfl⟩
  · rintro ⟨hbs, ha⟩
    have hz := leadChunk_zero bs address
    by_cases hr : (d.burnBlock data (leadChunk bs 0 address) address s).1 = false
    · rw [writeData_lead_fail d bs data 0 address s hbs ha hr]
      rw [hz] at hr ⊢
      simp [leadEvent, hz, hr]
    · have hr1 : (d.burnBlock data (leadChunk bs 0 address) address s).1 = true := by
        simpa using hr
      rw [writeData_lead_ok d bs data 0 address s hbs ha hr1]
      have hsub : sub32 0 (leadChunk bs 0 address) = 0 := by
        rw [hz]
        rfl
      rw [hsub, blockLoop_done _ _ _ _ _ _ _ _ (by omega)]
      rw [hz] at hr1 ⊢
      simp [leadEvent, hz, hr1]

/-- C19 (as amended).  For length 0: when the block size is 0 or
`address & (blockSize - 1)` is 0, `writeData` invokes no primitive and
returns true; when the block size is not 0 and `address & (blockSize - 1)` is
not 0 it invokes burnBlock exactly once, with length 0 at `address`, invokes
nothing else, and returns the result of that call. -/
theorem writeData_empty (d : Device σ) (bs : Nat) (data : Nat → Nat) (address : Nat) (s : σ) :
    ((bs = 0 ∨ address &&& (bs - 1) = 0) →
      (writeData d bs data 0 address s).status = true ∧
      (writeData d bs data 0 address s).trace = [] ∧
      (writeData d bs data 0 address s).dev = s) ∧
    ((bs ≠ 0 ∧ address &&& (bs - 1) ≠ 0) →
      (writeData d bs data 0 address s).trace
        = [⟨.leadIn, .burnBlock 0 0 address, (d.burnBlock data 0 address s).1⟩] ∧
      (writeData d bs data 0 address s).status = (d.burnBlock data 0 address s).1 ∧
      (writeData d bs data 0 address s).dev = (d.burnBlock data 0 address s).2) :=
  writeData_len_zero d bs data address s

/-- C19 (as amended) on concrete requests: block size 64, no bytes, address 10
(one call of length 0) and address 64 (no call). -/
theorem writeData_empty_witness :
    (((64 : Nat) = 0 ∨ 64 &&& (64 - 1) = 0) ∧ ((64 : Nat) ≠ 0 ∧ 10 &&& (64 - 1) ≠ 0)) ∧
    (writeData okDevice 64 (fun i => i) 0 64 ()).trace = [] ∧
    (writeData okDevice 64 (fun i => i) 0 10 ()).trace
      = [⟨.leadIn, .burnBlock 0 0 10, true⟩] :=
  ⟨⟨Or.inr (by decide), by decide, by decide⟩,
   ((writeData_empty okDevice 64 (fun i => i) 64 ()).1 (Or.inr (by decide))).2.1,
   ((writeData_empty okDevice 64 (fun i => i) 10 ()).2 ⟨by decide, by decide⟩).1⟩

/-- The chunk lengths of the block loop never add up to more than the length
the loop was entered with. -/
theorem blockLoop_sum_le (d : Device σ) (data : Nat → Nat) (bs : Nat) (hbs : 0 < bs)
    (address len off : Nat) (s : σ) (hlen : len < 2 ^ 32) :
    (sizes (blockLoop d data bs hbs address len off s).trace).sum ≤ len := by
  revert hlen
  refine blockLoop_induction d data bs hbs address
    (fun len _ _ out => len < 2 ^ 32 → (sizes out.trace).sum ≤ len) ?_ ?_ ?_ len off s
  · intro off s _
    exact Nat.le_refl 0
  · intro len off s _ _ _
    simp only [sizes, List.map_cons, List.map_nil, List.sum_cons, List.sum_nil, blockEvent,
      Call.size, Nat.add_zero]
    exact loopChunk_le_len bs len
  · intro len off s _ _ ih hlen
    have hc := loopChunk_le_len bs len
    have e1 : sub32 len (loopChunk bs len) = len - loopChunk bs len := sub32_chunk hlen hc
    have := le_trans (ih (by rw [e1]; omega)) (le_of_eq e1)
    simp only [sizes, List.map_cons, List.sum_cons, blockEvent, Call.size] at this ⊢
    omega

theorem length_le_sum_sizes (t : List Event) (h : ∀ e ∈ t, 1 ≤ e.call.size) :
    t.length ≤ (sizes t).sum := by
  induction t with
  | nil => exact Nat.le_refl 0
  | cons e es ih =>
    have h1 := h e (List.mem_cons_self _ _)
    have h2 := ih (fun e' he' => h e' (List.mem_cons_of_mem _ he'))
    simp only [sizes, List.map_cons, List.sum_cons, List.length_cons] at h2 ⊢
    omega

theorem byteLoop_length_le (d : Device σ) (data : Nat → Nat) (len address ix : Nat) (s : σ) :
    (byteLoop d data len address ix s).trace.length ≤ len - ix ∧
    ∀ e ∈ (byteLoop d data len address ix s).trace, e.call.isBlock = false := by
  refine byteLoop_induction d data len address
    (fun ix _ out => out.trace.length ≤ len - ix ∧ ∀ e ∈ out.trace, e.call.isBlock = false)
    ?_ ?_ ?_ ix s
  · intro ix s _
    exact ⟨Nat.zero_le _, fun e he => by simp at he⟩
  · intro ix s hlt _
    refine ⟨by simp only [List.length_singleton]; omega, ?_⟩
    intro e he
    simp only [List.mem_singleton] at he
    subst he
    rfl
  · intro ix s hlt _ ih
    refine ⟨by simp only [List.length_cons]; omega, ?_⟩
    intro e he
    simp only [List.mem_cons] at he
    rcases he with rfl | he
    · rfl
    · exact ih.2 e he

/-- In block mode the chunk lengths never add up to more than `len`, and at most
`max len 1` calls are made. -/
theorem writeData_block_bounds (d : Device σ) (bs : Nat) (data : Nat → Nat)
    (len address : Nat) (s : σ) (hbs : bs ≠ 0) (hbs32 : bs < 2 ^ 32) (hlen : len < 2 ^ 32) :
    (sizes (writeData d bs data len address s).trace).sum ≤ len ∧
    (writeData d bs data len address s).trace.length ≤ max len 1 := by
  have hsum : (sizes (writeData d bs data len address s).trace).sum ≤ len := by
    by_cases ha : address &&& (bs - 1) = 0
    · rw [writeData_aligned d bs data len address s hbs ha]
      exact blockLoop_sum_le d data bs _ address len 0 s hlen
    · have hc := leadChunk_le_len bs len address
      by_cases hr : (d.burnBlock data (leadChunk bs len address) address s).1 = false
      · rw [writeData_lead_fail d bs data len address s hbs ha hr]
        simpa [sizes, leadEvent, Call.size] using hc
      · have hr1 : (d.burnBlock data (leadChunk bs len address) address s).1 = true := by
          simpa using hr
        rw [writeData_lead_ok d bs data len address s hbs ha hr1]
        have e1 : sub32 len (leadChunk bs len address) = len - leadChunk bs len address :=
          sub32_chunk hlen hc
        have := le_trans (blockLoop_sum_le d data bs (Nat.pos_of_ne_zero hbs) address
          (sub32 len (leadChunk bs len address)) (add32 0 (leadChunk bs len address))
          (d.burnBlock data (leadChunk bs len address) address s).2 (by rw [e1]; omega))
          (le_of_eq e1)
        simp only [sizes, List.map_cons, List.sum_cons, leadEvent, Call.size] at this ⊢
        omega
  refine ⟨hsum, ?_⟩
  rcases Nat.eq_zero_or_pos len with h0 | hpos
  · subst h0
    by_cases ha : address &&& (bs - 1) = 0
    · rw [((writeData_len_zero d bs data address s).1 (Or.inr ha)).2.1]
      simp
    · rw [((writeData_len_zero d bs data address s).2 ⟨hbs, ha⟩).1]
      simp
  · have := length_le_sum_sizes _
      (fun e he => (writeData_sizes_pos d bs data len address s hbs hbs32 hpos e he).1)
    exact le_trans (le_trans this hsum) (le_max_left _ _)

/-- C20.  The function `writeData` is total: it returns for every block size,
every 32-bit length and start address and every device.  In block mode every
chunk is at most the remaining length, so `len -= chunkSize` never wraps;
every chunk of the block loop has at least one byte, so the remaining length
strictly decreases; the chunk lengths passed never add up to more than `len`;
at most `max(len, 1)` burnBlock calls and at most `len` burnByte calls are
made. -/
theorem writeData_terminates :
    (∀ bs len address : Nat, len < 2 ^ 32 →
      leadChunk bs len address ≤ len ∧
      sub32 len (leadChunk bs len address) = len - leadChunk bs len address) ∧
    (∀ bs len : Nat, len < 2 ^ 32 → 0 < bs → 0 < len →
      1 ≤ loopChunk bs len ∧ loopChunk bs len ≤ len ∧
      sub32 len (loopChunk bs len) = len - loopChunk bs len ∧
      sub32 len (loopChunk bs len) < len) ∧
    (∀ (τ : Type) (d : Device τ) (bs : Nat) (data : Nat → Nat) (len address : Nat) (s : τ),
      bs < 2 ^ 32 → len < 2 ^ 32 → address < 2 ^ 32 →
      (∃ out, writeData d bs data len address s = out) ∧
      (∀ j, (bs ≠ 0 → ((sizes (writeData d bs data len address s).trace).take j).sum ≤ len)) ∧
      ((writeData d bs data len address s).trace.filter (fun e => e.call.isBlock)).length
        ≤ max len 1 ∧
      ((writeData d bs data len address s).trace.filter (fun e => !e.call.isBlock)).length
        ≤ len) := by
  refine ⟨?_, ?_, ?_⟩
  · intro bs len address hlen
    exact ⟨leadChunk_le_len bs len address, sub32_chunk hlen (leadChunk_le_len bs len address)⟩
  · intro bs len hlen hbs hpos
    have hc := loopChunk_le_len bs len
    have h1 := loopChunk_pos hbs hpos
    have e1 := sub32_chunk hlen hc
    exact ⟨h1, hc, e1, by rw [e1]; omega⟩
  · intro τ d bs data len address s hbs32 hlen haddr
    refine ⟨⟨_, rfl⟩, ?_, ?_, ?_⟩
    · intro j hbs
      have h := (writeData_block_bounds d bs data len address s hbs hbs32 hlen).1
      exact le_trans ((List.take_sublist j _).sum_le_sum (fun _ _ => Nat.zero_le _)) h
    · by_cases hbs : bs = 0
      · subst hbs
        rw [writeData_zero]
        have h := (byteLoop_length_le d data len address 0 s).2
        rw [List.filter_eq_nil_iff.2 (fun e he => by simp [h e he])]
        exact Nat.zero_le _
      · exact le_trans (List.length_filter_le _ _)
          (writeData_block_bounds d bs data len address s hbs hbs32 hlen).2
    · by_cases hbs : bs = 0
      · subst hbs
        rw [writeData_zero]
        have h := (byteLoop_length_le d data len address 0 s).1
        exact le_trans (List.length_filter_le _ _) (by omega)
      · have hc := contiguous_isBlock address _ 0 (writeData_contiguous d bs data len address s hbs hlen haddr)
        rw [List.filter_eq_nil_iff.2 (fun e he => by simp [hc e he])]
        exact Nat.zero_le _

theorem writeData_terminates_witness :
    (leadChunk 64 100 10 ≤ 100 ∧
      sub32 100 (leadChunk 64 100 10) = 100 - leadChunk 64 100 10) ∧
    (1 ≤ loopChunk 64 100 ∧ loopChunk 64 100 ≤ 100 ∧
      sub32 100 (loopChunk 64 100) = 100 - loopChunk 64 100 ∧
      sub32 100 (loopChunk 64 100) < 100) ∧
    ((∃ out, writeData (failOnCall 1) 64 (fun i => i) 100 10 0 = out) ∧
      (∀ j, ((64 : Nat) ≠ 0 →
        ((sizes (writeData (failOnCall 1) 64 (fun i => i) 100 10 0).trace).take j).sum ≤ 100)) ∧
      ((writeData (failOnCall 1) 64 (fun i => i) 100 10 0).trace.filter
        (fun e => e.call.isBlock)).length ≤ max 100 1 ∧
      ((writeData (failOnCall 1) 64 (fun i => i) 100 10 0).trace.filter
        (fun e => !e.call.isBlock)).length ≤ 100) :=
  ⟨writeData_terminates.1 64 100 10 (by norm_num),
   writeData_terminates.2.1 64 100 (by norm_num) (by norm_num) (by norm_num),
   writeData_terminates.2.2 Nat (failOnCall 1) 64 (fun i => i) 100 10 0
     (by norm_num) (by norm_num) (by norm_num)⟩

/-! ## `writeData`: every chunk stays inside one block -/

theorem add32_mod {bs : Nat} (hdvd : bs ∣ 2 ^ 32) (a b : Nat) :
    add32 a b % bs = (a + b) % bs := by
  unfold add32
  exact Nat.mod_mod_of_dvd _ hdvd

/-- A chunk of `n ≥ 1` bytes that fits between `a` and the end of the block of
`a` ends in the block it starts in. -/
theorem same_block {bs a n : Nat} (hbs : 0 < bs) (hn : 1 ≤ n) (h : a % bs + n ≤ bs) :
    a / bs = (a + n - 1) / bs := by
  have e : a + n - 1 = (a % bs + n - 1) + bs * (a / bs) := by
    have := Nat.div_add_mod a bs
    omega
  calc a / bs = (a % bs + n - 1) / bs + a / bs := by
        rw [Nat.div_eq_of_lt (show a % bs + n - 1 < bs by omega), Nat.zero_add]
    _ = ((a % bs + n - 1) + bs * (a / bs)) / bs := (Nat.add_mul_div_left _ _ hbs).symm
    _ = (a + n - 1) / bs := by rw [e]

theorem blockLoop_isBlock (d : Device σ) (data : Nat → Nat) (bs : Nat) (hbs : 0 < bs)
    (address len off : Nat) (s : σ) :
    ∀ e ∈ (blockLoop d data bs hbs address len off s).trace, e.call.isBlock = true := by
  refine blockLoop_induction d data bs hbs address
    (fun _ _ _ out => ∀ e ∈ out.trace, e.call.isBlock = true) ?_ ?_ ?_ len off s
  · intro off s e he
    simp at he
  · intro len off s _ _ e he
    simp only [List.mem_singleton] at he
    subst he
    rfl
  · intro len off s _ _ ih e he
    simp only [List.mem_cons] at he
    rcases he with rfl | he
    · rfl
    · exact ih e he

/-- Entered at a block boundary, the block loop makes every call at a block
boundary. -/
theorem blockLoop_aligned (d : Device σ) (data : Nat → Nat) (bs : Nat) (hbs : 0 < bs)
    (address len off : Nat) (s : σ) (hdvd : bs ∣ 2 ^ 32) (hlen : len < 2 ^ 32)
    (h : add32 address off % bs = 0 ∨ len = 0) :
    ∀ e ∈ (blockLoop d data bs hbs address len off s).trace, e.call.addr % bs = 0 := by
  revert hlen h
  refine blockLoop_induction d data bs hbs address
    (fun len off _ out => len < 2 ^ 32 → (add32 address off % bs = 0 ∨ len = 0) →
      ∀ e ∈ out.trace, e.call.addr % bs = 0) ?_ ?_ ?_ len off s
  · intro off s _ _ e he
    simp at he
  · intro len off s hpos _ _ h e he
    simp only [List.mem_singleton] at he
    subst he
    rcases h with h | h
    · exact h
    · omega
  · intro len off s hpos _ ih hlen h e he
    have h0 : add32 address off % bs = 0 := by
      rcases h with h | h
      · exact h
      · omega
    simp only [List.mem_cons] at he
    rcases he with rfl | he
    · exact h0
    · have hc := loopChunk_le_len bs len
      have e1 : sub32 len (loopChunk bs len) = len - loopChunk bs len := sub32_chunk hlen hc
      refine ih (by rw [e1]; omega) ?_ e he
      by_cases hgt : len > bs
      · left
        have hcb : loopChunk bs len = bs := by simp [loopChunk, hgt]
        rw [hcb, add32_mod hdvd, Nat.add_mod, add32_mod hdvd, Nat.add_mod_right,
          ← Nat.add_mod, ← add32_mod hdvd]
        exact h0
      · right
        have hcb : loopChunk bs len = len := by simp [loopChunk, hgt]
        rw [e1, hcb]
        omega

/-- C16.  Block size a power of two, `len > 0`: every chunk `writeData` passes
to burnBlock has between 1 and `bs` bytes and ends in the `bs`-aligned block
it starts in (`addr / bs = (addr + size - 1) / bs`), and every chunk after the
first starts at a multiple of `bs`. -/
theorem writeData_chunks_within_block (d : Device σ) (bs k : Nat) (data : Nat → Nat)
    (len address : Nat) (s : σ) (hpow : bs = 2 ^ k) (hbs32 : bs < 2 ^ 32)
    (hpos : 0 < len) (hlen : len < 2 ^ 32) :
    (∀ e ∈ (writeData d bs data len address s).trace,
      e.call.isBlock = true ∧ 1 ≤ e.call.size ∧ e.call.size ≤ bs ∧
      e.call.addr / bs = (e.call.addr + e.call.size - 1) / bs) ∧
    (∀ i e, (writeData d bs data len address s).trace[i]? = some e → 0 < i →
      e.call.addr % bs = 0) := by
  have hbs : bs ≠ 0 := by
    rw [hpow]
    exact Nat.pos_iff_ne_zero.1 (Nat.pow_pos (by norm_num))
  have hbpos : 0 < bs := Nat.pos_of_ne_zero hbs
  have hk : k ≤ 32 := by
    by_contra hk
    have : 2 ^ 32 ≤ 2 ^ k := Nat.pow_le_pow_right (by norm_num) (by omega)
    omega
  have hdvd : bs ∣ 2 ^ 32 := by
    rw [hpow]
    exact Nat.pow_dvd_pow 2 hk
  have hmask : address &&& (bs - 1) = address % bs := by
    rw [hpow]
    exact mask_eq_mod address k
  have hr : address % bs < bs := Nat.mod_lt _ hbpos
  have hlead1 := leadChunk_pos len address hbs hbs32 hpos
  have hlead2 : address % bs + leadChunk bs len address ≤ bs := by
    rw [leadChunk_eq len address hbs32, hmask]
    omega
  have hleadEv : ∀ ok, (leadEvent bs len address ok).call.isBlock = true ∧
      1 ≤ (leadEvent bs len address ok).call.size ∧
      (leadEvent bs len address ok).call.size ≤ bs ∧
      (leadEvent bs len address ok).call.addr / bs
        = ((leadEvent bs len address ok).call.addr
            + (leadEvent bs len address ok).call.size - 1) / bs := by
    intro ok
    refine ⟨rfl, hlead1, ?_, same_block hbpos hlead1 hlead2⟩
    show leadChunk bs len address ≤ bs
    omega
  have hloop : ∀ (len1 off : Nat) (s1 : σ), len1 < 2 ^ 32 →
      (add32 address off % bs = 0 ∨ len1 = 0) →
      ∀ e ∈ (blockLoop d data bs hbpos address len1 off s1).trace,
        (e.call.isBlock = true ∧ 1 ≤ e.call.size ∧ e.call.size ≤ bs ∧
          e.call.addr / bs = (e.call.addr + e.call.size - 1) / bs) ∧
        e.call.addr % bs = 0 := by
    intro len1 off s1 hl1 hal e he
    have ha := blockLoop_aligned d data bs hbpos address len1 off s1 hdvd hl1 hal e he
    have hs := (blockLoop_sites d data bs hbpos address len1 off s1 e he).2
    have hb : e.call.isBlock = true := blockLoop_isBlock d data bs hbpos address len1 off s1 e he
    exact ⟨⟨hb, hs.1, hs.2, same_block hbpos hs.1 (by rw [ha]; omega)⟩, ha⟩
  by_cases ha : address &&& (bs - 1) = 0
  · rw [writeData_aligned d bs data len address s hbs ha]
    have hal : add32 address 0 % bs = 0 ∨ len = 0 := by
      left
      rw [add32_mod hdvd, Nat.add_zero, ← hmask]
      exact ha
    refine ⟨fun e he => (hloop len 0 s hlen hal e he).1, ?_⟩
    intro i e hi _
    exact (hloop len 0 s hlen hal e (List.mem_iff_getElem?.2 ⟨i, hi⟩)).2
  · by_cases hr : (d.burnBlock data (leadChunk bs len address) address s).1 = false
    · rw [writeData_lead_fail d bs data len address s hbs ha hr]
      constructor
      · intro e he
        simp only [List.mem_singleton] at he
        subst he
        exact hleadEv _
      · intro i e hi hi0
        cases i with
        | zero => omega
        | succ j => simp at hi
    · have hr1 : (d.burnBlock data (leadChunk bs len address) address s).1 = true := by
        simpa using hr
      rw [writeData_lead_ok d bs data len address s hbs ha hr1]
      have hc := leadChunk_le_len bs len address
      have e1 : sub32 len (leadChunk bs len address) = len - leadChunk bs len address :=
        sub32_chunk hlen hc
      have hal : add32 address (add32 0 (leadChunk bs len address)) % bs = 0 ∨
          sub32 len (leadChunk bs len address) = 0 := by
        rw [leadChunk_eq len address hbs32, hmask] at e1 ⊢
        by_cases hcap : bs - address % bs ≤ len
        · left
          rw [Nat.min_eq_left hcap, add32_mod hdvd, Nat.add_mod, add32_mod hdvd, Nat.zero_add,
            ← Nat.add_mod]
          have := Nat.div_add_mod address bs
          rw [show address + (bs - address % bs) = bs + bs * (address / bs) by omega,
            Nat.add_mul_mod_self_left, Nat.mod_self]
        · right
          rw [e1, Nat.min_eq_right (by omega)]
          omega
      have hl1 : sub32 len (leadChunk bs len address) < 2 ^ 32 := by
        rw [e1]
        omega
      constructor
      · intro e he
        simp only [List.mem_cons] at he
        rcases he with rfl | he
        · exact hleadEv _
        · exact (hloop _ _ _ hl1 hal e he).1
      · intro i e hi hi0
        cases i with
        | zero => omega
        | succ j =>
          simp only [List.getElem?_cons_succ] at hi
          exact (hloop _ _ _ hl1 hal e (List.mem_iff_getElem?.2 ⟨j, hi⟩)).2

theorem writeData_chunks_within_block_witness :
    ((64 : Nat) = 2 ^ 6 ∧ 64 < 2 ^ 32 ∧ 0 < 200 ∧ 200 < 2 ^ 32) ∧
    addresses (writeData okDevice 64 (fun i => i) 200 10 ()).trace = [10, 64, 128, 192] ∧
    sizes (writeData okDevice 64 (fun i => i) 200 10 ()).trace = [54, 64, 64, 18] ∧
    ((∀ e ∈ (writeData okDevice 64 (fun i => i) 200 10 ()).trace,
      e.call.isBlock = true ∧ 1 ≤ e.call.size ∧ e.call.size ≤ 64 ∧
      e.call.addr / 64 = (e.call.addr + e.call.size - 1) / 64) ∧
    (∀ i e, (writeData okDevice 64 (fun i => i) 200 10 ()).trace[i]? = some e → 0 < i →
      e.call.addr % 64 = 0)) :=
  ⟨⟨by norm_num, by norm_num, by norm_num, by norm_num⟩,
   by simp [addresses, Call.addr, writeData, blockLoop_step, blockLoop_done, leadChunk,
     loopChunk, sub32, add32, okDevice, (by decide : 10 &&& 63 = 10)],
   by simp [sizes, Call.size, writeData, blockLoop_step, blockLoop_done, leadChunk,
     loopChunk, sub32, add32, okDevice, (by decide : 10 &&& 63 = 10)],
   writeData_chunks_within_block okDevice 64 6 (fun i => i) 200 10 ()
     (by norm_num) (by norm_num) (by norm_num) (by norm_num)⟩

/-! ## The two realizations present the same address -/

/-- The three planes of an address make up its low 19 bits. -/
theorem planes_eq_mod (a : Nat) :
    (a &&& 0xff) ||| (((a >>> 8) &&& 0xff) <<< 8) ||| (((a >>> 16) &&& 7) <<< 16)
      = a % 2 ^ 19 := by
  have e8 : ∀ x : Nat, x &&& 0xff = x % 2 ^ 8 := fun x => Nat.and_pow_two_sub_one_eq_mod x 8
  have e3 : ∀ x : Nat, x &&& 7 = x % 2 ^ 3 := fun x => Nat.and_pow_two_sub_one_eq_mod x 3
  rw [e8, e8, e3]
  apply Nat.eq_of_testBit_eq
  intro i
  simp only [Nat.testBit_or, Nat.testBit_shiftLeft, Nat.testBit_shiftRight,
    Nat.testBit_mod_two_pow]
  rcases Nat.lt_or_ge i 8 with h1 | h1
  · have a1 : ¬ (i ≥ 8) := by omega
    have a2 : ¬ (i ≥ 16) := by omega
    have a3 : i < 19 := by omega
    simp [h1, a1, a2, a3]
  · rcases Nat.lt_or_ge i 16 with h2 | h2
    · have a1 : ¬ (i < 8) := by omega
      have a2 : ¬ (i ≥ 16) := by omega
      have a3 : i < 19 := by omega
      have a4 : i - 8 < 8 := by omega
      have a5 : 8 + (i - 8) = i := by omega
      simp [h1, a1, a2, a3, a4, a5]
    · rcases Nat.lt_or_ge i 19 with h3 | h3
      · have a1 : ¬ (i < 8) := by omega
        have a4 : ¬ (i - 8 < 8) := by omega
        have a5 : i - 16 < 3 := by omega
        have a6 : 16 + (i - 16) = i := by omega
        simp [h1, h2, h3, a1, a4, a5, a6]
      · have a1 : ¬ (i < 8) := by omega
        have a4 : ¬ (i - 8 < 8) := by omega
        have a5 : ¬ (i - 16 < 3) := by omega
        have a3 : ¬ (i < 19) := by omega
        simp [h1, h2, a1, a3, a4, a5]

theorem ShiftRegister.presents_address (s : ShiftRegister.Driver) (a : Nat)
    (h : ShiftRegister.Presents s a) :
    s.bus.address = a % 2 ^ 19 ∧
    s.bus.loOut ||| (s.bus.hiOut <<< 8) ||| (s.bus.extended <<< 16) = a % 2 ^ 19 := by
  obtain ⟨h1, h2, h3, h4, h5, _⟩ := h
  unfold ShiftRegister.Bus.address
  rw [h1, h2, h3, h4, h5]
  exact ⟨planes_eq_mod a, planes_eq_mod a⟩

theorem DirectPin.direct_presents_address (s : DirectPin.Driver) (a : Nat)
    (h : DirectPin.Presents s a) : s.bus.address = a % 2 ^ 19 := by
  obtain ⟨h1, h2, h3, _⟩ := h
  unfold DirectPin.Bus.address
  rw [h1, h2, h3]
  exact planes_eq_mod a

/-- C12.  Started at power-on (the static bytes of `setAddress` holding their
initializer) and taken through `begin()` and the same requests
`setAddress(a_1) .. setAddress(a_n)`, the shift-register realization, decoded
as `loReg | hiReg << 8 | ((PORTB >> 2) & 7) << 16`, and the direct-pin
realization, decoded as `PORTA | bitreverse8(PORTC) << 8 | PD7 << 16 |
PG2 << 17 | PG1 << 18`, present the same 19-bit value: `a_n mod 2^19`, and 0
when no request was made.  The output latches of the shift registers hold the
same two bytes as the registers. -/
theorem realizations_present_same_address (as : List Nat) (s : ShiftRegister.Driver)
    (t : DirectPin.Driver) (hs : ShiftRegister.PowerOn s) (ht : DirectPin.PowerOn t) :
    (ShiftRegister.run as (ShiftRegister.begin s)).bus.address = as.getLast?.getD 0 % 2 ^ 19 ∧
    (DirectPin.run as (DirectPin.begin t)).bus.address = as.getLast?.getD 0 % 2 ^ 19 ∧
    (ShiftRegister.run as (ShiftRegister.begin s)).bus.address
      = (DirectPin.run as (DirectPin.begin t)).bus.address ∧
    (ShiftRegister.run as (ShiftRegister.begin s)).bus.loOut
      = (ShiftRegister.run as (ShiftRegister.begin s)).bus.loReg ∧
    (ShiftRegister.run as (ShiftRegister.begin s)).bus.hiOut
      = (ShiftRegister.run as (ShiftRegister.begin s)).bus.hiReg := by
  have h1 := ShiftRegister.run_presents as 0 _ (ShiftRegister.begin_presents s hs)
  have h2 := DirectPin.direct_run_presents as 0 _ (DirectPin.direct_begin_presents t ht)
  have e1 := (ShiftRegister.presents_address _ _ h1).1
  have e2 := DirectPin.direct_presents_address _ _ h2
  refine ⟨e1, e2, e1.trans e2.symm, ?_, ?_⟩
  · exact h1.2.2.2.1.trans h1.1.symm
  · exact h1.2.2.2.2.1.trans h1.2.1.symm

theorem realizations_present_same_address_witness :
    (ShiftRegister.PowerOn ShiftRegister.bootState ∧ DirectPin.PowerOn DirectPin.bootState) ∧
    (ShiftRegister.run [0x12345, 0xFCACA12]
      (ShiftRegister.begin ShiftRegister.bootState)).bus.address = 0xFCACA12 % 2 ^ 19 ∧
    (DirectPin.run [0x12345, 0xFCACA12]
      (DirectPin.begin DirectPin.bootState)).bus.address = 0xFCACA12 % 2 ^ 19 ∧
    (ShiftRegister.run [0x12345, 0xFCACA12]
        (ShiftRegister.begin ShiftRegister.bootState)).bus.address
      = (DirectPin.run [0x12345, 0xFCACA12]
        (DirectPin.begin DirectPin.bootState)).bus.address :=
  have h := realizations_present_same_address [0x12345, 0xFCACA12]
    ShiftRegister.bootState DirectPin.bootState ⟨rfl, rfl⟩ ⟨rfl, rfl⟩
  ⟨⟨⟨rfl, rfl⟩, ⟨rfl, rfl⟩⟩, h.1, h.2.1, h.2.2.1⟩

/-! ## Shift-register realization: the signals of `setAddressRegister` -/

namespace ShiftRegister

theorem edgeData_append (bit : Nat) (xs ys : List Nat) :
    ∀ P, edgeData bit P (xs ++ ys) = edgeData bit P xs ++ edgeData bit (xs.getLastD P) ys := by
  induction xs with
  | nil =>
    intro P
    rfl
  | cons x xs ih =>
    intro P
    simp only [List.cons_append, edgeData, List.append_eq, ih x, List.append_assoc,
      List.getLastD_cons]

theorem getLastD_append_last (xs ys : List Nat) :
    ∀ a, (xs ++ ys).getLastD a = ys.getLastD (xs.getLastD a) := by
  induction xs with
  | nil =>
    intro a
    rfl
  | cons x xs ih =>
    intro a
    rw [List.cons_append, List.getLastD_cons, List.getLastD_cons, ih x]

theorem shiftBit_writes (addr mask : Nat) (s : Driver) :
    (shiftBit addr mask s).writes = s.writes ++ onPort Port.C (bitWrites addr mask s.bus.PORTC) ∧
    (shiftBit addr mask s).bus.PORTC = (bitWrites addr mask s.bus.PORTC).getLastD s.bus.PORTC := by
  by_cases h : addr &&& 0x80 = 0
  · simp [shiftBit, outPORTC, Bus.writePORTC, bitWrites, onPort, h]
  · simp [shiftBit, outPORTC, Bus.writePORTC, bitWrites, onPort, h]

theorem shiftLoop_writes (mask : Nat) (n : Nat) :
    ∀ (addr : Nat) (s : Driver),
      (shiftLoop n addr mask s).writes
        = s.writes ++ onPort Port.C (loopWrites n addr mask s.bus.PORTC) ∧
      (shiftLoop n addr mask s).bus.PORTC
        = (loopWrites n addr mask s.bus.PORTC).getLastD s.bus.PORTC := by
  induction n with
  | zero =>
    intro addr s
    simp [shiftLoop, loopWrites, onPort]
  | succ n ih =>
    intro addr s
    have h1 := shiftBit_writes addr mask s
    have h2 := ih ((addr <<< 1) % 256) (shiftBit addr mask s)
    rw [shiftLoop, loopWrites, h2.1, h2.2, h1.1, h1.2]
    constructor
    · simp [onPort, List.append_assoc]
    · rw [getLastD_append_last]

/-- One loop iteration, entered with the selected clock low: one rising edge
on it, taking bit 7 of `addr`; none on the other clock; the selected clock is
low again afterwards. -/
theorem bitWrites_edges (addr P : Nat) {mask bit other : Nat}
    (h : (mask = 8 ∧ bit = 3 ∧ other = 4) ∨ (mask = 16 ∧ bit = 4 ∧ other = 3))
    (hclk : P.testBit bit = false) :
    edgeData bit P (bitWrites addr mask P) = [addr.testBit 7] ∧
    edgeData other P (bitWrites addr mask P) = [] ∧
    ((bitWrites addr mask P).getLastD P).testBit bit = false := by
  have h7 := and_bit_ne_zero addr 7
  rw [show (2 : Nat) ^ 7 = 0x80 from rfl] at h7
  rcases h with ⟨rfl, rfl, rfl⟩ | ⟨rfl, rfl, rfl⟩
  · by_cases hb : addr &&& 0x80 = 0
    · have hb7 : addr.testBit 7 = false := by
        cases hx : addr.testBit 7
        · rfl
        · exact absurd hb (h7.2 hx)
      simp [bitWrites, edgeData, rising, not8, testBit_mod256, Nat.testBit_or, Nat.testBit_and,
        ADDR_DATA_MASK, hb, hb7, hclk,
        (by decide : Nat.testBit 32 3 = false), (by decide : Nat.testBit 32 4 = false),
        (by decide : Nat.testBit 32 5 = true), (by decide : Nat.testBit 223 3 = true),
        (by decide : Nat.testBit 223 4 = true), (by decide : Nat.testBit 223 5 = false),
        (by decide : Nat.testBit 8 3 = true), (by decide : Nat.testBit 8 4 = false),
        (by decide : Nat.testBit 8 5 = false), (by decide : Nat.testBit 247 3 = false),
        (by decide : Nat.testBit 247 4 = true), (by decide : Nat.testBit 247 5 = true),
        (by decide : Nat.testBit 16 3 = false), (by decide : Nat.testBit 16 4 = true),
        (by decide : Nat.testBit 16 5 = false), (by decide : Nat.testBit 239 3 = true),
        (by decide : Nat.testBit 239 4 = false), (by decide : Nat.testBit 239 5 = true)]
    · have hb7 : addr.testBit 7 = true := h7.1 hb
      simp [bitWrites, edgeData, rising, not8, testBit_mod256, Nat.testBit_or, Nat.testBit_and,
        ADDR_DATA_MASK, hb, hb7, hclk,
        (by decide : Nat.testBit 32 3 = false), (by decide : Nat.testBit 32 4 = false),
        (by decide : Nat.testBit 32 5 = true), (by decide : Nat.testBit 223 3 = true),
        (by decide : Nat.testBit 223 4 = true), (by decide : Nat.testBit 223 5 = false),
        (by decide : Nat.testBit 8 3 = true), (by decide : Nat.testBit 8 4 = false),
        (by decide : Nat.testBit 8 5 = false), (by decide : Nat.testBit 247 3 = false),
        (by decide : Nat.testBit 247 4 = true), (by decide : Nat.testBit 247 5 = true),
        (by decide : Nat.testBit 16 3 = false), (by decide : Nat.testBit 16 4 = true),
        (by decide : Nat.testBit 16 5 = false), (by decide : Nat.testBit 239 3 = true),
        (by decide : Nat.testBit 239 4 = false), (by decide : Nat.testBit 239 5 = true)]
  · by_cases hb : addr &&& 0x80 = 0
    · have hb7 : addr.testBit 7 = false := by
        cases hx : addr.testBit 7
        · rfl
        · exact absurd hb (h7.2 hx)
      simp [bitWrites, edgeData, rising, not8, testBit_mod256, Nat.testBit_or, Nat.testBit_and,
        ADDR_DATA_MASK, hb, hb7, hclk,
        (by decide : Nat.testBit 32 3 = false), (by decide : Nat.testBit 32 4 = false),
        (by decide : Nat.testBit 32 5 = true), (by decide : Nat.testBit 223 3 = true),
        (by decide : Nat.testBit 223 4 = true), (by decide : Nat.testBit 223 5 = false),
        (by decide : Nat.testBit 8 3 = true), (by decide : Nat.testBit 8 4 = false),
        (by decide : Nat.testBit 8 5 = false), (by decide : Nat.testBit 247 3 = false),
        (by decide : Nat.testBit 247 4 = true), (by decide : Nat.testBit 247 5 = true),
        (by decide : Nat.testBit 16 3 = false), (by decide : Nat.testBit 16 4 = true),
        (by decide : Nat.testBit 16 5 = false), (by decide : Nat.testBit 239 3 = true),
        (by decide : Nat.testBit 239 4 = false), (by decide : Nat.testBit 239 5 = true)]
    · have hb7 : addr.testBit 7 = true := h7.1 hb
      simp [bitWrites, edgeData, rising, not8, testBit_mod256, Nat.testBit_or, Nat.testBit_and,
        ADDR_DATA_MASK, hb, hb7, hclk,
        (by decide : Nat.testBit 32 3 = false), (by decide : Nat.testBit 32 4 = false),
        (by decide : Nat.testBit 32 5 = true), (by decide : Nat.testBit 223 3 = true),
        (by decide : Nat.testBit 223 4 = true), (by decide : Nat.testBit 223 5 = false),
        (by decide : Nat.testBit 8 3 = true), (by decide : Nat.testBit 8 4 = false),
        (by decide : Nat.testBit 8 5 = false), (by decide : Nat.testBit 247 3 = false),
        (by decide : Nat.testBit 247 4 = true), (by decide : Nat.testBit 247 5 = true),
        (by decide : Nat.testBit 16 3 = false), (by decide : Nat.testBit 16 4 = true),
        (by decide : Nat.testBit 16 5 = false), (by decide : Nat.testBit 239 3 = true),
        (by decide : Nat.testBit 239 4 = false), (by decide : Nat.testBit 239 5 = true)]

theorem loopWrites_edges {mask bit other : Nat}
    (h : (mask = 8 ∧ bit = 3 ∧ other = 4) ∨ (mask = 16 ∧ bit = 4 ∧ other = 3)) (n : Nat) :
    ∀ (addr P : Nat), P.testBit bit = false →
      edgeData bit P (loopWrites n addr mask P) = msbFirst n addr ∧
      edgeData other P (loopWrites n addr mask P) = [] ∧
      ((loopWrites n addr mask P).getLastD P).testBit bit = false := by
  induction n with
  | zero =>
    intro addr P hclk
    exact ⟨rfl, rfl, hclk⟩
  | succ n ih =>
    intro addr P hclk
    obtain ⟨b1, b2, b3⟩ := bitWrites_edges addr P h hclk
    obtain ⟨i1, i2, i3⟩ := ih ((addr <<< 1) % 256) _ b3
    rw [loopWrites, edgeData_append, edgeData_append, getLastD_append_last, b1, b2, i1, i2]
    exact ⟨rfl, rfl, i3⟩

theorem msbFirst_eight (v : Nat) :
    msbFirst 8 v = [v.testBit 7, v.testBit 6, v.testBit 5, v.testBit 4, v.testBit 3,
      v.testBit 2, v.testBit 1, v.testBit 0] := by
  simp [msbFirst, testBit_mod256, Nat.testBit_shiftLeft]

theorem setAddressRegister_signals (clkPin v : Nat) (s : Driver) {mask bit other : Nat}
    (hm : clockMask clkPin = mask)
    (h : (mask = 8 ∧ bit = 3 ∧ other = 4) ∨ (mask = 16 ∧ bit = 4 ∧ other = 3)) :
    Serializes bit other v s (setAddressRegister clkPin v s) := by
  have hc0 : ((s.bus.PORTC &&& not8 mask) % 256).testBit bit = false := by
    rcases h with ⟨rfl, rfl, rfl⟩ | ⟨rfl, rfl, rfl⟩
    · simp [not8, testBit_mod256, Nat.testBit_and, (by decide : Nat.testBit 247 3 = false)]
    · simp [not8, testBit_mod256, Nat.testBit_and, (by decide : Nat.testBit 239 4 = false)]
  have hother : ((s.bus.PORTC &&& not8 mask) % 256).testBit other = s.bus.PORTC.testBit other := by
    rcases h with ⟨rfl, rfl, rfl⟩ | ⟨rfl, rfl, rfl⟩
    · simp [not8, testBit_mod256, Nat.testBit_and, (by decide : Nat.testBit 247 4 = true)]
    · simp [not8, testBit_mod256, Nat.testBit_and, (by decide : Nat.testBit 239 3 = true)]
  obtain ⟨e1, e2, e3⟩ := loopWrites_edges h 8 v _ hc0
  have hw := shiftLoop_writes mask 8 v (outPORTC (s.bus.PORTC &&& not8 mask) s)
  have hP0 : (outPORTC (s.bus.PORTC &&& not8 mask) s).bus.PORTC
      = (s.bus.PORTC &&& not8 mask) % 256 := rfl
  have hW0 : (outPORTC (s.bus.PORTC &&& not8 mask) s).writes
      = s.writes ++ [(Port.C, (s.bus.PORTC &&& not8 mask) % 256)] := rfl
  rw [hP0, hW0] at hw
  refine ⟨((s.bus.PORTC &&& not8 mask) % 256)
      :: loopWrites 8 v mask ((s.bus.PORTC &&& not8 mask) % 256),
    ((shiftLoop 8 v mask (outPORTC (s.bus.PORTC &&& not8 mask) s)).bus.PORTB
      &&& not8 RCLK_595_MASK) % 256,
    ((((shiftLoop 8 v mask (outPORTC (s.bus.PORTC &&& not8 mask) s)).bus.PORTB
      &&& not8 RCLK_595_MASK) % 256) ||| RCLK_595_MASK) % 256,
    ((((((shiftLoop 8 v mask (outPORTC (s.bus.PORTC &&& not8 mask) s)).bus.PORTB
      &&& not8 RCLK_595_MASK) % 256) ||| RCLK_595_MASK) % 256) &&& not8 RCLK_595_MASK) % 256,
    ?_, ?_, ?_, ?_, ?_, ⟨?_, ?_⟩, ?_, ?_⟩
  · unfold setAddressRegister
    simp only [hm, outPORTB, Bus.writePORTB, hw.1, onPort, List.map_cons, List.map_nil,
      List.append_assoc, List.cons_append, List.nil_append]
  · rw [edgeData, e1, msbFirst_eight]
    simp [rising, hc0]
  · rw [edgeData, e2]
    simp [rising, hother]
  · simp [not8, RCLK_595_MASK, testBit_mod256, Nat.testBit_and, Nat.testBit_or,
      (by decide : Nat.testBit 223 5 = false), (by decide : Nat.testBit 32 5 = true)]
  · simp [rising, not8, RCLK_595_MASK, testBit_mod256, Nat.testBit_and, Nat.testBit_or,
      (by decide : Nat.testBit 223 5 = false), (by decide : Nat.testBit 32 5 = true)]
  · unfold setAddressRegister
    simp only [hm, outPORTB, Bus.writePORTB, List.getLastD_cons]
    exact hw.2
  · unfold setAddressRegister
    simp only [hm, outPORTB, Bus.writePORTB]
  · unfold setAddressRegister
    simp only [hm, outPORTB, Bus.writePORTB]
    rw [hw.2]
    exact e3
  · unfold setAddressRegister
    simp [hm, outPORTB, Bus.writePORTB, not8, RCLK_595_MASK, testBit_mod256, Nat.testBit_and,
      (by decide : Nat.testBit 223 5 = false)]

/-- C17.  For every byte `v`: `setAddressRegister(ADDR_CLK_HI, v)` makes
exactly eight rising edges on the shift clock `PC3` and none on `PC4`; at
those edges the data line `PC5` carries bit 7, bit 6, .., bit 0 of `v`, and the
high shift register ends up holding `v` while the low one keeps its contents;
after the last assignment to `PORTC` the register clock `PB5` is set low,
high, low, which copies `v` to the output latch; `PC3` and `PB5` are low on
return.  The same holds for `setAddressRegister(ADDR_CLK_LO, v)` with `PC4`
and `PC3`, the low and the high register exchanged. -/
theorem setAddressRegister_serializes (v : Nat) (s : Driver) (hv : v < 256) :
    (Serializes 3 4 v s (setAddressRegister ADDR_CLK_HI v s) ∧
      (setAddressRegister ADDR_CLK_HI v s).bus.hiReg = v ∧
      (setAddressRegister ADDR_CLK_HI v s).bus.loReg = s.bus.loReg ∧
      (setAddressRegister ADDR_CLK_HI v s).bus.hiOut = v) ∧
    (Serializes 4 3 v s (setAddressRegister ADDR_CLK_LO v s) ∧
      (setAddressRegister ADDR_CLK_LO v s).bus.loReg = v ∧
      (setAddressRegister ADDR_CLK_LO v s).bus.hiReg = s.bus.hiReg ∧
      (setAddressRegister ADDR_CLK_LO v s).bus.loOut = v) := by
  have hH : clockMask ADDR_CLK_HI = 8 := by simp [clockMask, ADDR_CLK_HI_MASK]
  have hL : clockMask ADDR_CLK_LO = 16 := by
    simp [clockMask, ADDR_CLK_LO, ADDR_CLK_HI, ADDR_CLK_LO_MASK]
  refine ⟨⟨setAddressRegister_signals ADDR_CLK_HI v s hH (Or.inl ⟨rfl, rfl, rfl⟩), ?_, ?_, ?_⟩,
    ⟨setAddressRegister_signals ADDR_CLK_LO v s hL (Or.inr ⟨rfl, rfl, rfl⟩), ?_, ?_, ?_⟩⟩
  · rw [setAddressRegister_hi_bus]
    exact regAfter_eight v _ hv
  · rw [setAddressRegister_hi_bus]
  · rw [setAddressRegister_hi_bus]
    exact regAfter_eight v _ hv
  · rw [setAddressRegister_lo_bus]
    exact regAfter_eight v _ hv
  · rw [setAddressRegister_lo_bus]
  · rw [setAddressRegister_lo_bus]
    exact regAfter_eight v _ hv

end ShiftRegister

theorem setAddressRegister_serializes_witness :
    (0xA5 < 256) ∧
    (ShiftRegister.setAddressRegister ShiftRegister.ADDR_CLK_HI 0xA5
      ShiftRegister.bootState).writes.length = 28 ∧
    ((ShiftRegister.Serializes 3 4 0xA5 ShiftRegister.bootState
        (ShiftRegister.setAddressRegister ShiftRegister.ADDR_CLK_HI 0xA5
          ShiftRegister.bootState) ∧
      (ShiftRegister.setAddressRegister ShiftRegister.ADDR_CLK_HI 0xA5
        ShiftRegister.bootState).bus.hiReg = 0xA5 ∧
      (ShiftRegister.setAddressRegister ShiftRegister.ADDR_CLK_HI 0xA5
        ShiftRegister.bootState).bus.loReg = ShiftRegister.bootState.bus.loReg ∧
      (ShiftRegister.setAddressRegister ShiftRegister.ADDR_CLK_HI 0xA5
        ShiftRegister.bootState).bus.hiOut = 0xA5) ∧
    (ShiftRegister.Serializes 4 3 0xA5 ShiftRegister.bootState
        (ShiftRegister.setAddressRegister ShiftRegister.ADDR_CLK_LO 0xA5
          ShiftRegister.bootState) ∧
      (ShiftRegister.setAddressRegister ShiftRegister.ADDR_CLK_LO 0xA5
        ShiftRegister.bootState).bus.loReg = 0xA5 ∧
      (ShiftRegister.setAddressRegister ShiftRegister.ADDR_CLK_LO 0xA5
        ShiftRegister.bootState).bus.hiReg = ShiftRegister.bootState.bus.hiReg ∧
      (ShiftRegister.setAddressRegister ShiftRegister.ADDR_CLK_LO 0xA5
        ShiftRegister.bootState).bus.loOut = 0xA5)) :=
  ⟨by norm_num, by decide,
    ShiftRegister.setAddressRegister_serializes 0xA5 ShiftRegister.bootState (by norm_num)⟩

/-! ## Which planes a request transmits -/

theorem valuesOn_append (p : Port) (xs ys : List (Port × Nat)) :
    valuesOn p (xs ++ ys) = valuesOn p xs ++ valuesOn p ys := by
  simp [valuesOn]

theorem valuesOn_nil (p : Port) : valuesOn p [] = [] := rfl

namespace ShiftRegister

theorem valuesOn_onPort_same (p : Port) (vs : List Nat) : valuesOn p (onPort p vs) = vs := by
  induction vs with
  | nil => rfl
  | cons v vs ih =>
    simp only [valuesOn, onPort, List.map_cons] at ih ⊢
    simp [ih]

theorem valuesOn_onPort_other (p q : Port) (h : q ≠ p) (vs : List Nat) :
    valuesOn p (onPort q vs) = [] := by
  induction vs with
  | nil => rfl
  | cons v vs ih =>
    simp only [valuesOn, onPort, List.map_cons] at ih ⊢
    simp [h, ih]

theorem newWrites_append (s t : Driver) (w : List (Port × Nat)) (h : t.writes = s.writes ++ w) :
    newWrites s t = w := by
  simp [newWrites, h]

theorem shiftBit_portB (addr mask : Nat) (s : Driver) :
    (shiftBit addr mask s).bus.PORTB = s.bus.PORTB := by
  by_cases h : addr &&& 0x80 = 0
  · simp [shiftBit, outPORTC, Bus.writePORTC, h]
  · simp [shiftBit, outPORTC, Bus.writePORTC, h]

theorem shiftLoop_portB (mask : Nat) (n : Nat) :
    ∀ (addr : Nat) (s : Driver), (shiftLoop n addr mask s).bus.PORTB = s.bus.PORTB := by
  induction n with
  | zero =>
    intro addr s
    rfl
  | succ n ih =>
    intro addr s
    rw [shiftLoop, ih, shiftBit_portB]

/-- The port assignments of `setAddressRegister`: to `PORTC` for the eight
bits, then to `PORTB` for the register clock. -/
theorem setAddressRegister_writes (clkPin v : Nat) (s : Driver) :
    (setAddressRegister clkPin v s).writes =
      s.writes ++ onPort Port.C (registerWrites (clockMask clkPin) v s.bus.PORTC)
        ++ onPort Port.B (latchWrites s.bus.PORTB) := by
  have hw := shiftLoop_writes (clockMask clkPin) 8 v
    (outPORTC (s.bus.PORTC &&& not8 (clockMask clkPin)) s)
  have hb := shiftLoop_portB (clockMask clkPin) 8 v
    (outPORTC (s.bus.PORTC &&& not8 (clockMask clkPin)) s)
  have hP0 : (outPORTC (s.bus.PORTC &&& not8 (clockMask clkPin)) s).bus.PORTC
      = (s.bus.PORTC &&& not8 (clockMask clkPin)) % 256 := rfl
  have hQ0 : (outPORTC (s.bus.PORTC &&& not8 (clockMask clkPin)) s).bus.PORTB
      = s.bus.PORTB := rfl
  have hW0 : (outPORTC (s.bus.PORTC &&& not8 (clockMask clkPin)) s).writes
      = s.writes ++ [(Port.C, (s.bus.PORTC &&& not8 (clockMask clkPin)) % 256)] := rfl
  rw [hP0, hW0] at hw
  rw [hQ0] at hb
  unfold setAddressRegister
  simp only [outPORTB, Bus.writePORTB, hw.1, hb, onPort, registerWrites, latchWrites,
    List.map_cons, List.map_nil, List.append_assoc, List.cons_append, List.nil_append]

theorem ext_bits_congr (x y : Nat)
    (h2 : x.testBit 2 = y.testBit 2) (h3 : x.testBit 3 = y.testBit 3)
    (h4 : x.testBit 4 = y.testBit 4) : (x >>> 2) &&& 7 = (y >>> 2) &&& 7 := by
  apply Nat.eq_of_testBit_eq
  intro i
  simp only [Nat.testBit_and, Nat.testBit_shiftRight, testBit_seven]
  rcases Nat.lt_or_ge i 3 with h | h
  · interval_cases i <;> simp [h2, h3, h4]
  · simp [Nat.not_lt.2 h]

/-- The register-clock pulse leaves the extended address lines alone. -/
theorem latchWrites_ext (Q : Nat) :
    ∀ q ∈ latchWrites Q, (q >>> 2) &&& 7 = (Q >>> 2) &&& 7 := by
  intro q hq
  simp only [latchWrites, List.mem_cons, List.mem_singleton, List.mem_nil_iff, or_false] at hq
  rcases hq with rfl | rfl | rfl <;>
    apply ext_bits_congr <;>
    simp [not8, RCLK_595_MASK, testBit_mod256, Nat.testBit_and, Nat.testBit_or,
      (by decide : Nat.testBit 223 2 = true), (by decide : Nat.testBit 223 3 = true),
      (by decide : Nat.testBit 223 4 = true), (by decide : Nat.testBit 32 2 = false),
      (by decide : Nat.testBit 32 3 = false), (by decide : Nat.testBit 32 4 = false)]

/-- A transfer to the low shift register makes no rising edge on the clock of
the high one. -/
theorem registerWrites_lo_no_hi_edge (v P : Nat) :
    edgeData 3 P (registerWrites 16 v P) = [] := by
  have hc0 : ((P &&& not8 16) % 256).testBit 4 = false := by
    simp [not8, testBit_mod256, Nat.testBit_and, (by decide : Nat.testBit 239 4 = false)]
  have hother : ((P &&& not8 16) % 256).testBit 3 = P.testBit 3 := by
    simp [not8, testBit_mod256, Nat.testBit_and, (by decide : Nat.testBit 239 3 = true)]
  obtain ⟨_, e2, _⟩ := loopWrites_edges (Or.inr ⟨rfl, rfl, rfl⟩) 8 v _ hc0
  rw [registerWrites, edgeData, e2]
  simp [rising, hother]

theorem registerWrites_length (mask v P : Nat) : (registerWrites mask v P).length = 25 := by
  simp [registerWrites, loopWrites, bitWrites]

theorem latchWrites_length (Q : Nat) : (latchWrites Q).length = 3 := rfl

theorem onPort_length (p : Port) (vs : List Nat) : (onPort p vs).length = vs.length := by
  simp [onPort]

theorem setUpperAddress_writes (u : Nat) (s : Driver) :
    (setUpperAddress u s).writes
      = s.writes ++ [(Port.B, ((s.bus.PORTB &&& 0xE3) ||| ((u <<< 2) &&& 0x1c)) % 256)] ∧
    (setUpperAddress u s).lastHi = s.lastHi := by
  simp [setUpperAddress, outPORTB, not8, UPPER_ADDR_MASK]

/-- The second of two requests, for addresses below `2 ^ 19`. -/
theorem second_request (a b : Nat) (s s1 sU sH s2 : Driver) (ha : a < 2 ^ 19) (hb : b < 2 ^ 19)
    (h1 : s1 = setAddress a s)
    (hU : sU = if (b >>> 16) &&& 7 ≠ (a >>> 16) &&& 7
      then { setUpperAddress (upperByte b) s1 with lastUpper := upperByte b } else s1)
    (hH : sH = if (b >>> 8) &&& 0xff ≠ (a >>> 8) &&& 0xff
      then { setAddressRegister ADDR_CLK_HI (hiByte b) sU with lastHi := hiByte b } else sU)
    (h2 : s2 = setAddress b s1) :
    s2 = setAddressRegister ADDR_CLK_LO (loByte b) sH ∧
    (newWrites s1 s2).length
      = (if (b >>> 16) &&& 7 ≠ (a >>> 16) &&& 7 then 1 else 0)
        + (if (b >>> 8) &&& 0xff ≠ (a >>> 8) &&& 0xff then 28 else 0) + 28 ∧
    ((b >>> 16) &&& 7 = (a >>> 16) &&& 7 →
      s2.bus.extended = s1.bus.extended ∧
      ∀ q ∈ valuesOn Port.B (newWrites s1 s2), (q >>> 2) &&& 7 = s1.bus.extended) ∧
    ((b >>> 8) &&& 0xff = (a >>> 8) &&& 0xff →
      s2.bus.hiReg = s1.bus.hiReg ∧ s2.bus.hiOut = s1.bus.hiOut ∧
      edgeData 3 s1.bus.PORTC (valuesOn Port.C (newWrites s1 s2)) = []) := by
  obtain ⟨s0, hset, hlu, hlh⟩ := setAddress_last a s
  rw [← h1] at hset hlu hlh
  have hlatched : s1.bus.hiOut = s1.bus.hiReg := by
    rw [hset, setAddressRegister_lo_bus]
  have hupa : upperByte a = (a >>> 16) &&& 7 := upper_small a ha
  have hupb : upperByte b = (b >>> 16) &&& 7 := upper_small b hb
  have hCL : clockMask ADDR_CLK_LO = 16 := by
    simp [clockMask, ADDR_CLK_LO, ADDR_CLK_HI, ADDR_CLK_LO_MASK]
  have hCH : clockMask ADDR_CLK_HI = 8 := by simp [clockMask, ADDR_CLK_HI_MASK]
  have hBC : Port.B ≠ Port.C := by decide
  have hCB : Port.C ≠ Port.B := by decide
  by_cases hE : (b >>> 16) &&& 7 = (a >>> 16) &&& 7
  · have hsU : sU = s1 := by rw [hU]; simp [hE]
    subst hsU
    have cu : upperByte b = sU.lastUpper := by rw [hlu, hupa, hupb, hE]
    by_cases hHi : (b >>> 8) &&& 0xff = (a >>> 8) &&& 0xff
    · have hsH : sH = sU := by rw [hH]; simp [hHi]
      subst hsH
      have ch : hiByte b = sH.lastHi := by rw [hlh]; exact hHi
      have e2 : s2 = setAddressRegister ADDR_CLK_LO (loByte b) sH := by
        rw [h2]
        exact setAddress_same b sH cu.symm ch.symm
      have hw : newWrites sH s2 = onPort Port.C (registerWrites 16 (loByte b) sH.bus.PORTC)
          ++ onPort Port.B (latchWrites sH.bus.PORTB) := by
        apply newWrites_append
        rw [e2, setAddressRegister_writes, hCL, List.append_assoc]
      refine ⟨e2, ?_, ?_, ?_⟩
      · rw [hw]
        simp [hE, hHi, onPort_length, registerWrites_length, latchWrites_length]
      · intro _
        constructor
        · rw [e2, setAddressRegister_lo_bus]
          exact extended_afterLatch _
        · intro q hq
          rw [hw, valuesOn_append, valuesOn_onPort_other _ _ hCB, valuesOn_onPort_same,
            List.nil_append] at hq
          exact latchWrites_ext _ q hq
      · intro _
        refine ⟨?_, ?_, ?_⟩
        · rw [e2, setAddressRegister_lo_bus]
        · rw [e2, setAddressRegister_lo_bus]
          exact hlatched.symm
        · rw [hw, valuesOn_append, valuesOn_onPort_same, valuesOn_onPort_other _ _ hBC,
            List.append_nil]
          exact registerWrites_lo_no_hi_edge _ _
    · have hsH : sH = { setAddressRegister ADDR_CLK_HI (hiByte b) sU with lastHi := hiByte b } := by
        rw [hH]
        simp [hHi]
      have ch : ¬ hiByte b = sU.lastHi := by rw [hlh]; exact hHi
      have e2 : s2 = setAddressRegister ADDR_CLK_LO (loByte b) sH := by
        rw [h2, hsH]
        unfold setAddress
        simp [cu, ch]
      have hQ : sH.bus.PORTB = afterLatch sU.bus.PORTB := by
        rw [hsH]
        simp only [setAddressRegister_hi_bus]
      have hw : newWrites sU s2 =
          onPort Port.C (registerWrites 8 (hiByte b) sU.bus.PORTC)
            ++ onPort Port.B (latchWrites sU.bus.PORTB)
            ++ onPort Port.C (registerWrites 16 (loByte b) sH.bus.PORTC)
            ++ onPort Port.B (latchWrites (afterLatch sU.bus.PORTB)) := by
        apply newWrites_append
        rw [e2, setAddressRegister_writes, hCL, hQ]
        have : sH.writes = sU.writes ++ onPort Port.C (registerWrites 8 (hiByte b) sU.bus.PORTC)
            ++ onPort Port.B (latchWrites sU.bus.PORTB) := by
          rw [hsH]
          simp only [setAddressRegister_writes, hCH]
        rw [this]
        simp only [List.append_assoc]
      refine ⟨e2, ?_, ?_, ?_⟩
      · rw [hw]
        simp [hE, hHi, onPort_length, registerWrites_length, latchWrites_length]
      · intro _
        constructor
        · rw [e2, setAddressRegister_lo_bus]
          show ((afterLatch sH.bus.PORTB) >>> 2) &&& 7 = _
          rw [extended_afterLatch, hQ, extended_afterLatch]
          rfl
        · intro q hq
          rw [hw, valuesOn_append, valuesOn_append, valuesOn_append,
            valuesOn_onPort_other _ _ hCB, valuesOn_onPort_other _ _ hCB, valuesOn_onPort_same,
            valuesOn_onPort_same, List.nil_append, List.append_nil, List.mem_append] at hq
          rcases hq with hq | hq
          · exact latchWrites_ext _ q hq
          · rw [latchWrites_ext _ q hq]
            exact extended_afterLatch _
      · intro hc
        exact absurd hc hHi
  · have hsU : sU = { setUpperAddress (upperByte b) s1 with lastUpper := upperByte b } := by
      rw [hU]
      simp [hE]
    have cu : ¬ upperByte b = s1.lastUpper := by
      rw [hlu, hupa, hupb]
      exact hE
    have hUw := setUpperAddress_writes (upperByte b) s1
    have hUb := setUpperAddress_bus (upperByte b) s1
    have hUh : sU.lastHi = hiByte a := by
      rw [hsU]
      exact hUw.2.trans hlh
    by_cases hHi : (b >>> 8) &&& 0xff = (a >>> 8) &&& 0xff
    · have hsH : sH = sU := by rw [hH]; simp [hHi]
      subst hsH
      have ch : hiByte b = s1.lastHi := by rw [hlh]; exact hHi
      have e2 : s2 = setAddressRegister ADDR_CLK_LO (loByte b) sH := by
        rw [h2, hsU]
        unfold setAddress
        simp [cu, ch, hUw.2]
      have hP : sH.bus.PORTC = s1.bus.PORTC := by
        rw [hsU]
        simp only [hUb]
      have hR : sH.bus.hiReg = s1.bus.hiReg := by
        rw [hsU]
        simp only [hUb]
      have hw : newWrites s1 s2 =
          [(Port.B, ((s1.bus.PORTB &&& 0xE3) ||| ((upperByte b <<< 2) &&& 0x1c)) % 256)]
            ++ onPort Port.C (registerWrites 16 (loByte b) s1.bus.PORTC)
            ++ onPort Port.B (latchWrites sH.bus.PORTB) := by
        apply newWrites_append
        rw [e2, setAddressRegister_writes, hCL, hP]
        have : sH.writes = s1.writes
            ++ [(Port.B, ((s1.bus.PORTB &&& 0xE3) ||| ((upperByte b <<< 2) &&& 0x1c)) % 256)] := by
          rw [hsU]
          exact hUw.1
        rw [this]
        simp only [List.append_assoc]
      refine ⟨e2, ?_, ?_, ?_⟩
      · rw [hw]
        simp [hE, hHi, onPort_length, registerWrites_length, latchWrites_length]
      · intro hc
        exact absurd hc hE
      · intro _
        refine ⟨?_, ?_, ?_⟩
        · rw [e2, setAddressRegister_lo_bus]
          exact hR
        · rw [e2, setAddressRegister_lo_bus]
          exact hR.trans hlatched.symm
        · rw [hw, valuesOn_append, valuesOn_append, valuesOn_onPort_same,
            valuesOn_onPort_other _ _ hBC, List.append_nil]
          have : valuesOn Port.C
              [(Port.B, ((s1.bus.PORTB &&& 0xE3) ||| ((upperByte b <<< 2) &&& 0x1c)) % 256)]
              = [] := by
            simp [valuesOn]
          rw [this, List.nil_append]
          exact registerWrites_lo_no_hi_edge _ _
    · have hsH : sH = { setAddressRegister ADDR_CLK_HI (hiByte b) sU with lastHi := hiByte b } := by
        rw [hH]
        simp [hHi]
      have ch : ¬ hiByte b = s1.lastHi := by rw [hlh]; exact hHi
      have e2 : s2 = setAddressRegister ADDR_CLK_LO (loByte b) sH := by
        rw [h2, hsH, hsU]
        unfold setAddress
        simp [cu, ch, hUw.2]
      have hw : newWrites s1 s2 =
          [(Port.B, ((s1.bus.PORTB &&& 0xE3) ||| ((upperByte b <<< 2) &&& 0x1c)) % 256)]
            ++ onPort Port.C (registerWrites 8 (hiByte b) sU.bus.PORTC)
            ++ onPort Port.B (latchWrites sU.bus.PORTB)
            ++ onPort Port.C (registerWrites 16 (loByte b) sH.bus.PORTC)
            ++ onPort Port.B (latchWrites sH.bus.PORTB) := by
        apply newWrites_append
        rw [e2, setAddressRegister_writes, hCL]
        have h3 : sH.writes = sU.writes
            ++ onPort Port.C (registerWrites 8 (hiByte b) sU.bus.PORTC)
            ++ onPort Port.B (latchWrites sU.bus.PORTB) := by
          rw [hsH]
          simp only [setAddressRegister_writes, hCH]
        have h4 : sU.writes = s1.writes
            ++ [(Port.B, ((s1.bus.PORTB &&& 0xE3) ||| ((upperByte b <<< 2) &&& 0x1c)) % 256)] := by
          rw [hsU]
          exact hUw.1
        rw [h3, h4]
        simp only [List.append_assoc]
      refine ⟨e2, ?_, ?_, ?_⟩
      · rw [hw]
        simp [hE, hHi, onPort_length, registerWrites_length, latchWrites_length]
      · intro hc
        exact absurd hc hE
      · intro hc
        exact absurd hc hHi

end ShiftRegister

namespace DirectPin

theorem direct_newWrites_append (s t : Driver) (w : List (Port × Nat))
    (h : t.writes = s.writes ++ w) : newWrites s t = w := by
  simp [newWrites, h]

theorem direct_setAddress_last (a : Nat) (s : Driver) :
    (setAddress a s).lastUpper = upperByte a ∧ (setAddress a s).lastHi = hiByte a := by
  obtain ⟨s1, e1, hu1, _, _, _⟩ :=
    direct_upper_step (upperByte a) (ShiftRegister.and_255_lt _) s
  obtain ⟨s2, e2, hu2, hh2, _, _⟩ :=
    direct_hi_step (hiByte a) (ShiftRegister.and_255_lt _) s1
  have hset : setAddress a s = setLowerAddress (loByte a) false s2 := by
    unfold setAddress
    simp only [e1, e2]
  obtain ⟨_, hfh, hfu⟩ := direct_low_bus (loByte a) s2
  exact ⟨by rw [hset, hfu, hu2, hu1], by rw [hset, hfh, hh2]⟩

theorem direct_setUpperAddress_writes (u : Nat) (s : Driver) :
    (setUpperAddress u s).writes
      = s.writes ++ [(Port.D, (setUpperAddress u s).bus.PORTD),
          (Port.G, (setUpperAddress u s).bus.PORTG)] := by
  rcases bit_cases u 0x01 with h1 | h1 <;>
    simp only [setUpperAddress, h1, ne_eq, not_true_eq_false, not_false_eq_true,
      if_true, if_false] <;>
    simp [outPORTD, outPORTG]

/-- The second of two requests, for addresses below `2 ^ 19`. -/
theorem direct_second_request (a b : Nat) (s s1 sU sH s2 : Driver) (ha : a < 2 ^ 19)
    (hb : b < 2 ^ 19) (h1 : s1 = setAddress a s)
    (hU : sU = if (b >>> 16) &&& 7 ≠ (a >>> 16) &&& 7
      then { setUpperAddress (upperByte b) s1 with lastUpper := upperByte b } else s1)
    (hH : sH = if (b >>> 8) &&& 0xff ≠ (a >>> 8) &&& 0xff
      then { setLowerAddress (hiByte b) true sU with lastHi := hiByte b } else sU)
    (h2 : s2 = setAddress b s1) :
    s2 = setLowerAddress (loByte b) false sH ∧
    (∃ d g, newWrites s1 s2
      = (if (b >>> 16) &&& 7 ≠ (a >>> 16) &&& 7 then [(Port.D, d), (Port.G, g)] else [])
        ++ (if (b >>> 8) &&& 0xff ≠ (a >>> 8) &&& 0xff
            then [(Port.C, highPattern (hiByte b) % 256)] else [])
        ++ [(Port.A, loByte b)]) ∧
    ((b >>> 16) &&& 7 = (a >>> 16) &&& 7 →
      s2.bus.PORTD = s1.bus.PORTD ∧ s2.bus.PORTG = s1.bus.PORTG) ∧
    ((b >>> 8) &&& 0xff = (a >>> 8) &&& 0xff → s2.bus.PORTC = s1.bus.PORTC) := by
  obtain ⟨hlu, hlh⟩ := direct_setAddress_last a s
  rw [← h1] at hlu hlh
  have hupa : upperByte a = (a >>> 16) &&& 7 := ShiftRegister.upper_small a ha
  have hupb : upperByte b = (b >>> 16) &&& 7 := ShiftRegister.upper_small b hb
  have hlo : loByte b % 256 = loByte b := Nat.mod_eq_of_lt (ShiftRegister.and_255_lt b)
  have hUf := direct_upper_frame (upperByte b) s1
  have hUw := direct_setUpperAddress_writes (upperByte b) s1
  have e2 : s2 = setLowerAddress (loByte b) false sH := by
    have cu : upperByte b = s1.lastUpper ↔ (b >>> 16) &&& 7 = (a >>> 16) &&& 7 := by
      rw [hlu, hupa, hupb]
    have ch : hiByte b = s1.lastHi ↔ (b >>> 8) &&& 0xff = (a >>> 8) &&& 0xff := by
      rw [hlh]
      rfl
    rw [h2, hH, hU]
    unfold setAddress
    by_cases hE : (b >>> 16) &&& 7 = (a >>> 16) &&& 7 <;>
      by_cases hHi : (b >>> 8) &&& 0xff = (a >>> 8) &&& 0xff <;>
      simp [hE, hHi, cu, ch, hUf.2.2.1]
  refine ⟨e2, ⟨(setUpperAddress (upperByte b) s1).bus.PORTD,
    (setUpperAddress (upperByte b) s1).bus.PORTG, ?_⟩, ?_, ?_⟩
  · apply direct_newWrites_append
    rw [e2, hH, hU]
    by_cases hE : (b >>> 16) &&& 7 = (a >>> 16) &&& 7 <;>
      by_cases hHi : (b >>> 8) &&& 0xff = (a >>> 8) &&& 0xff <;>
      simp [hE, hHi, setLowerAddress, outPORTA, outPORTC, hlo, hUw]
  · intro hE
    rw [e2, hH, hU]
    by_cases hHi : (b >>> 8) &&& 0xff = (a >>> 8) &&& 0xff <;>
      simp [hE, hHi, setLowerAddress, outPORTA, outPORTC]
  · intro hHi
    rw [e2, hH, hU]
    by_cases hE : (b >>> 16) &&& 7 = (a >>> 16) &&& 7 <;>
      simp [hE, hHi, setLowerAddress, outPORTA, hUf.2.1]

end DirectPin

/-- C13.  Two consecutive requests `setAddress(a)`, `setAddress(b)` with
`a, b < 2^19`, in both realizations.  The second call is the transfer of the
low byte of `b`, made after a transfer of the high byte exactly when bits
8..15 of `b` differ from those of `a`, itself made after `setUpperAddress`
exactly when bits 16..18 differ; the port assignments it makes are counted
(shift registers) or listed (direct pins) accordingly.  When bits 16..18 agree,
the extended lines are as before and every value assigned to `PORTB` during
the call carries them unchanged (shift registers), `PORTD` and `PORTG` are not
assigned (direct pins).  When bits 8..15 agree, the high shift register and
its output latch are as before and its clock `PC3` has no rising edge during
the call (shift registers), `PORTC` is not assigned (direct pins). -/
theorem setAddress_retransmits_changed_planes :
    (∀ (a b : Nat) (s s1 sU sH s2 : ShiftRegister.Driver), a < 2 ^ 19 → b < 2 ^ 19 →
      s1 = ShiftRegister.setAddress a s →
      sU = (if (b >>> 16) &&& 7 ≠ (a >>> 16) &&& 7
        then { ShiftRegister.setUpperAddress (upperByte b) s1 with lastUpper := upperByte b }
        else s1) →
      sH = (if (b >>> 8) &&& 0xff ≠ (a >>> 8) &&& 0xff
        then { ShiftRegister.setAddressRegister ShiftRegister.ADDR_CLK_HI (hiByte b) sU with
                lastHi := hiByte b }
        else sU) →
      s2 = ShiftRegister.setAddress b s1 →
      s2 = ShiftRegister.setAddressRegister ShiftRegister.ADDR_CLK_LO (loByte b) sH ∧
      (ShiftRegister.newWrites s1 s2).length
        = (if (b >>> 16) &&& 7 ≠ (a >>> 16) &&& 7 then 1 else 0)
          + (if (b >>> 8) &&& 0xff ≠ (a >>> 8) &&& 0xff then 28 else 0) + 28 ∧
      ((b >>> 16) &&& 7 = (a >>> 16) &&& 7 →
        s2.bus.extended = s1.bus.extended ∧
        ∀ q ∈ valuesOn Port.B (ShiftRegister.newWrites s1 s2),
          (q >>> 2) &&& 7 = s1.bus.extended) ∧
      ((b >>> 8) &&& 0xff = (a >>> 8) &&& 0xff →
        s2.bus.hiReg = s1.bus.hiReg ∧ s2.bus.hiOut = s1.bus.hiOut ∧
        ShiftRegister.edgeData 3 s1.bus.PORTC
          (valuesOn Port.C (ShiftRegister.newWrites s1 s2)) = [])) ∧
    (∀ (a b : Nat) (s s1 sU sH s2 : DirectPin.Driver), a < 2 ^ 19 → b < 2 ^ 19 →
      s1 = DirectPin.setAddress a s →
      sU = (if (b >>> 16) &&& 7 ≠ (a >>> 16) &&& 7
        then { DirectPin.setUpperAddress (upperByte b) s1 with lastUpper := upperByte b }
        else s1) →
      sH = (if (b >>> 8) &&& 0xff ≠ (a >>> 8) &&& 0xff
        then { DirectPin.setLowerAddress (hiByte b) true sU with lastHi := hiByte b }
        else sU) →
      s2 = DirectPin.setAddress b s1 →
      s2 = DirectPin.setLowerAddress (loByte b) false sH ∧
      (∃ d g, DirectPin.newWrites s1 s2
        = (if (b >>> 16) &&& 7 ≠ (a >>> 16) &&& 7 then [(Port.D, d), (Port.G, g)] else [])
          ++ (if (b >>> 8) &&& 0xff ≠ (a >>> 8) &&& 0xff
              then [(Port.C, DirectPin.highPattern (hiByte b) % 256)] else [])
          ++ [(Port.A, loByte b)]) ∧
      ((b >>> 16) &&& 7 = (a >>> 16) &&& 7 →
        s2.bus.PORTD = s1.bus.PORTD ∧ s2.bus.PORTG = s1.bus.PORTG) ∧
      ((b >>> 8) &&& 0xff = (a >>> 8) &&& 0xff → s2.bus.PORTC = s1.bus.PORTC)) :=
  ⟨fun a b s s1 sU sH s2 ha hb h1 hU hH h2 =>
      ShiftRegister.second_request a b s s1 sU sH s2 ha hb h1 hU hH h2,
   fun a b s s1 sU sH s2 ha hb h1 hU hH h2 =>
      DirectPin.direct_second_request a b s s1 sU sH s2 ha hb h1 hU hH h2⟩

/-- C13 on the requests `0x12345` then `0x15645` from the power-on states: the
extended bits agree, the high bytes differ. -/
theorem setAddress_retransmits_changed_planes_witness :
    (0x12345 < 2 ^ 19 ∧ 0x15645 < 2 ^ 19) ∧
    (ShiftRegister.newWrites (ShiftRegister.setAddress 0x12345 ShiftRegister.bootState)
      (ShiftRegister.setAddress 0x15645
        (ShiftRegister.setAddress 0x12345 ShiftRegister.bootState))).length = 56 ∧
    (∃ d g, DirectPin.newWrites (DirectPin.setAddress 0x12345 DirectPin.bootState)
      (DirectPin.setAddress 0x15645 (DirectPin.setAddress 0x12345 DirectPin.bootState))
        = (if (0x15645 >>> 16) &&& 7 ≠ (0x12345 >>> 16) &&& 7
            then [(Port.D, d), (Port.G, g)] else [])
          ++ (if (0x15645 >>> 8) &&& 0xff ≠ (0x12345 >>> 8) &&& 0xff
              then [(Port.C, DirectPin.highPattern (hiByte 0x15645) % 256)] else [])
          ++ [(Port.A, loByte 0x15645)]) :=
  ⟨⟨by norm_num, by norm_num⟩,
   (setAddress_retransmits_changed_planes.1 0x12345 0x15645 ShiftRegister.bootState
      _ _ _ _ (by norm_num) (by norm_num) rfl rfl rfl rfl).2.1,
   (setAddress_retransmits_changed_planes.2 0x12345 0x15645 DirectPin.bootState
      _ _ _ _ (by norm_num) (by norm_num) rfl rfl rfl rfl).2.1⟩

/-! ## What `begin()` does for the first request -/

/-- C14, counterexample.  From the power-on state, `begin()` leaves both static
bytes of `setAddress` at 0, a legal byte value, not at a value no byte can
take; the first `setAddress(0)` after `begin()` then transmits the low byte
only.  Shift registers: it makes 28 port assignments (one transfer), none
raising the clock `PC3` of the high register and none to the extended lines
other than the register-clock pulse, where `begin()` itself made 57 for the
three planes.  Direct pins: it assigns `PORTA` only. -/
theorem first_request_after_begin_skips_planes :
    (ShiftRegister.PowerOn ShiftRegister.bootState ∧
      (ShiftRegister.begin ShiftRegister.bootState).lastHi = 0 ∧
      (ShiftRegister.begin ShiftRegister.bootState).lastUpper = 0 ∧
      (ShiftRegister.newWrites (ShiftRegister.begin ShiftRegister.bootState)
        (ShiftRegister.setAddress 0 (ShiftRegister.begin ShiftRegister.bootState))).length
        = 28 ∧
      ShiftRegister.edgeData 3 (ShiftRegister.begin ShiftRegister.bootState).bus.PORTC
        (valuesOn Port.C
          (ShiftRegister.newWrites (ShiftRegister.begin ShiftRegister.bootState)
            (ShiftRegister.setAddress 0 (ShiftRegister.begin ShiftRegister.bootState))))
        = [] ∧
      valuesOn Port.B
          (ShiftRegister.newWrites (ShiftRegister.begin ShiftRegister.bootState)
            (ShiftRegister.setAddress 0 (ShiftRegister.begin ShiftRegister.bootState)))
        = [0x03, 0x23, 0x03]) ∧
    (DirectPin.PowerOn DirectPin.bootState ∧
      (DirectPin.begin DirectPin.bootState).lastHi = 0 ∧
      (DirectPin.begin DirectPin.bootState).lastUpper = 0 ∧
      DirectPin.newWrites (DirectPin.begin DirectPin.bootState)
        (DirectPin.setAddress 0 (DirectPin.begin DirectPin.bootState)) = [(Port.A, 0)]) := by
  refine ⟨⟨⟨rfl, rfl⟩, ?_, ?_, ?_, ?_, ?_⟩, ⟨⟨rfl, rfl⟩, ?_, ?_, ?_⟩⟩
  all_goals decide

theorem ShiftRegister.begin_all_planes (s : ShiftRegister.Driver) (h : ShiftRegister.PowerOn s) :
    ∃ s0 : ShiftRegister.Driver,
      ShiftRegister.begin s = ShiftRegister.setAddress 0 s0 ∧
      ShiftRegister.setAddress 0 s0 =
        ShiftRegister.setAddressRegister ShiftRegister.ADDR_CLK_LO 0
          { ShiftRegister.setAddressRegister ShiftRegister.ADDR_CLK_HI 0
              { ShiftRegister.setUpperAddress 0 s0 with lastUpper := 0 } with lastHi := 0 } ∧
      (ShiftRegister.newWrites s0 (ShiftRegister.begin s)).length = 57 := by
  obtain ⟨s0, e, hh, hu⟩ := ShiftRegister.begin_eq s
  have hCL : ShiftRegister.clockMask ShiftRegister.ADDR_CLK_LO = 16 := by
    simp [ShiftRegister.clockMask, ShiftRegister.ADDR_CLK_LO, ShiftRegister.ADDR_CLK_HI,
      ShiftRegister.ADDR_CLK_LO_MASK]
  have hCH : ShiftRegister.clockMask ShiftRegister.ADDR_CLK_HI = 8 := by
    simp [ShiftRegister.clockMask, ShiftRegister.ADDR_CLK_HI_MASK]
  have e2 : ShiftRegister.setAddress 0 s0 =
      ShiftRegister.setAddressRegister ShiftRegister.ADDR_CLK_LO 0
        { ShiftRegister.setAddressRegister ShiftRegister.ADDR_CLK_HI 0
            { ShiftRegister.setUpperAddress 0 s0 with lastUpper := 0 } with lastHi := 0 } := by
    have hu0 : ¬ 0 = s0.lastUpper := by
      rw [hu, h.2]
      decide
    have hh0 : ¬ 0 = s0.lastHi := by
      rw [hh, h.1]
      decide
    unfold ShiftRegister.setAddress
    simp [hu0, hh0, (ShiftRegister.setUpperAddress_writes 0 s0).2,
      (by decide : upperByte 0 = 0), (by decide : hiByte 0 = 0), (by decide : loByte 0 = 0)]
  refine ⟨s0, e, e2, ?_⟩
  rw [e, e2]
  rw [ShiftRegister.newWrites_append s0 _
    ([(Port.B, ((s0.bus.PORTB &&& 0xE3) ||| ((0 <<< 2) &&& 0x1c)) % 256)]
      ++ ShiftRegister.onPort Port.C (ShiftRegister.registerWrites 8 0
          (ShiftRegister.setUpperAddress 0 s0).bus.PORTC)
      ++ ShiftRegister.onPort Port.B (ShiftRegister.latchWrites
          (ShiftRegister.setUpperAddress 0 s0).bus.PORTB)
      ++ ShiftRegister.onPort Port.C (ShiftRegister.registerWrites 16 0
          (ShiftRegister.setAddressRegister ShiftRegister.ADDR_CLK_HI 0
            { ShiftRegister.setUpperAddress 0 s0 with lastUpper := 0 }).bus.PORTC)
      ++ ShiftRegister.onPort Port.B (ShiftRegister.latchWrites
          (ShiftRegister.setAddressRegister ShiftRegister.ADDR_CLK_HI 0
            { ShiftRegister.setUpperAddress 0 s0 with lastUpper := 0 }).bus.PORTB))
    (by simp only [ShiftRegister.setAddressRegister_writes, hCL, hCH,
      (ShiftRegister.setUpperAddress_writes 0 s0).1, List.append_assoc])]
  simp [ShiftRegister.onPort_length, ShiftRegister.registerWrites_length,
    ShiftRegister.latchWrites_length]

theorem DirectPin.direct_begin_all_planes (s : DirectPin.Driver) (h : DirectPin.PowerOn s) :
    ∃ s0 : DirectPin.Driver,
      DirectPin.begin s = DirectPin.setAddress 0 s0 ∧
      DirectPin.setAddress 0 s0 =
        DirectPin.setLowerAddress 0 false
          { DirectPin.setLowerAddress 0 true
              { DirectPin.setUpperAddress 0 s0 with lastUpper := 0 } with lastHi := 0 } ∧
      (∃ d g, DirectPin.newWrites s0 (DirectPin.begin s)
        = [(Port.D, d), (Port.G, g), (Port.C, 0), (Port.A, 0)]) := by
  obtain ⟨s0, e, hh, hu⟩ := DirectPin.direct_begin_eq s
  have e2 : DirectPin.setAddress 0 s0 =
      DirectPin.setLowerAddress 0 false
        { DirectPin.setLowerAddress 0 true
            { DirectPin.setUpperAddress 0 s0 with lastUpper := 0 } with lastHi := 0 } := by
    have hu0 : ¬ 0 = s0.lastUpper := by
      rw [hu, h.2]
      decide
    have hh0 : ¬ 0 = s0.lastHi := by
      rw [hh, h.1]
      decide
    unfold DirectPin.setAddress
    simp [hu0, hh0, (DirectPin.direct_upper_frame 0 s0).2.2.1,
      (by decide : upperByte 0 = 0), (by decide : hiByte 0 = 0), (by decide : loByte 0 = 0)]
  refine ⟨s0, e, e2, (DirectPin.setUpperAddress 0 s0).bus.PORTD,
    (DirectPin.setUpperAddress 0 s0).bus.PORTG, ?_⟩
  apply DirectPin.direct_newWrites_append
  rw [e, e2]
  simp [DirectPin.setLowerAddress, DirectPin.outPORTA, DirectPin.outPORTC,
    DirectPin.direct_setUpperAddress_writes, (by decide : DirectPin.highPattern 0 = 0)]

/-- C14, amended.  When `begin()` runs at power-on, the two static bytes of
`setAddress` hold their initializer `0xca`; `begin()` itself requests address
0, and that call, the first `setAddress` call, transmits all three planes:
`setUpperAddress(0)`, then the high byte 0, then the low byte 0 (57 port
assignments on the shift-register realization; `PORTD`, `PORTG`, `PORTC`,
`PORTA` on the direct-pin one).  It leaves both static bytes at 0, the planes
then latched, so that every later request is presented, whatever its address,
address 0 included. -/
theorem begin_transmits_all_planes :
    (∀ s : ShiftRegister.Driver, ShiftRegister.PowerOn s →
      (∃ s0 : ShiftRegister.Driver,
        ShiftRegister.begin s = ShiftRegister.setAddress 0 s0 ∧
        ShiftRegister.setAddress 0 s0 =
          ShiftRegister.setAddressRegister ShiftRegister.ADDR_CLK_LO 0
            { ShiftRegister.setAddressRegister ShiftRegister.ADDR_CLK_HI 0
                { ShiftRegister.setUpperAddress 0 s0 with lastUpper := 0 } with lastHi := 0 } ∧
        (ShiftRegister.newWrites s0 (ShiftRegister.begin s)).length = 57) ∧
      (ShiftRegister.begin s).lastHi = 0 ∧ (ShiftRegister.begin s).lastUpper = 0 ∧
      ShiftRegister.Presents (ShiftRegister.begin s) 0 ∧
      ∀ as : List Nat,
        ShiftRegister.Presents (ShiftRegister.run as (ShiftRegister.begin s))
          (as.getLast?.getD 0)) ∧
    (∀ s : DirectPin.Driver, DirectPin.PowerOn s →
      (∃ s0 : DirectPin.Driver,
        DirectPin.begin s = DirectPin.setAddress 0 s0 ∧
        DirectPin.setAddress 0 s0 =
          DirectPin.setLowerAddress 0 false
            { DirectPin.setLowerAddress 0 true
                { DirectPin.setUpperAddress 0 s0 with lastUpper := 0 } with lastHi := 0 } ∧
        (∃ d g, DirectPin.newWrites s0 (DirectPin.begin s)
          = [(Port.D, d), (Port.G, g), (Port.C, 0), (Port.A, 0)])) ∧
      (DirectPin.begin s).lastHi = 0 ∧ (DirectPin.begin s).lastUpper = 0 ∧
      DirectPin.Presents (DirectPin.begin s) 0 ∧
      ∀ as : List Nat,
        DirectPin.Presents (DirectPin.run as (DirectPin.begin s)) (as.getLast?.getD 0)) := by
  constructor
  · intro s h
    obtain ⟨s0, e, _, _⟩ := ShiftRegister.begin_eq s
    obtain ⟨_, _, hu, hh⟩ := ShiftRegister.setAddress_last 0 s0
    have hp := ShiftRegister.begin_presents s h
    refine ⟨ShiftRegister.begin_all_planes s h, ?_, ?_, hp,
      fun as => ShiftRegister.run_presents as 0 _ hp⟩
    · rw [e, hh]
      rfl
    · rw [e, hu]
      rfl
  · intro s h
    obtain ⟨s0, e, _, _⟩ := DirectPin.direct_begin_eq s
    obtain ⟨hu, hh⟩ := DirectPin.direct_setAddress_last 0 s0
    have hp := DirectPin.direct_begin_presents s h
    refine ⟨DirectPin.direct_begin_all_planes s h, ?_, ?_, hp,
      fun as => DirectPin.direct_run_presents as 0 _ hp⟩
    · rw [e, hh]
      rfl
    · rw [e, hu]
      rfl

/-- C14, amended, on the power-on states: the request `setAddress(0)` made
right after `begin()` is presented. -/
theorem begin_transmits_all_planes_witness :
    (ShiftRegister.PowerOn ShiftRegister.bootState ∧
      (ShiftRegister.begin ShiftRegister.bootState).lastHi = 0 ∧
      (ShiftRegister.begin ShiftRegister.bootState).lastUpper = 0 ∧
      ShiftRegister.Presents
        (ShiftRegister.run [0] (ShiftRegister.begin ShiftRegister.bootState)) 0) ∧
    (DirectPin.PowerOn DirectPin.bootState ∧
      (DirectPin.begin DirectPin.bootState).lastHi = 0 ∧
      (DirectPin.begin DirectPin.bootState).lastUpper = 0 ∧
      DirectPin.Presents (DirectPin.run [0] (DirectPin.begin DirectPin.bootState)) 0) :=
  have h1 := begin_transmits_all_planes.1 ShiftRegister.bootState ⟨rfl, rfl⟩
  have h2 := begin_transmits_all_planes.2 DirectPin.bootState ⟨rfl, rfl⟩
  ⟨⟨⟨rfl, rfl⟩, h1.2.1, h1.2.2.1, h1.2.2.2.2 [0]⟩,
   ⟨⟨rfl, rfl⟩, h2.2.1, h2.2.2.1, h2.2.2.2.2 [0]⟩⟩

/-! ## The data bus and the address bus on shared ports -/

namespace ShiftRegister

/-- On the Uno layout `writeDataBus` changes the data-pin bits of `PORTB` and
`PORTD` and nothing else: the register clock `PB5` keeps its level, so the
output latches keep their contents. -/
theorem writeDataBus_frame (v : Nat) (hv : v < 256) (s : Driver) :
    KeepsBits dataPinB s.bus.PORTB (writeDataBus v s).bus.PORTB ∧
    KeepsBits dataPinD s.bus.PORTD (writeDataBus v s).bus.PORTD ∧
    (writeDataBus v s).bus
      = { s.bus with PORTB := (writeDataBus v s).bus.PORTB,
                     PORTD := (writeDataBus v s).bus.PORTD } ∧
    (writeDataBus v s).lastHi = s.lastHi ∧ (writeDataBus v s).lastUpper = s.lastUpper := by
  obtain ⟨hB, hD⟩ := writeDataBus_ports v s
  have hhi : ∀ k, 2 ≤ k → v.testBit (6 + k) = false :=
    fun k hk => testBit_of_lt_256 v (6 + k) hv (by omega)
  refine ⟨?_, ?_, ?_, ?_, ?_⟩
  · intro k hk hn
    have hk2 : 2 ≤ k := Nat.not_lt.1 hn
    rw [hB]
    have := hhi k hk2
    interval_cases k <;>
      simp_all [testBit_mod256, Nat.testBit_or, Nat.testBit_and, Nat.testBit_shiftRight,
        (by decide : Nat.testBit 252 2 = true), (by decide : Nat.testBit 252 3 = true),
        (by decide : Nat.testBit 252 4 = true), (by decide : Nat.testBit 252 5 = true),
        (by decide : Nat.testBit 252 6 = true), (by decide : Nat.testBit 252 7 = true)]
  · intro k hk hn
    have hk2 : k < 2 := by
      by_contra hc
      exact hn ⟨Nat.not_lt.1 hc, hk⟩
    rw [hD]
    interval_cases k <;>
      simp [-Nat.testBit_zero, testBit_mod256, Nat.testBit_or, Nat.testBit_and,
        Nat.testBit_shiftLeft, (by decide : Nat.testBit 3 0 = true), (by decide : Nat.testBit 3 1 = true)]
  · have h11 := hhi 5 (by norm_num)
    simp [writeDataBus, outPORTB, outPORTD, Bus.writePORTB, rising, testBit_mod256,
      Nat.testBit_or, Nat.testBit_and, Nat.testBit_shiftRight, h11,
      (by decide : Nat.testBit 252 5 = true)]
  · simp [writeDataBus, outPORTB, outPORTD]
  · simp [writeDataBus, outPORTB, outPORTD]

/-- On the Uno layout `setUpperAddress` changes bits 2 to 4 of `PORTB` and
nothing else. -/
theorem setUpperAddress_frame (u : Nat) (s : Driver) :
    KeepsBits (fun k => 2 ≤ k ∧ k ≤ 4) s.bus.PORTB (setUpperAddress u s).bus.PORTB ∧
    (setUpperAddress u s).bus
      = { s.bus with PORTB := (setUpperAddress u s).bus.PORTB } ∧
    (setUpperAddress u s).lastHi = s.lastHi ∧
    (setUpperAddress u s).lastUpper = s.lastUpper := by
  have hb := setUpperAddress_bus u s
  refine ⟨?_, ?_, ?_, ?_⟩
  · intro k hk hn
    rw [hb]
    have hcases : k = 0 ∨ k = 1 ∨ k = 5 ∨ k = 6 ∨ k = 7 := by omega
    rcases hcases with rfl | rfl | rfl | rfl | rfl <;>
      simp [-Nat.testBit_zero, testBit_mod256, Nat.testBit_or, Nat.testBit_and,
        (by decide : Nat.testBit 227 0 = true), (by decide : Nat.testBit 227 1 = true),
        (by decide : Nat.testBit 227 5 = true), (by decide : Nat.testBit 227 6 = true),
        (by decide : Nat.testBit 227 7 = true), (by decide : Nat.testBit 28 0 = false),
        (by decide : Nat.testBit 28 1 = false), (by decide : Nat.testBit 28 5 = false),
        (by decide : Nat.testBit 28 6 = false), (by decide : Nat.testBit 28 7 = false)]
  · rw [hb]
  · simp [setUpperAddress, outPORTB]
  · simp [setUpperAddress, outPORTB]

theorem clockMask_cases (clkPin : Nat) :
    clockMask clkPin = 8 ∨ clockMask clkPin = 16 ∨ clockMask clkPin = 0 := by
  unfold clockMask
  split
  · exact Or.inl rfl
  · split
    · exact Or.inr (Or.inl rfl)
    · exact Or.inr (Or.inr rfl)

theorem getLastD_mem_cons (xs : List Nat) : ∀ x a, (x :: xs).getLastD a ∈ x :: xs := by
  induction xs with
  | nil =>
    intro x a
    simp
  | cons y ys ih =>
    intro x a
    rw [List.getLastD_cons]
    exact List.mem_cons_of_mem _ (ih y x)

theorem low_high_cases {k : Nat} (hk : k < 8) (hn : ¬ (3 ≤ k ∧ k ≤ 5)) :
    k = 0 ∨ k = 1 ∨ k = 2 ∨ k = 6 ∨ k = 7 := by omega

/-- One loop iteration assigns `PORTC` values that differ from the one it
finds in bits 3 to 5 only. -/
theorem bitWrites_keeps (addr P : Nat) {mask k : Nat}
    (hm : mask = 8 ∨ mask = 16 ∨ mask = 0) (hk : k < 8) (hn : ¬ (3 ≤ k ∧ k ≤ 5)) :
    ∀ q ∈ bitWrites addr mask P, q.testBit k = P.testBit k := by
  intro q hq
  simp only [bitWrites, List.mem_cons, List.mem_singleton, List.mem_nil_iff, or_false] at hq
  rcases low_high_cases hk hn with rfl | rfl | rfl | rfl | rfl <;>
    rcases hm with rfl | rfl | rfl <;>
    rcases hq with rfl | rfl | rfl <;>
    by_cases hb : addr &&& 0x80 = 0 <;>
    simp [-Nat.testBit_zero, hb, not8, ADDR_DATA_MASK, testBit_mod256, Nat.testBit_or,
      Nat.testBit_and,
        (by decide : Nat.testBit 32 0 = false), (by decide : Nat.testBit 32 1 = false),
        (by decide : Nat.testBit 32 2 = false), (by decide : Nat.testBit 32 6 = false),
        (by decide : Nat.testBit 32 7 = false), (by decide : Nat.testBit 223 0 = true),
        (by decide : Nat.testBit 223 1 = true), (by decide : Nat.testBit 223 2 = true),
        (by decide : Nat.testBit 223 6 = true), (by decide : Nat.testBit 223 7 = true),
        (by decide : Nat.testBit 8 0 = false), (by decide : Nat.testBit 8 1 = false),
        (by decide : Nat.testBit 8 2 = false), (by decide : Nat.testBit 8 6 = false),
        (by decide : Nat.testBit 8 7 = false), (by decide : Nat.testBit 247 0 = true),
        (by decide : Nat.testBit 247 1 = true), (by decide : Nat.testBit 247 2 = true),
        (by decide : Nat.testBit 247 6 = true), (by decide : Nat.testBit 247 7 = true),
        (by decide : Nat.testBit 16 0 = false), (by decide : Nat.testBit 16 1 = false),
        (by decide : Nat.testBit 16 2 = false), (by decide : Nat.testBit 16 6 = false),
        (by decide : Nat.testBit 16 7 = false), (by decide : Nat.testBit 239 0 = true),
        (by decide : Nat.testBit 239 1 = true), (by decide : Nat.testBit 239 2 = true),
        (by decide : Nat.testBit 239 6 = true), (by decide : Nat.testBit 239 7 = true),
        (by decide : Nat.testBit 0 0 = false), (by decide : Nat.testBit 0 1 = false),
        (by decide : Nat.testBit 0 2 = false), (by decide : Nat.testBit 0 6 = false),
        (by decide : Nat.testBit 0 7 = false), (by decide : Nat.testBit 255 0 = true),
        (by decide : Nat.testBit 255 1 = true), (by decide : Nat.testBit 255 2 = true),
        (by decide : Nat.testBit 255 6 = true), (by decide : Nat.testBit 255 7 = true)]

theorem loopWrites_keeps {mask k : Nat} (hm : mask = 8 ∨ mask = 16 ∨ mask = 0) (hk : k < 8)
    (hn : ¬ (3 ≤ k ∧ k ≤ 5)) (n : Nat) :
    ∀ (addr P : Nat), ∀ q ∈ loopWrites n addr mask P, q.testBit k = P.testBit k := by
  induction n with
  | zero =>
    intro addr P q hq
    simp [loopWrites] at hq
  | succ n ih =>
    intro addr P q hq
    rw [loopWrites, List.mem_append] at hq
    rcases hq with hq | hq
    · exact bitWrites_keeps addr P hm hk hn q hq
    · have hlast : ((bitWrites addr mask P).getLastD P).testBit k = P.testBit k :=
        bitWrites_keeps addr P hm hk hn _ (getLastD_mem_cons _ _ _)
      exact (ih _ _ q hq).trans hlast

theorem registerWrites_keeps {mask k : Nat} (hm : mask = 8 ∨ mask = 16 ∨ mask = 0) (hk : k < 8)
    (hn : ¬ (3 ≤ k ∧ k ≤ 5)) (v P : Nat) :
    ∀ q ∈ registerWrites mask v P, q.testBit k = P.testBit k := by
  have h0 : ((P &&& not8 mask) % 256).testBit k = P.testBit k := by
    rcases low_high_cases hk hn with rfl | rfl | rfl | rfl | rfl <;>
      rcases hm with rfl | rfl | rfl <;>
      simp [-Nat.testBit_zero, not8, testBit_mod256, Nat.testBit_and,
        (by decide : Nat.testBit 32 0 = false), (by decide : Nat.testBit 32 1 = false),
        (by decide : Nat.testBit 32 2 = false), (by decide : Nat.testBit 32 6 = false),
        (by decide : Nat.testBit 32 7 = false), (by decide : Nat.testBit 223 0 = true),
        (by decide : Nat.testBit 223 1 = true), (by decide : Nat.testBit 223 2 = true),
        (by decide : Nat.testBit 223 6 = true), (by decide : Nat.testBit 223 7 = true),
        (by decide : Nat.testBit 8 0 = false), (by decide : Nat.testBit 8 1 = false),
        (by decide : Nat.testBit 8 2 = false), (by decide : Nat.testBit 8 6 = false),
        (by decide : Nat.testBit 8 7 = false), (by decide : Nat.testBit 247 0 = true),
        (by decide : Nat.testBit 247 1 = true), (by decide : Nat.testBit 247 2 = true),
        (by decide : Nat.testBit 247 6 = true), (by decide : Nat.testBit 247 7 = true),
        (by decide : Nat.testBit 16 0 = false), (by decide : Nat.testBit 16 1 = false),
        (by decide : Nat.testBit 16 2 = false), (by decide : Nat.testBit 16 6 = false),
        (by decide : Nat.testBit 16 7 = false), (by decide : Nat.testBit 239 0 = true),
        (by decide : Nat.testBit 239 1 = true), (by decide : Nat.testBit 239 2 = true),
        (by decide : Nat.testBit 239 6 = true), (by decide : Nat.testBit 239 7 = true),
        (by decide : Nat.testBit 0 0 = false), (by decide : Nat.testBit 0 1 = false),
        (by decide : Nat.testBit 0 2 = false), (by decide : Nat.testBit 0 6 = false),
        (by decide : Nat.testBit 0 7 = false), (by decide : Nat.testBit 255 0 = true),
        (by decide : Nat.testBit 255 1 = true), (by decide : Nat.testBit 255 2 = true),
        (by decide : Nat.testBit 255 6 = true), (by decide : Nat.testBit 255 7 = true)]
  intro q hq
  rw [registerWrites, List.mem_cons] at hq
  rcases hq with rfl | hq
  · exact h0
  · exact (loopWrites_keeps hm hk hn 8 v _ q hq).trans h0

theorem latchWrites_keeps (Q : Nat) {k : Nat} (hk : k < 8) (hn : ¬ k = 5) :
    ∀ q ∈ latchWrites Q, q.testBit k = Q.testBit k := by
  intro q hq
  simp only [latchWrites, List.mem_cons, List.mem_singleton, List.mem_nil_iff, or_false] at hq
  have hc : k = 0 ∨ k = 1 ∨ k = 2 ∨ k = 3 ∨ k = 4 ∨ k = 6 ∨ k = 7 := by omega
  rcases hc with rfl | rfl | rfl | rfl | rfl | rfl | rfl <;>
    rcases hq with rfl | rfl | rfl <;>
    simp [-Nat.testBit_zero, not8, RCLK_595_MASK, testBit_mod256, Nat.testBit_or,
      Nat.testBit_and,
        (by decide : Nat.testBit 32 0 = false), (by decide : Nat.testBit 32 1 = false),
        (by decide : Nat.testBit 32 2 = false), (by decide : Nat.testBit 32 3 = false),
        (by decide : Nat.testBit 32 4 = false), (by decide : Nat.testBit 32 6 = false),
        (by decide : Nat.testBit 32 7 = false), (by decide : Nat.testBit 223 0 = true),
        (by decide : Nat.testBit 223 1 = true), (by decide : Nat.testBit 223 2 = true),
        (by decide : Nat.testBit 223 3 = true), (by decide : Nat.testBit 223 4 = true),
        (by decide : Nat.testBit 223 6 = true), (by decide : Nat.testBit 223 7 = true)]

theorem shiftBit_regs (addr mask : Nat) (s : Driver) :
    (shiftBit addr mask s).bus.DDRB = s.bus.DDRB ∧ (shiftBit addr mask s).bus.DDRC = s.bus.DDRC ∧
    (shiftBit addr mask s).bus.DDRD = s.bus.DDRD ∧
    (shiftBit addr mask s).bus.PORTD = s.bus.PORTD := by
  by_cases h : addr &&& 0x80 = 0
  · simp [shiftBit, outPORTC, Bus.writePORTC, h]
  · simp [shiftBit, outPORTC, Bus.writePORTC, h]

theorem shiftLoop_regs (mask : Nat) (n : Nat) :
    ∀ (addr : Nat) (s : Driver),
      (shiftLoop n addr mask s).bus.DDRB = s.bus.DDRB ∧
      (shiftLoop n addr mask s).bus.DDRC = s.bus.DDRC ∧
      (shiftLoop n addr mask s).bus.DDRD = s.bus.DDRD ∧
      (shiftLoop n addr mask s).bus.PORTD = s.bus.PORTD := by
  induction n with
  | zero =>
    intro addr s
    exact ⟨rfl, rfl, rfl, rfl⟩
  | succ n ih =>
    intro addr s
    obtain ⟨a1, a2, a3, a4⟩ := ih ((addr <<< 1) % 256) (shiftBit addr mask s)
    obtain ⟨b1, b2, b3, b4⟩ := shiftBit_regs addr mask s
    rw [shiftLoop]
    exact ⟨a1.trans b1, a2.trans b2, a3.trans b3, a4.trans b4⟩

/-- The function `setAddressRegister` changes bits 3 to 5 of `PORTC` and bit 5
of `PORTB` only, at every assignment it makes; it assigns no other port. -/
theorem setAddressRegister_ports (clkPin v : Nat) (s : Driver) :
    KeepsBits (fun k => 3 ≤ k ∧ k ≤ 5) s.bus.PORTC (setAddressRegister clkPin v s).bus.PORTC ∧
    KeepsBits (fun k => k = 5) s.bus.PORTB (setAddressRegister clkPin v s).bus.PORTB ∧
    ((setAddressRegister clkPin v s).bus.PORTD = s.bus.PORTD ∧
      (setAddressRegister clkPin v s).bus.DDRB = s.bus.DDRB ∧
      (setAddressRegister clkPin v s).bus.DDRC = s.bus.DDRC ∧
      (setAddressRegister clkPin v s).bus.DDRD = s.bus.DDRD) ∧
    (∀ q ∈ valuesOn Port.C (newWrites s (setAddressRegister clkPin v s)),
      KeepsBits (fun k => 3 ≤ k ∧ k ≤ 5) s.bus.PORTC q) ∧
    (∀ q ∈ valuesOn Port.B (newWrites s (setAddressRegister clkPin v s)),
      KeepsBits (fun k => k = 5) s.bus.PORTB q) ∧
    (∀ p, p ≠ Port.B → p ≠ Port.C →
      valuesOn p (newWrites s (setAddressRegister clkPin v s)) = []) := by
  have hm := clockMask_cases clkPin
  have hw := shiftLoop_writes (clockMask clkPin) 8 v
    (outPORTC (s.bus.PORTC &&& not8 (clockMask clkPin)) s)
  have hb := shiftLoop_portB (clockMask clkPin) 8 v
    (outPORTC (s.bus.PORTC &&& not8 (clockMask clkPin)) s)
  have hr := shiftLoop_regs (clockMask clkPin) 8 v
    (outPORTC (s.bus.PORTC &&& not8 (clockMask clkPin)) s)
  have hP0 : (outPORTC (s.bus.PORTC &&& not8 (clockMask clkPin)) s).bus.PORTC
      = (s.bus.PORTC &&& not8 (clockMask clkPin)) % 256 := rfl
  have hQ0 : (outPORTC (s.bus.PORTC &&& not8 (clockMask clkPin)) s).bus.PORTB
      = s.bus.PORTB := rfl
  rw [hP0] at hw
  rw [hQ0] at hb
  have hC : (setAddressRegister clkPin v s).bus.PORTC
      = (registerWrites (clockMask clkPin) v s.bus.PORTC).getLastD s.bus.PORTC := by
    unfold setAddressRegister
    simp only [outPORTB, Bus.writePORTB, registerWrites, List.getLastD_cons]
    exact hw.2
  have hB : (setAddressRegister clkPin v s).bus.PORTB
      = (latchWrites s.bus.PORTB).getLastD s.bus.PORTB := by
    unfold setAddressRegister
    simp only [outPORTB, Bus.writePORTB, hb, latchWrites]
    rfl
  have hN : newWrites s (setAddressRegister clkPin v s)
      = onPort Port.C (registerWrites (clockMask clkPin) v s.bus.PORTC)
        ++ onPort Port.B (latchWrites s.bus.PORTB) := by
    apply newWrites_append
    rw [setAddressRegister_writes, List.append_assoc]
  refine ⟨?_, ?_, ?_, ?_, ?_, ?_⟩
  · intro k hk hn
    rw [hC]
    exact registerWrites_keeps hm hk hn v _ _ (getLastD_mem_cons _ _ _)
  · intro k hk hn
    rw [hB]
    exact latchWrites_keeps _ hk hn _ (getLastD_mem_cons _ _ _)
  · unfold setAddressRegister
    simp only [outPORTB, Bus.writePORTB]
    exact ⟨hr.2.2.2, hr.1, hr.2.1, hr.2.2.1⟩
  · intro q hq k hk hn
    rw [hN, valuesOn_append, valuesOn_onPort_same, valuesOn_onPort_other _ _ (by decide),
      List.append_nil] at hq
    exact registerWrites_keeps hm hk hn v _ q hq
  · intro q hq k hk hn
    rw [hN, valuesOn_append, valuesOn_onPort_other _ _ (by decide), valuesOn_onPort_same,
      List.nil_append] at hq
    exact latchWrites_keeps _ hk hn q hq
  · intro p hpB hpC
    rw [hN, valuesOn_append, valuesOn_onPort_other _ _ (Ne.symm hpC),
      valuesOn_onPort_other _ _ (Ne.symm hpB)]
    rfl

end ShiftRegister

namespace DirectPin

/-- On the Mega layout `writeDataBus` changes the data-pin bits of `PORTE`,
`PORTG` and `PORTH` and nothing else. -/
theorem direct_writeDataBus_frame (v : Nat) (s : Driver) :
    KeepsBits dataPinE s.bus.PORTE (writeDataBus v s).bus.PORTE ∧
    KeepsBits dataPinG s.bus.PORTG (writeDataBus v s).bus.PORTG ∧
    KeepsBits dataPinH s.bus.PORTH (writeDataBus v s).bus.PORTH ∧
    (writeDataBus v s).bus
      = { s.bus with PORTE := (writeDataBus v s).bus.PORTE,
                     PORTG := (writeDataBus v s).bus.PORTG,
                     PORTH := (writeDataBus v s).bus.PORTH } ∧
    (writeDataBus v s).lastHi = s.lastHi ∧ (writeDataBus v s).lastUpper = s.lastUpper := by
  refine ⟨?_, ?_, ?_, ?_, ?_, ?_⟩
  · intro k hk hn
    have hc : k = 0 ∨ k = 1 ∨ k = 2 ∨ k = 6 ∨ k = 7 := by
      unfold dataPinE at hn
      omega
    rw [direct_writeDataBus_E]
    rcases hc with rfl | rfl | rfl | rfl | rfl <;>
      simp only [
        (by decide : Nat.testBit 199 0 = true), (by decide : Nat.testBit 199 1 = true),
        (by decide : Nat.testBit 199 2 = true), (by decide : Nat.testBit 199 6 = true),
        (by decide : Nat.testBit 199 7 = true), (by decide : Nat.testBit 16 0 = false),
        (by decide : Nat.testBit 16 1 = false), (by decide : Nat.testBit 16 2 = false),
        (by decide : Nat.testBit 16 6 = false), (by decide : Nat.testBit 16 7 = false),
        (by decide : Nat.testBit 32 0 = false), (by decide : Nat.testBit 32 1 = false),
        (by decide : Nat.testBit 32 2 = false), (by decide : Nat.testBit 32 6 = false),
        (by decide : Nat.testBit 32 7 = false), (by decide : Nat.testBit 8 0 = false),
        (by decide : Nat.testBit 8 1 = false), (by decide : Nat.testBit 8 2 = false),
        (by decide : Nat.testBit 8 6 = false), (by decide : Nat.testBit 8 7 = false),
        Bool.and_false, Bool.and_true, Bool.or_false, Bool.true_and, decide_True, Nat.reduceLT]
  · intro k hk hn
    have hc : k = 0 ∨ k = 1 ∨ k = 2 ∨ k = 3 ∨ k = 4 ∨ k = 6 ∨ k = 7 := by
      unfold dataPinG at hn
      omega
    rw [direct_writeDataBus_G]
    rcases hc with rfl | rfl | rfl | rfl | rfl | rfl | rfl <;>
      simp only [
        (by decide : Nat.testBit 223 0 = true), (by decide : Nat.testBit 223 1 = true),
        (by decide : Nat.testBit 223 2 = true), (by decide : Nat.testBit 223 3 = true),
        (by decide : Nat.testBit 223 4 = true), (by decide : Nat.testBit 223 6 = true),
        (by decide : Nat.testBit 223 7 = true), (by decide : Nat.testBit 32 0 = false),
        (by decide : Nat.testBit 32 1 = false), (by decide : Nat.testBit 32 2 = false),
        (by decide : Nat.testBit 32 3 = false), (by decide : Nat.testBit 32 4 = false),
        (by decide : Nat.testBit 32 6 = false), (by decide : Nat.testBit 32 7 = false),
        Bool.and_false, Bool.and_true, Bool.or_false, Bool.true_and, decide_True, Nat.reduceLT]
  · intro k hk hn
    have hc : k = 0 ∨ k = 1 ∨ k = 2 ∨ k = 7 := by
      unfold dataPinH at hn
      omega
    rw [direct_writeDataBus_H]
    rcases hc with rfl | rfl | rfl | rfl <;>
      simp only [
        (by decide : Nat.testBit 135 0 = true), (by decide : Nat.testBit 135 1 = true),
        (by decide : Nat.testBit 135 2 = true), (by decide : Nat.testBit 135 7 = true),
        (by decide : Nat.testBit 8 0 = false), (by decide : Nat.testBit 8 1 = false),
        (by decide : Nat.testBit 8 2 = false), (by decide : Nat.testBit 8 7 = false),
        (by decide : Nat.testBit 16 0 = false), (by decide : Nat.testBit 16 1 = false),
        (by decide : Nat.testBit 16 2 = false), (by decide : Nat.testBit 16 7 = false),
        (by decide : Nat.testBit 32 0 = false), (by decide : Nat.testBit 32 1 = false),
        (by decide : Nat.testBit 32 2 = false), (by decide : Nat.testBit 32 7 = false),
        (by decide : Nat.testBit 64 0 = false), (by decide : Nat.testBit 64 1 = false),
        (by decide : Nat.testBit 64 2 = false), (by decide : Nat.testBit 64 7 = false),
        Bool.and_false, Bool.and_true, Bool.or_false, Bool.true_and, decide_True, Nat.reduceLT]
  · simp [writeDataBus, outPORTE, outPORTG, outPORTH]
  · simp [writeDataBus, outPORTE, outPORTG, outPORTH]
  · simp [writeDataBus, outPORTE, outPORTG, outPORTH]

/-- On the Mega layout `setUpperAddress` changes `PD7`, `PG1`, `PG2` and
nothing else. -/
theorem direct_setUpperAddress_frame (u : Nat) (s : Driver) :
    KeepsBits (fun k => k = 7) s.bus.PORTD (setUpperAddress u s).bus.PORTD ∧
    KeepsBits (fun k => k = 1 ∨ k = 2) s.bus.PORTG (setUpperAddress u s).bus.PORTG ∧
    (setUpperAddress u s).bus
      = { s.bus with PORTD := (setUpperAddress u s).bus.PORTD,
                     PORTG := (setUpperAddress u s).bus.PORTG } ∧
    (setUpperAddress u s).lastHi = s.lastHi ∧
    (setUpperAddress u s).lastUpper = s.lastUpper := by
  refine ⟨?_, ?_, ?_, ?_, ?_⟩
  · intro k hk hn
    have hc : k = 0 ∨ k = 1 ∨ k = 2 ∨ k = 3 ∨ k = 4 ∨ k = 5 ∨ k = 6 := by omega
    rcases bit_cases u 0x01 with h1 | h1 <;>
      simp only [setUpperAddress, h1, ne_eq, not_true_eq_false, not_false_eq_true,
        if_true, if_false] <;>
      rcases hc with rfl | rfl | rfl | rfl | rfl | rfl | rfl <;>
      simp [-Nat.testBit_zero, outPORTD, outPORTG, not8, ADDR_MASK_D,
        ShiftRegister.testBit_mod256, Nat.testBit_or, Nat.testBit_and,
        (by decide : Nat.testBit 128 0 = false), (by decide : Nat.testBit 128 1 = false),
        (by decide : Nat.testBit 128 2 = false), (by decide : Nat.testBit 128 3 = false),
        (by decide : Nat.testBit 128 4 = false), (by decide : Nat.testBit 128 5 = false),
        (by decide : Nat.testBit 128 6 = false), (by decide : Nat.testBit 127 0 = true),
        (by decide : Nat.testBit 127 1 = true), (by decide : Nat.testBit 127 2 = true),
        (by decide : Nat.testBit 127 3 = true), (by decide : Nat.testBit 127 4 = true),
        (by decide : Nat.testBit 127 5 = true), (by decide : Nat.testBit 127 6 = true)]
  · intro k hk hn
    have hc : k = 0 ∨ k = 3 ∨ k = 4 ∨ k = 5 ∨ k = 6 ∨ k = 7 := by omega
    rcases bit_cases u 0x01 with h1 | h1 <;>
      rcases bit_cases u 0x02 with h2 | h2 <;>
      rcases bit_cases u 0x04 with h4 | h4 <;>
      simp only [setUpperAddress, h1, h2, h4, ne_eq, not_true_eq_false, not_false_eq_true,
        if_true, if_false] <;>
      rcases hc with rfl | rfl | rfl | rfl | rfl | rfl <;>
      simp [-Nat.testBit_zero, outPORTD, outPORTG, not8, ADDR_MASK_G,
        ShiftRegister.testBit_mod256, Nat.testBit_or, Nat.testBit_and,
        (by decide : Nat.testBit 249 0 = true), (by decide : Nat.testBit 249 3 = true),
        (by decide : Nat.testBit 249 4 = true), (by decide : Nat.testBit 249 5 = true),
        (by decide : Nat.testBit 249 6 = true), (by decide : Nat.testBit 249 7 = true),
        (by decide : Nat.testBit 4 0 = false), (by decide : Nat.testBit 4 3 = false),
        (by decide : Nat.testBit 4 4 = false), (by decide : Nat.testBit 4 5 = false),
        (by decide : Nat.testBit 4 6 = false), (by decide : Nat.testBit 4 7 = false),
        (by decide : Nat.testBit 2 0 = false), (by decide : Nat.testBit 2 3 = false),
        (by decide : Nat.testBit 2 4 = false), (by decide : Nat.testBit 2 5 = false),
        (by decide : Nat.testBit 2 6 = false), (by decide : Nat.testBit 2 7 = false)]
  · rcases bit_cases u 0x01 with h1 | h1 <;>
      simp only [setUpperAddress, h1, ne_eq, not_true_eq_false, not_false_eq_true,
        if_true, if_false] <;>
      simp [outPORTD, outPORTG]
  · exact (direct_upper_frame u s).2.2.1
  · exact (direct_upper_frame u s).2.2.2

end DirectPin

/-- C18.  The data-bus and the address-bus code keep to their own bits of the
ports they share.  `writeDataBus(v)`, for every byte `v` and every state,
changes only data-pin bits: on the Uno layout bits 2..7 of `PORTB` and bits
0..1 of `PORTD` keep their values, on the Mega layout the bits of `PORTE`,
`PORTG`, `PORTH` outside the data pins do, and no other register changes.
`setUpperAddress` changes only bits 2..4 of `PORTB` (Uno), only `PD7`, `PG1`,
`PG2` (Mega).  `setAddressRegister` changes only bits 3..5 of `PORTC` and bit
5 of `PORTB`, in the final state and at every assignment it makes, and assigns
no other port.  `readDataBus` returns the same value for two readings of the
input registers that agree on the eight data pins. -/
theorem bus_drivers_keep_to_their_bits :
    (∀ (v : Nat) (s : ShiftRegister.Driver), v < 256 →
      KeepsBits ShiftRegister.dataPinB s.bus.PORTB (ShiftRegister.writeDataBus v s).bus.PORTB ∧
      KeepsBits ShiftRegister.dataPinD s.bus.PORTD (ShiftRegister.writeDataBus v s).bus.PORTD ∧
      (ShiftRegister.writeDataBus v s).bus
        = { s.bus with PORTB := (ShiftRegister.writeDataBus v s).bus.PORTB,
                       PORTD := (ShiftRegister.writeDataBus v s).bus.PORTD }) ∧
    (∀ (v : Nat) (s : DirectPin.Driver),
      KeepsBits DirectPin.dataPinE s.bus.PORTE (DirectPin.writeDataBus v s).bus.PORTE ∧
      KeepsBits DirectPin.dataPinG s.bus.PORTG (DirectPin.writeDataBus v s).bus.PORTG ∧
      KeepsBits DirectPin.dataPinH s.bus.PORTH (DirectPin.writeDataBus v s).bus.PORTH ∧
      (DirectPin.writeDataBus v s).bus
        = { s.bus with PORTE := (DirectPin.writeDataBus v s).bus.PORTE,
                       PORTG := (DirectPin.writeDataBus v s).bus.PORTG,
                       PORTH := (DirectPin.writeDataBus v s).bus.PORTH }) ∧
    (∀ (u : Nat) (s : ShiftRegister.Driver),
      KeepsBits (fun k => 2 ≤ k ∧ k ≤ 4) s.bus.PORTB
        (ShiftRegister.setUpperAddress u s).bus.PORTB ∧
      (ShiftRegister.setUpperAddress u s).bus
        = { s.bus with PORTB := (ShiftRegister.setUpperAddress u s).bus.PORTB }) ∧
    (∀ (u : Nat) (s : DirectPin.Driver),
      KeepsBits (fun k => k = 7) s.bus.PORTD (DirectPin.setUpperAddress u s).bus.PORTD ∧
      KeepsBits (fun k => k = 1 ∨ k = 2) s.bus.PORTG
        (DirectPin.setUpperAddress u s).bus.PORTG ∧
      (DirectPin.setUpperAddress u s).bus
        = { s.bus with PORTD := (DirectPin.setUpperAddress u s).bus.PORTD,
                       PORTG := (DirectPin.setUpperAddress u s).bus.PORTG }) ∧
    (∀ (clkPin v : Nat) (s : ShiftRegister.Driver),
      KeepsBits (fun k => 3 ≤ k ∧ k ≤ 5) s.bus.PORTC
        (ShiftRegister.setAddressRegister clkPin v s).bus.PORTC ∧
      KeepsBits (fun k => k = 5) s.bus.PORTB
        (ShiftRegister.setAddressRegister clkPin v s).bus.PORTB ∧
      ((ShiftRegister.setAddressRegister clkPin v s).bus.PORTD = s.bus.PORTD ∧
        (ShiftRegister.setAddressRegister clkPin v s).bus.DDRB = s.bus.DDRB ∧
        (ShiftRegister.setAddressRegister clkPin v s).bus.DDRC = s.bus.DDRC ∧
        (ShiftRegister.setAddressRegister clkPin v s).bus.DDRD = s.bus.DDRD) ∧
      (∀ q ∈ valuesOn Port.C
          (ShiftRegister.newWrites s (ShiftRegister.setAddressRegister clkPin v s)),
        KeepsBits (fun k => 3 ≤ k ∧ k ≤ 5) s.bus.PORTC q) ∧
      (∀ q ∈ valuesOn Port.B
          (ShiftRegister.newWrites s (ShiftRegister.setAddressRegister clkPin v s)),
        KeepsBits (fun k => k = 5) s.bus.PORTB q) ∧
      (∀ p, p ≠ Port.B → p ≠ Port.C →
        valuesOn p (ShiftRegister.newWrites s (ShiftRegister.setAddressRegister clkPin v s))
          = [])) ∧
    (∀ i j : ShiftRegister.Inputs, i.Bytes → j.Bytes → ShiftRegister.SameDataPins i j →
      ShiftRegister.readDataBus i = ShiftRegister.readDataBus j) ∧
    (∀ i j : DirectPin.Inputs, DirectPin.SameDataPins i j →
      DirectPin.readDataBus i = DirectPin.readDataBus j) :=
  ⟨fun v s hv =>
      ⟨(ShiftRegister.writeDataBus_frame v hv s).1, (ShiftRegister.writeDataBus_frame v hv s).2.1,
        (ShiftRegister.writeDataBus_frame v hv s).2.2.1⟩,
   fun v s =>
      ⟨(DirectPin.direct_writeDataBus_frame v s).1, (DirectPin.direct_writeDataBus_frame v s).2.1,
        (DirectPin.direct_writeDataBus_frame v s).2.2.1,
        (DirectPin.direct_writeDataBus_frame v s).2.2.2.1⟩,
   fun u s =>
      ⟨(ShiftRegister.setUpperAddress_frame u s).1, (ShiftRegister.setUpperAddress_frame u s).2.1⟩,
   fun u s =>
      ⟨(DirectPin.direct_setUpperAddress_frame u s).1,
        (DirectPin.direct_setUpperAddress_frame u s).2.1,
        (DirectPin.direct_setUpperAddress_frame u s).2.2.1⟩,
   fun clkPin v s => ShiftRegister.setAddressRegister_ports clkPin v s,
   fun i j hi hj h => ShiftRegister.readDataBus_congr i j hi hj h,
   fun i j h => DirectPin.direct_readDataBus_congr i j h⟩

/-- C18 on concrete values: the byte `0xA5` written from the power-on state,
and two readings of the Uno input registers that differ outside the data
pins only. -/
theorem bus_drivers_keep_to_their_bits_witness :
    (0xA5 < 256 ∧ ShiftRegister.Inputs.Bytes ⟨0x03, 0xfc⟩ ∧
      ShiftRegister.Inputs.Bytes ⟨0xff, 0xff⟩ ∧
      ShiftRegister.SameDataPins ⟨0x03, 0xfc⟩ ⟨0xff, 0xff⟩) ∧
    KeepsBits ShiftRegister.dataPinB ShiftRegister.bootState.bus.PORTB
      (ShiftRegister.writeDataBus 0xA5 ShiftRegister.bootState).bus.PORTB ∧
    KeepsBits ShiftRegister.dataPinD ShiftRegister.bootState.bus.PORTD
      (ShiftRegister.writeDataBus 0xA5 ShiftRegister.bootState).bus.PORTD ∧
    ShiftRegister.readDataBus ⟨0x03, 0xfc⟩ = ShiftRegister.readDataBus ⟨0xff, 0xff⟩ :=
  have hB1 : ShiftRegister.Inputs.Bytes ⟨0x03, 0xfc⟩ := ⟨by decide, by decide⟩
  have hB2 : ShiftRegister.Inputs.Bytes ⟨0xff, 0xff⟩ := ⟨by decide, by decide⟩
  have hS : ShiftRegister.SameDataPins ⟨0x03, 0xfc⟩ ⟨0xff, 0xff⟩ :=
    ⟨fun k hk => by
        have hk2 : k < 2 := hk
        interval_cases k <;> decide,
     fun k hk => by
        obtain ⟨h2, h8⟩ : 2 ≤ k ∧ k < 8 := hk
        interval_cases k <;> decide⟩
  ⟨⟨by norm_num, hB1, hB2, hS⟩,
   (bus_drivers_keep_to_their_bits.1 0xA5 ShiftRegister.bootState (by norm_num)).1,
   (bus_drivers_keep_to_their_bits.1 0xA5 ShiftRegister.bootState (by norm_num)).2.1,
   bus_drivers_keep_to_their_bits.2.2.2.2.2.1 _ _ hB1 hB2 hS⟩

end TommyPROM
